import Mathlib

/-! tester-utils: process supervisor and step orchestrator.

A shallow embedding of the Go packages `executable`, `test_case_harness`,
`tester_definition` and `test_runner`.

Conventions of the embedding:

* a Go pointer or interface field is an `Option`; `none` is `nil`;
* a method with a pointer receiver takes the receiver's state and returns the new state
  together with its Go results;
* what the operating system (or a goroutine running next to the method) answers during one
  call is an explicit argument of the call, a record named `...Env`;
* the observable actions of a call (signals sent, processes spawned, callbacks invoked) are
  returned as a list, in the order the call performs them.
-/

namespace TesterUtils

/-- Bytes of a Go `[]byte`. -/
abbrev Bytes := List Nat

/-- The test `strings.Contains(s, sub)`. -/
def strContains (s sub : String) : Prop := sub.data <:+: s.data

instance (s sub : String) : Decidable (strContains s sub) := by
  unfold strContains; infer_instance

/-! ## Go standard library, as far as `executable` uses it -/

namespace filepath

/-- Drops the trailing `/` characters of a path (the first loop of `filepath.Base`). -/
def stripTrailingSeparators (p : List Char) : List Char :=
  (p.reverse.dropWhile (fun c => c == '/')).reverse

/-- The part of a path after its last `/` (the second loop of `filepath.Base`). -/
def lastElement (p : List Char) : List Char :=
  (p.reverse.takeWhile (fun c => c != '/')).reverse

/-- Go `filepath.Base` on Unix (the separator is `/`, the volume name is empty): the last
element of the path, `"."` for the empty path and `"/"` for a path of slashes only. -/
def Base (path : String) : String :=
  if path.data = [] then "."
  else
    let p := lastElement (stripTrailingSeparators path.data)
    if p = [] then "/" else String.mk p

end filepath

namespace executable

/-- An error value. `new` is an error this package builds itself with `errors.New` or
`fmt.Errorf`; `external` is an error value handed back by `os`, `os/exec` or `context`. -/
inductive Error where
  | new (msg : String)
  | external (msg : String)
  deriving DecidableEq, Repr

set_option linter.dupNamespace false in
/-- The Go method `err.Error()`. -/
def Error.Error : Error → String
  | .new msg => msg
  | .external msg => msg

/-- Go `fs.FileInfo`, reduced to its `fs.FileMode` bits. -/
structure FileInfo where
  Mode : Nat
  deriving DecidableEq, Repr

/-- Go `FileMode.Perm()`: the nine Unix permission bits. -/
def FileInfo.Perm (fi : FileInfo) : Nat := fi.Mode &&& 0o777

/-- Go `FileInfo.IsDir()`: the bit `fs.ModeDir = 1 << 31`. -/
def FileInfo.IsDir (fi : FileInfo) : Bool := fi.Mode &&& 2 ^ 31 != 0

/-- One end of an OS pipe. -/
structure Pipe where
  fd : Nat
  deriving DecidableEq, Repr

/-- Go `*os.Process`. -/
structure Process where
  Pid : Nat
  deriving DecidableEq, Repr

/-- The `context.Context` made by `context.WithTimeout`: its deadline is the moment of the
call plus `timeoutMs` milliseconds. -/
structure Context where
  timeoutMs : Int
  deriving DecidableEq, Repr

/-- The `*exec.Cmd` that `Start` builds and launches. -/
structure Cmd where
  Path : String
  Args : List String
  Dir : String
  Setpgid : Bool
  Pid : Nat
  deriving DecidableEq, Repr

/-- The value of the `loggerFunc func(string)` field. -/
inductive LoggerFunc where
  | nil
  | nullLogger
  | custom (id : Nat)
  deriving DecidableEq, Repr

/-- Signals sent with `syscall.Kill`. -/
inductive Signal where
  | SIGTERM
  | SIGKILL
  deriving DecidableEq, Repr

/-- Observable actions of the methods of `Executable`. -/
inductive Effect where
  /-- The call `cmd.Start()` launched a process with this pid. -/
  | spawn (pid : Nat)
  /-- The call `setupIORelay` launched a relay goroutine on the pipe. -/
  | startRelay (source : Pipe)
  /-- The call `e.StdinPipe.Close()`. -/
  | closeStdin
  /-- One receive `<-e.readDone`. -/
  | recvReadDone
  /-- The call `e.cmd.Wait()`. -/
  | cmdWait
  /-- The call `Flush()` on the stdout (`false`) or stderr (`true`) line writer. -/
  | flush (stderr : Bool)
  /-- The call `e.ctxCancelFunc()`. -/
  | cancelCtx
  /-- The call `syscall.Kill(target, sig)`; a negative target is a process group. -/
  | kill (target : Int) (sig : Signal)
  /-- The call `e.loggerFunc(msg)`. -/
  | loggerFunc (msg : String)
  deriving DecidableEq, Repr

/-- The Go struct `Executable`. -/
structure Executable where
  Path : String
  TimeoutInMilliseconds : Int
  loggerFunc : LoggerFunc
  ctxWithTimeout : Option Context
  ctxCancelFunc : Option Context
  WorkingDir : String
  Process : Option Process
  StdinPipe : Option Pipe
  atleastOneReadDone : Bool
  cmd : Option Cmd
  stdoutPipe : Option Pipe
  stderrPipe : Option Pipe
  stdoutBytes : Option Bytes
  stderrBytes : Option Bytes
  stdoutBuffer : Option Bytes
  stderrBuffer : Option Bytes
  stdoutLineWriter : Option LoggerFunc
  stderrLineWriter : Option LoggerFunc
  readDone : Option Unit
  deriving DecidableEq, Repr

/-- The Go struct `ExecutableResult`. -/
structure ExecutableResult where
  Stdout : Bytes
  Stderr : Bytes
  ExitCode : Int
  deriving DecidableEq, Repr

/-- A composite literal `&Executable{Path: …, TimeoutInMilliseconds: …, loggerFunc: …,
WorkingDir: …}`: every other field has its zero value. -/
def Executable.literal (path : String) (timeout : Int) (loggerFunc : LoggerFunc)
    (workingDir : String) : Executable :=
  { Path := path, TimeoutInMilliseconds := timeout, loggerFunc := loggerFunc,
    ctxWithTimeout := none, ctxCancelFunc := none, WorkingDir := workingDir,
    Process := none, StdinPipe := none, atleastOneReadDone := false, cmd := none,
    stdoutPipe := none, stderrPipe := none, stdoutBytes := none, stderrBytes := none,
    stdoutBuffer := none, stderrBuffer := none, stdoutLineWriter := none,
    stderrLineWriter := none, readDone := none }

/-- Go `Executable.Clone`. -/
def Executable.Clone (e : Executable) : Executable :=
  Executable.literal e.Path e.TimeoutInMilliseconds e.loggerFunc e.WorkingDir

/-- Go `NewExecutable`. -/
def NewExecutable (path : String) : Executable :=
  Executable.literal path (10 * 1000) LoggerFunc.nullLogger ""

/-- Go `NewVerboseExecutable`. -/
def NewVerboseExecutable (path : String) (loggerFunc : LoggerFunc) : Executable :=
  Executable.literal path (10 * 1000) loggerFunc ""

/-- Go `Executable.isRunning`. -/
def Executable.isRunning (e : Executable) : Bool := e.cmd.isSome

/-- Go `Executable.HasExited`. -/
def Executable.HasExited (e : Executable) : Bool := e.atleastOneReadDone

/-- What the operating system answers during one call of `Start`. An `Except.error` carries
the message of the error the library call returns. -/
structure StartEnv where
  /-- Go `exec.LookPath`. -/
  lookPath : String → Except String String
  /-- Go `filepath.Abs`. -/
  abs : String → Except String String
  /-- Go `os.Stat`. -/
  stat : String → Except String FileInfo
  /-- Go `cmd.StdoutPipe()`. -/
  stdoutPipe : Except String Pipe
  /-- Go `cmd.StderrPipe()`. -/
  stderrPipe : Except String Pipe
  /-- Go `cmd.StdinPipe()`. -/
  stdinPipe : Except String Pipe
  /-- Go `cmd.Start()`: the pid of the launched process. -/
  start : Except String Nat
  /-- Go `os.FindProcess`; on Unix it never returns an error. -/
  findProcess : Nat → Except String Process

/-- The text of the error of line 107. -/
def alreadyInProgressMsg : String := "process already in progress"

/-- The text `fmt.Sprintf("%s not found", filepath.Base(path))`. -/
def notFoundMsg (path : String) : String := filepath.Base path ++ " not found"

/-- The text `fmt.Sprintf("%s (resolved to %s) is not an executable file", path, abs)`. -/
def notExecutableMsg (path absolutePath : String) : String :=
  path ++ " (resolved to " ++ absolutePath ++ ") is not an executable file"

/-- Path resolution at the head of `Start`: `exec.LookPath` first, `filepath.Abs` as the
fallback; `none` when both return an error. -/
def resolvePath (os : StartEnv) (path : String) : Option String :=
  match os.lookPath path with
  | .ok resolvedPath => some resolvedPath
  | .error _ =>
    match os.abs path with
    | .ok absolutePath => some absolutePath
    | .error _ => none

/-- The part of `Start` from `context.WithTimeout` on (lines 133-180): the handle after the
call, the returned error and the actions performed. Fields are assigned one by one, so an
early return keeps the assignments made before it; a library call that fails returns `nil`
next to its error, and the `nil` is assigned too. -/
def Executable.launch (os : StartEnv) (e : Executable) (args : List String) :
    Executable × Option Error × List Effect :=
  let ctx : Context := { timeoutMs := e.TimeoutInMilliseconds }
  let e := { e with ctxWithTimeout := some ctx, ctxCancelFunc := some ctx }
  let e := { e with readDone := some (), atleastOneReadDone := false }
  match os.stdoutPipe with
  | .error err => ({ e with stdoutPipe := none }, some (.external err), [])
  | .ok stdoutPipe =>
  let e := { e with stdoutPipe := some stdoutPipe, stdoutBytes := some [],
                    stdoutBuffer := some [], stdoutLineWriter := some e.loggerFunc }
  match os.stderrPipe with
  | .error err => ({ e with stderrPipe := none }, some (.external err), [])
  | .ok stderrPipe =>
  let e := { e with stderrPipe := some stderrPipe, stderrBytes := some [],
                    stderrBuffer := some [], stderrLineWriter := some e.loggerFunc }
  match os.stdinPipe with
  | .error err => ({ e with StdinPipe := none }, some (.external err), [])
  | .ok stdinPipe =>
  let e := { e with StdinPipe := some stdinPipe }
  match os.start with
  | .error err => (e, some (.external err), [])
  | .ok pid =>
  match os.findProcess pid with
  | .error err => ({ e with Process := none }, some (.external err), [.spawn pid])
  | .ok process =>
  let e := { e with Process := some process }
  let cmd : Cmd :=
    { Path := e.Path, Args := args, Dir := e.WorkingDir, Setpgid := true, Pid := pid }
  ({ e with cmd := some cmd }, none,
    [.spawn pid, .startRelay stdoutPipe, .startRelay stderrPipe])

/-- Go `Executable.Start`. -/
def Executable.Start (os : StartEnv) (e : Executable) (args : List String) :
    Executable × Option Error × List Effect :=
  if e.isRunning then (e, some (.new alreadyInProgressMsg), [])
  else
    match resolvePath os e.Path with
    | none => (e, some (.new (notFoundMsg e.Path)), [])
    | some absolutePath =>
      match os.stat absolutePath with
      | .error _ => (e, some (.new (notFoundMsg e.Path)), [])
      | .ok fileInfo =>
        if fileInfo.Perm &&& 0o111 == 0 || fileInfo.IsDir then
          (e, some (.new (notExecutableMsg e.Path absolutePath)), [])
        else e.launch os args

/-- The cap of a relay: `1024*1024` bytes. -/
def relayLimit : Nat := 1024 * 1024

/-- The goroutine of `setupIORelay` on a stream whose writer produces `source` before closing
it: the bytes that reach the buffer (`io.Copy` through `io.LimitReader`) and the calls of
`loggerFunc` for the warning. -/
def setupIORelay (source : Bytes) : Bytes × List Effect :=
  let copied := source.take relayLimit
  let bytesWritten := copied.length
  (copied,
    if bytesWritten == relayLimit then
      [.loggerFunc "Warning: Logs exceeded allowed limit, output might be truncated.\n"]
    else [])

/-- Go `syscall.WaitStatus` of a reaped process. -/
inductive WaitStatus where
  | exited (code : Nat)
  | signaled (sig : Nat)
  deriving DecidableEq, Repr

/-- What `e.cmd.Wait()` returns. -/
inductive CmdWaitResult where
  /-- A `nil` error: the process exited with status 0. -/
  | success
  /-- An `*exec.ExitError`: the process exited with a non-zero status or was signaled. -/
  | exitError (status : WaitStatus)
  /-- Any other error, with the value of `ProcessState.ExitCode()` next to it. -/
  | otherError (msg : String) (exitCode : Int)
  deriving DecidableEq, Repr

/-- Go `e.cmd.ProcessState.ExitCode()`: the exit status, `-1` for a signaled process. -/
def CmdWaitResult.ExitCode : CmdWaitResult → Int
  | .success => 0
  | .exitError (.exited code) => code
  | .exitError (.signaled _) => -1
  | .otherError _ exitCode => exitCode

/-- What the subject and the operating system do during one call of `Wait`. -/
structure WaitEnv where
  /-- The bytes the subject writes to its standard output before closing it. -/
  stdout : Bytes
  /-- The bytes the subject writes to its standard error before closing it. -/
  stderr : Bytes
  /-- The result of `e.cmd.Wait()`. -/
  cmdWait : CmdWaitResult
  /-- Whether `e.ctxWithTimeout.Err() == context.DeadlineExceeded` after the process wait. -/
  deadlineExceeded : Bool
  deriving DecidableEq, Repr

/-- How a call of `Wait` ends. -/
inductive WaitOutcome where
  | returned (result : ExecutableResult) (err : Option Error)
  /-- A run-time panic (nil dereference) leaves the call. -/
  | panicked
  /-- The call blocks for ever on `<-e.readDone`. -/
  | blocked
  deriving DecidableEq, Repr

/-- The assignments of the deferred function of `Wait` (lines 231-244). -/
def Executable.waitReset (e : Executable) : Executable :=
  { e with atleastOneReadDone := false, cmd := none, ctxCancelFunc := none,
           ctxWithTimeout := none, stdoutPipe := none, stderrPipe := none,
           stdoutBuffer := none, stderrBuffer := none, stdoutBytes := none,
           stderrBytes := none, stdoutLineWriter := none, stderrLineWriter := none,
           readDone := none, StdinPipe := none }

/-- The deferred function of `Wait`: it calls `e.ctxCancelFunc()` first, which panics on a
nil function before any field is reset. -/
def Executable.waitDeferred (e : Executable) : Executable × Bool × List Effect :=
  match e.ctxCancelFunc with
  | none => (e, false, [])
  | some _ => (e.waitReset, true, [.cancelCtx])

/-- The exit code and error that `Wait` derives from `e.cmd.Wait()` (lines 252-270):
`Except.error` is the early return of line 268. -/
def waitExitCode (r : CmdWaitResult) : Except Error Int :=
  match r with
  | .success => .ok r.ExitCode
  | .exitError status =>
    if r.ExitCode == -1 then
      match status with
      | .signaled sig => .ok (128 + (sig : Int))
      | .exited _ => .ok r.ExitCode
    else .ok r.ExitCode
  | .otherError msg _ => .error (.external msg)

/-- Go `Executable.Wait`. The relay goroutines exist exactly while `e.cmd` is set (they are
launched right after `e.cmd = cmd` and have both sent on `readDone` before `Wait` resets
it), so the two receives complete exactly when `e.cmd` and `e.readDone` are set. -/
def Executable.Wait (env : WaitEnv) (e : Executable) :
    Executable × WaitOutcome × List Effect :=
  match e.StdinPipe with
  | none =>
    let (e, _, effects) := e.waitDeferred
    (e, .panicked, effects)
  | some _ =>
    match e.readDone, e.cmd with
    | some _, some _ =>
      let stdout := (setupIORelay env.stdout).1
      let stderr := (setupIORelay env.stderr).1
      let body : List Effect := [.closeStdin, .recvReadDone, .recvReadDone, .cmdWait]
      match waitExitCode env.cmdWait with
      | .error err =>
        let (e, ok, effects) := e.waitDeferred
        (e, if ok then .returned ⟨[], [], 0⟩ (some err) else .panicked, body ++ effects)
      | .ok exitCode =>
        match e.stdoutLineWriter, e.stderrLineWriter, e.stdoutBuffer, e.stderrBuffer,
              e.ctxWithTimeout with
        | some _, some _, some _, some _, some _ =>
          let result : ExecutableResult :=
            { Stdout := stdout, Stderr := stderr, ExitCode := exitCode }
          let (e, ok, effects) := e.waitDeferred
          let outcome :=
            if !ok then WaitOutcome.panicked
            else if env.deadlineExceeded then
              .returned ⟨[], [], 0⟩ (some (.new "execution timed out"))
            else .returned result none
          (e, outcome, body ++ [.flush false, .flush true] ++ effects)
        | _, _, _, _, _ =>
          let (e, _, effects) := e.waitDeferred
          (e, .panicked, body ++ effects)
    | _, _ => (e, .blocked, [.closeStdin])

/-- What happens around one call of `Kill` on a running handle. -/
structure KillEnv where
  /-- The environment of the `Wait` that the goroutine of `Kill` calls. -/
  wait : WaitEnv
  /-- Whether that `Wait` returns before the 2-second timer fires. -/
  reapedInTime : Bool
  deriving DecidableEq, Repr

/-- How a call of `Kill` ends. -/
inductive KillOutcome where
  | returned (err : Option Error)
  | panicked
  | blocked
  deriving DecidableEq, Repr

/-- Go `Executable.Kill`. When the timer wins, the two `SIGKILL`s are sent while the `Wait`
of the goroutine is still pending, after it has closed stdin. -/
def Executable.Kill (env : KillEnv) (e : Executable) :
    Executable × KillOutcome × List Effect :=
  match e.cmd with
  | none => (e, .returned none, [])
  | some cmd =>
    let sigterm : List Effect :=
      [.kill (cmd.Pid : Int) .SIGTERM, .kill (-(cmd.Pid : Int)) .SIGTERM]
    let sigkill : List Effect :=
      [.kill (cmd.Pid : Int) .SIGKILL, .kill (-(cmd.Pid : Int)) .SIGKILL]
    let (e, outcome, effects) := e.Wait env.wait
    match outcome with
    | .panicked => (e, .panicked, sigterm ++ effects)
    | .blocked =>
      if env.reapedInTime then (e, .blocked, sigterm ++ effects)
      else (e, .blocked, sigterm ++ effects ++ sigkill)
    | .returned _ err =>
      if env.reapedInTime then (e, .returned err, sigterm ++ effects)
      else
        (e, .returned (some (.new
            "program failed to exit in 2 seconds after receiving sigterm")),
          sigterm ++ effects.take 1 ++ sigkill ++ effects.drop 1)

end executable

/-! ## Go `time.Duration` -/

namespace time

/-- Go `time.Duration`: a number of nanoseconds. -/
abbrev Duration := Int

/-- Go `time.Second`. -/
def Second : Duration := 1000000000

/-- The float64 nearest to the rational `n / d` (round to nearest, ties to even), for
`0 < n`, `0 < d` and a quotient in the normal range below `2^53`: the result is the pair
`(m, k)` that stands for `m / 2^k`. -/
def roundFloat64 (n d : Nat) : Nat × Nat :=
  -- the binary exponent `e` of the quotient is `52 - k`
  let k : Nat :=
    if d ≤ n then 52 - Nat.log2 (n / d)
    else
      let s := Nat.log2 (d / n)
      52 + (if d ≤ n * 2 ^ s then s else s + 1)
  let q := n * 2 ^ k / d
  let r := n * 2 ^ k % d
  let m := if d < 2 * r then q + 1 else if 2 * r = d then q + q % 2 else q
  (m, k)

/-- The value `int64(d.Seconds())` for `0 ≤ d`, `d` given as a natural number:
`Seconds` computes `float64(sec) + float64(nsec)/1e9` with `sec = d / Second` and
`nsec = d % Second`, each operation rounded to float64, and the conversion truncates. -/
def truncSecondsNat (d : Nat) : Nat :=
  let sec := d / 1000000000
  let nsec := d % 1000000000
  if nsec = 0 then sec
  else
    let frac := roundFloat64 nsec 1000000000
    let sum := roundFloat64 (sec * 2 ^ frac.2 + frac.1) (2 ^ frac.2)
    sum.1 / 2 ^ sum.2

/-- The value `int64(d.Seconds())`. Division, remainder, float64 rounding and the
conversion are all symmetric around zero. -/
def truncSeconds (d : Duration) : Int :=
  if 0 ≤ d then (truncSecondsNat d.toNat : Int) else -(truncSecondsNat (-d).toNat : Int)

end time

/-! ## Package `logger`, as far as `test_runner` uses it -/

namespace logger

/-- The Go struct `Logger` without its `log.Logger`, whose output prefix is computed from
the two prefix fields. The field `pfx` is the Go field named prefix. -/
structure Logger where
  IsDebug : Bool
  IsQuiet : Bool
  pfx : String
  secondaryPrefixes : List String
  deriving DecidableEq, Repr

/-- Go `GetLogger`. -/
def GetLogger (isDebug : Bool) (p : String) : Logger :=
  { IsDebug := isDebug, IsQuiet := false, pfx := p, secondaryPrefixes := [] }

/-- Go `GetQuietLogger`. -/
def GetQuietLogger (p : String) : Logger :=
  { IsDebug := false, IsQuiet := true, pfx := p, secondaryPrefixes := [] }

/-- The logging methods that `TestRunner.Run` calls. -/
inductive Method where
  | Infof
  | Successf
  | Errorf
  deriving DecidableEq, Repr

end logger

/-! ## Package `test_case_harness` -/

namespace test_case_harness

/-- A teardown closure `func()`, named by an identifier: calling it is recorded, what it
does is its own business. -/
abbrev TeardownFunc := Nat

/-- The Go struct `TestCaseHarness`. -/
structure TestCaseHarness where
  Logger : logger.Logger
  Executable : executable.Executable
  teardownFuncs : List TeardownFunc
  deriving DecidableEq, Repr

/-- Go `TestCaseHarness.RegisterTeardownFunc`. -/
def TestCaseHarness.RegisterTeardownFunc (s : TestCaseHarness) (teardownFunc : TeardownFunc) :
    TestCaseHarness :=
  { s with teardownFuncs := s.teardownFuncs ++ [teardownFunc] }

/-- The loop `for _, teardownFunc := range funcs { teardownFunc() }`: the closures
called, in the order of the calls. -/
def callEach : List TeardownFunc → List TeardownFunc
  | [] => []
  | teardownFunc :: rest => teardownFunc :: callEach rest

/-- Go `TestCaseHarness.RunTeardownFuncs`: the harness after the call and the closures it
called, in order. -/
def TestCaseHarness.RunTeardownFuncs (s : TestCaseHarness) :
    TestCaseHarness × List TeardownFunc :=
  (s, callEach s.teardownFuncs)

/-- Go `TestCaseHarness.NewExecutable`. -/
def TestCaseHarness.NewExecutable (s : TestCaseHarness) : executable.Executable :=
  s.Executable.Clone

end test_case_harness

/-! ## Package `tester_definition` -/

namespace tester_definition

open test_case_harness

/-- What one call of a test procedure does, as far as its caller can observe it. Times are
measured from the moment of the call. A procedure that panics ends the whole program and
is not described here. -/
structure TestFuncRun where
  /-- The calls `harness.RegisterTeardownFunc(f)` made by the procedure, in program order,
  each with the time at which it is made. -/
  registers : List (time.Duration × TeardownFunc)
  /-- The time at which the procedure returns and the error it returns (`none` is `nil`);
  `none` for a procedure that never returns. -/
  returns : Option (time.Duration × Option String)

/-- The Go struct `TestCase`. A `nil` `TestFunc` is `none`. -/
structure TestCase where
  Slug : String
  TestFunc : Option (TestCaseHarness → TestFuncRun)
  Timeout : time.Duration

/-- Go `TestCase.CustomOrDefaultTimeout`. -/
def TestCase.CustomOrDefaultTimeout (t : TestCase) : time.Duration :=
  if t.Timeout == 0 || t.Timeout == (0 : time.Duration) then 10 * time.Second
  else t.Timeout

end tester_definition

/-! ## Package `test_runner` -/

namespace test_runner

open test_case_harness tester_definition

/-- The Go struct `TestRunnerStep`. -/
structure TestRunnerStep where
  TestCase : TestCase
  TesterLogPrefix : String
  Title : String

/-- The Go struct `TestRunner`. -/
structure TestRunner where
  isQuiet : Bool
  steps : List TestRunnerStep

/-- Go `NewTestRunner`. -/
def NewTestRunner (steps : List TestRunnerStep) : TestRunner :=
  { isQuiet := false, steps := steps }

/-- Go `NewQuietTestRunner`. -/
def NewQuietTestRunner (steps : List TestRunnerStep) : TestRunner :=
  { isQuiet := true, steps := steps }

/-- Observable actions of `TestRunner.Run`. -/
inductive Action where
  /-- The call `fmt.Println("")`. -/
  | println
  /-- A call of a logging method on the logger of the step, with the formatted message. -/
  | log (l : logger.Logger) (method : logger.Method) (msg : String)
  /-- The call `step.TestCase.TestFunc(&testCaseHarness)` in the goroutine of the step. -/
  | testFunc
  /-- A call of a teardown closure. -/
  | teardown (f : TeardownFunc)
  deriving DecidableEq, Repr

/-- An action together with the index of the step in whose loop iteration it happens. -/
abbrev Event := Nat × Action

/-- Go `TestRunner.getLoggerForStep`. -/
def TestRunner.getLoggerForStep (r : TestRunner) (isDebug : Bool) (step : TestRunnerStep) :
    logger.Logger :=
  if r.isQuiet then logger.GetQuietLogger ""
  else logger.GetLogger isDebug ("[" ++ step.TesterLogPrefix ++ "] ")

/-- Go `TestRunner.reportTestError`: the logging calls it makes. -/
def TestRunner.reportTestError (_r : TestRunner) (err : String) (isDebug : Bool)
    (logger : logger.Logger) : List Action :=
  .log logger .Errorf err ::
    (if isDebug then [.log logger .Errorf "Test failed"]
     else [.log logger .Errorf ("Test failed " ++
       "(try setting \x27debug: true\x27 in your codecrafters.yml to see more details)")])

/-- The text `fmt.Sprintf("timed out, test exceeded %d seconds", int64(timeout.Seconds()))`. -/
def timedOutMsg (timeout : time.Duration) : String :=
  "timed out, test exceeded " ++ toString (time.truncSeconds timeout) ++ " seconds"

/-- The harness after the procedure has made those of its `RegisterTeardownFunc` calls
whose time satisfies `made`. -/
def registerAll (h : TestCaseHarness) (registers : List (time.Duration × TeardownFunc))
    (made : time.Duration → Bool) : TestCaseHarness :=
  (registers.filter (fun c => made c.1)).foldl (fun h c => h.RegisterTeardownFunc c.2) h

/-- The `select` of `Run` (lines 63-69), racing the result channel against
`time.After(timeout)`: the harness as the procedure has left it when the race is decided,
and the value of `err`. The procedure wins when it returns before the timer fires. -/
def raceStep (h : TestCaseHarness) (run : TestFuncRun) (timeout : time.Duration) :
    TestCaseHarness × Option String :=
  match run.returns with
  | some (t, stageErr) =>
    if t < timeout then (registerAll h run.registers (fun u => u ≤ t), stageErr)
    else (registerAll h run.registers (fun u => u < timeout), some (timedOutMsg timeout))
  | none => (registerAll h run.registers (fun u => u < timeout), some (timedOutMsg timeout))

/-- The harness that `Run` builds for a step (lines 47-50). -/
def TestRunner.newHarness (r : TestRunner) (isDebug : Bool)
    (executable : executable.Executable) (step : TestRunnerStep) : TestCaseHarness :=
  { Logger := r.getLoggerForStep isDebug step, Executable := executable.Clone,
    teardownFuncs := [] }

/-- The logging calls that report the value of `err` (lines 71-75). -/
def TestRunner.report (r : TestRunner) (isDebug : Bool) (logger : logger.Logger) :
    Option String → List Action
  | some msg => r.reportTestError msg isDebug logger
  | none => [.log logger .Successf "Test passed."]

/-- The actions of one iteration up to the launch of the goroutine (lines 43-59). -/
def TestRunner.beforeRace (r : TestRunner) (isDebug : Bool) (index : Nat)
    (step : TestRunnerStep) : List Action :=
  (if index != 0 then [.println] else []) ++
    [.log (r.getLoggerForStep isDebug step) .Infof ("Running tests for " ++ step.Title),
     .testFunc]

/-- One iteration of the loop of `TestRunner.Run` (lines 43-81), for the step at position
`index`: the value of `err` when the iteration reaches line 79, and the actions of the
iteration. The first component is `none` when the program ends in a panic instead (the
goroutine calls a `nil` `TestFunc`). -/
def TestRunner.runStep (r : TestRunner) (isDebug : Bool) (executable : executable.Executable)
    (index : Nat) (step : TestRunnerStep) : Option (Option String) × List Action :=
  let testCaseHarness := r.newHarness isDebug executable step
  let logger := testCaseHarness.Logger
  match step.TestCase.TestFunc with
  | none => (none, r.beforeRace isDebug index step)
  | some testFunc =>
    let timeout := step.TestCase.CustomOrDefaultTimeout
    let (testCaseHarness, err) := raceStep testCaseHarness (testFunc testCaseHarness) timeout
    (some err,
      r.beforeRace isDebug index step ++ r.report isDebug logger err ++
        testCaseHarness.RunTeardownFuncs.2.map .teardown)

/-- The loop of `TestRunner.Run` over the steps from position `index` on: the returned
value, `none` when the program ends in a panic, and the actions performed. -/
def TestRunner.runFrom (r : TestRunner) (isDebug : Bool) (executable : executable.Executable) :
    Nat → List TestRunnerStep → Option Bool × List Event
  | _, [] => (some true, [])
  | index, step :: rest =>
    let (outcome, actions) := r.runStep isDebug executable index step
    let events : List Event := actions.map (fun a => (index, a))
    match outcome with
    | none => (none, events)
    | some (some _) => (some false, events)
    | some none =>
      let (result, later) := TestRunner.runFrom r isDebug executable (index + 1) rest
      (result, events ++ later)

/-- Go `TestRunner.Run`. -/
def TestRunner.Run (r : TestRunner) (isDebug : Bool) (executable : executable.Executable) :
    Option Bool × List Event :=
  r.runFrom isDebug executable 0 r.steps

/-- A step passes: it has a test procedure, and on the harness built for the step the
procedure returns before the step timeout elapses, with a `nil` error. -/
def TestRunner.stepPasses (r : TestRunner) (isDebug : Bool)
    (executable : executable.Executable) (step : TestRunnerStep) : Bool :=
  match step.TestCase.TestFunc with
  | none => false
  | some testFunc =>
    match (testFunc (r.newHarness isDebug executable step)).returns with
    | some (t, none) => decide (t < step.TestCase.CustomOrDefaultTimeout)
    | _ => false

/-- A step fails or times out: it has a test procedure and does not pass. -/
def TestRunner.stepFails (r : TestRunner) (isDebug : Bool)
    (executable : executable.Executable) (step : TestRunnerStep) : Bool :=
  step.TestCase.TestFunc.isSome && !r.stepPasses isDebug executable step

/-- Whether an action is the call of a test procedure. -/
def Action.isTestFunc : Action → Bool
  | .testFunc => true
  | _ => false

/-- The positions of the steps whose test procedure a run calls, in the order of the
calls. -/
def invokedSteps (trace : List Event) : List Nat :=
  (trace.filter (fun ev => ev.2.isTestFunc)).map Prod.fst

/-- The teardown closures that a run calls during the iteration of the step at position
`i`, in the order of the calls. -/
def teardownsOf (i : Nat) (trace : List Event) : List TeardownFunc :=
  trace.filterMap (fun ev =>
    match ev with
    | (j, .teardown f) => if j = i then some f else none
    | _ => none)

/-- A test case whose procedure registers closures 7 and 8 and returns `nil` after 5 ns. -/
def passingCase : TestCase :=
  { Slug := "pass", Timeout := 0,
    TestFunc := some (fun _ => { registers := [(1, 7), (2, 8)], returns := some (5, none) }) }

/-- A test case whose procedure registers closure 9 and returns an error after 5 ns. -/
def failingCase : TestCase :=
  { Slug := "fail", Timeout := 0,
    TestFunc := some (fun _ => { registers := [(1, 9)], returns := some (5, some "fail") }) }

/-- A test case with a timeout of 1.5 s whose procedure registers closure 10 at once,
closure 11 after 2 s, and never returns. -/
def hangingCase : TestCase :=
  { Slug := "hang", Timeout := 1500000000,
    TestFunc := some (fun _ =>
      { registers := [(1, 10), (2000000000, 11)], returns := none }) }

/-- A runner over a passing, a hanging and a passing step. -/
def sampleRunner : TestRunner :=
  NewTestRunner
    [{ TestCase := passingCase, TesterLogPrefix := "stage-1", Title := "Stage #1" },
     { TestCase := hangingCase, TesterLogPrefix := "stage-2", Title := "Stage #2" },
     { TestCase := passingCase, TesterLogPrefix := "stage-3", Title := "Stage #3" }]

/-- A harness on which closure 7 has been registered. -/
def sampleHarness : TestCaseHarness :=
  TestCaseHarness.RegisterTeardownFunc
    { Logger := logger.GetLogger false "[stage-1] ",
      Executable := executable.NewExecutable "/blah", teardownFuncs := [] } 7

end test_runner

/-! ## Sequences of calls on a handle, and sample environments -/

namespace executable

/-- One call of a method of `Executable`, with what the operating system and the subject do
during the call. -/
inductive Call where
  | Start (os : StartEnv) (args : List String)
  | Wait (env : WaitEnv)
  | Kill (env : KillEnv)

/-- The handle after one call. -/
def Executable.call (e : Executable) : Call → Executable
  | .Start os args => (e.Start os args).1
  | .Wait env => (e.Wait env).1
  | .Kill env => (e.Kill env).1

/-- The handle after a sequence of calls. -/
def Executable.calls (e : Executable) (cs : List Call) : Executable :=
  cs.foldl Executable.call e

/-- All the running-state fields are set: the OS process handle, the stdin pipe, the stdout
and stderr pipes and buffers, the drain channel and the command. -/
def Executable.allSet (e : Executable) : Bool :=
  e.Process.isSome && e.StdinPipe.isSome && e.stdoutPipe.isSome && e.stderrPipe.isSome &&
    e.stdoutBuffer.isSome && e.stderrBuffer.isSome && e.readDone.isSome && e.cmd.isSome

/-- All the running-state fields are cleared. -/
def Executable.allCleared (e : Executable) : Bool :=
  e.Process.isNone && e.StdinPipe.isNone && e.stdoutPipe.isNone && e.stderrPipe.isNone &&
    e.stdoutBuffer.isNone && e.stderrBuffer.isNone && e.readDone.isNone && e.cmd.isNone

/-- The running-state fields that the deferred function of `Wait` resets are cleared: the
stdin pipe, the stdout and stderr pipes and buffers, the drain channel and the command. -/
def Executable.resetFieldsCleared (e : Executable) : Bool :=
  e.StdinPipe.isNone && e.stdoutPipe.isNone && e.stderrPipe.isNone &&
    e.stdoutBuffer.isNone && e.stderrBuffer.isNone && e.readDone.isNone && e.cmd.isNone

/-- A file system with the executable `/bin/prog` (mode 0755), the plain file
`/tmp/notes.txt` (mode 0644) and the directory `/tmp`; nothing is found through `PATH`, and
pipes and processes can be created. -/
def sampleOS : StartEnv :=
  { lookPath := fun _ => .error "executable file not found in $PATH"
    abs := fun p => .ok (if p.data.head? = some '/' then p else "/work/" ++ p)
    stat := fun p =>
      if p = "/bin/prog" then .ok { Mode := 0o755 }
      else if p = "/tmp/notes.txt" then .ok { Mode := 0o644 }
      else if p = "/tmp" then .ok { Mode := 2 ^ 31 + 0o755 }
      else .error "no such file or directory"
    stdoutPipe := .ok { fd := 3 }
    stderrPipe := .ok { fd := 5 }
    stdinPipe := .ok { fd := 7 }
    start := .ok 4242
    findProcess := fun pid => .ok { Pid := pid } }

/-- The environment `sampleOS` in which `cmd.Start()` fails (the file is not a program the
kernel can run). -/
def sampleOSExecFails : StartEnv :=
  { sampleOS with start := .error "fork/exec /bin/prog: exec format error" }

/-- A subject that prints `hi` (bytes 104, 105) and exits with status 0 in time. -/
def sampleWait : WaitEnv :=
  { stdout := [104, 105], stderr := [], cmdWait := .success, deadlineExceeded := false }

/-- A handle on which `Start` has succeeded. -/
def runningHandle : Executable :=
  ((NewExecutable "/bin/prog").Start sampleOS ["hey"]).1

end executable

/-! ## Running a subject to completion -/

namespace executable

/-- Go `Executable.Run`: `Start`, then `Wait` unless `Start` has returned an error. -/
def Executable.Run (os : StartEnv) (env : WaitEnv) (e : Executable) (args : List String) :
    Executable × WaitOutcome × List Effect :=
  match e.Start os args with
  | (e, some err, effects) => (e, .returned ⟨[], [], 0⟩ (some err), effects)
  | (e, none, effects) =>
    let (e, outcome, more) := e.Wait env
    (e, outcome, effects ++ more)

/-- The loop of `io.Copy(dst, io.LimitReader(source, remaining))`, as far as `dst` sees it.
The pipe holds the bytes `pending` that the subject writes before closing its end, and
hands them over in reads whose sizes the operating system chooses: `sizes` lists, read by
read, how many bytes are available at that moment. A read returns at least one byte while
bytes are pending, and never more than the 32 KiB buffer of `io.Copy` or than what the
`LimitedReader` has left. Once `sizes` is used up, each read returns all it is asked for. -/
def copyLimited : List Nat → Bytes → Nat → Bytes
  | [], pending, remaining => pending.take remaining
  | available :: sizes, pending, remaining =>
    if remaining = 0 then []
    else
      let asked := min (32 * 1024) remaining
      let n := max 1 (min available asked)
      let chunk := pending.take n
      chunk ++ copyLimited sizes (pending.drop n) (remaining - chunk.length)

/-- The environment lets `Start` go through for this path: the path resolves to an entry
that can be stat'ed, is not a directory and has an execute bit, the three pipes can be
created, the process starts and `os.FindProcess` finds it. -/
def StartEnv.allows (os : StartEnv) (path : String) : Bool :=
  match resolvePath os path with
  | none => false
  | some absolutePath =>
    match os.stat absolutePath, os.stdoutPipe, os.stderrPipe, os.stdinPipe, os.start with
    | .ok fileInfo, .ok _, .ok _, .ok _, .ok pid =>
      !(fileInfo.Perm &&& 0o111 == 0 || fileInfo.IsDir) &&
        (match os.findProcess pid with
         | .ok _ => true
         | .error _ => false)
    | _, _, _, _, _ => false

/-- Every field that `Wait` dereferences is set: the stdin pipe, the drain channel, the
command, the line writers, the buffers, the context and its cancel function. -/
def Executable.ready (e : Executable) : Bool :=
  e.StdinPipe.isSome && e.readDone.isSome && e.cmd.isSome && e.stdoutLineWriter.isSome &&
    e.stderrLineWriter.isSome && e.stdoutBuffer.isSome && e.stderrBuffer.isSome &&
    e.ctxWithTimeout.isSome && e.ctxCancelFunc.isSome

/-- The calls of some rounds, each a `Start` followed by a `Wait`. -/
def rounds : List (StartEnv × List String × WaitEnv) → List Call
  | [] => []
  | (os, args, env) :: rest => .Start os args :: .Wait env :: rounds rest

/-- A subject killed at its deadline: `e.cmd.Wait()` returns an exit error for signal 9
and the context reports `DeadlineExceeded`. -/
def sampleWaitKilled : WaitEnv :=
  { stdout := [104], stderr := [], cmdWait := .exitError (.signaled 9),
    deadlineExceeded := true }

/-- A subject that has exited with status 0 when the deadline passes, before it is
reaped: the kill of the context watcher succeeds, so `e.cmd.Wait()` returns the error of
the context, which is not an exit error. -/
def sampleWaitContextError : WaitEnv :=
  { stdout := [104], stderr := [], cmdWait := .otherError "context deadline exceeded" 0,
    deadlineExceeded := true }

/-- A subject that dies of a segmentation fault (signal 11) in time. -/
def sampleWaitSegfault : WaitEnv :=
  { stdout := [], stderr := [], cmdWait := .exitError (.signaled 11),
    deadlineExceeded := false }

/-- A subject that ignores `SIGTERM`: the `Wait` started by `Kill` has not returned when
the 2-second timer fires, and returns after `SIGKILL`. -/
def sampleKillLate : KillEnv :=
  { wait := { stdout := [], stderr := [], cmdWait := .exitError (.signaled 9),
              deadlineExceeded := false },
    reapedInTime := false }

end executable

/-! ## The two steps of a float64 rounding -/

namespace time

/-- The integer nearest to `x / d`, ties to the even one: the rounding step of
`roundFloat64`. -/
def nearest (x d : Nat) : Nat :=
  let q := x / d
  let r := x % d
  if d < 2 * r then q + 1 else if 2 * r = d then q + q % 2 else q

/-- The number of fraction bits that `roundFloat64` keeps for `n / d`: 52 minus the binary
exponent of the quotient. -/
def fractionBits (n d : Nat) : Nat :=
  if d ≤ n then 52 - Nat.log2 (n / d)
  else
    let s := Nat.log2 (d / n)
    52 + (if d ≤ n * 2 ^ s then s else s + 1)

end time

/-! ## Packages `tester_context` and `tester_utils` -/

namespace tester_definition

/-- The Go struct `TesterDefinition`. -/
structure TesterDefinition where
  ExecutableFileName : String
  LegacyExecutableFileName : String
  TestCases : List TestCase
  AntiCheatTestCases : List TestCase

/-- The zero value `TestCase{}`. -/
def TestCase.zero : TestCase := { Slug := "", TestFunc := none, Timeout := 0 }

/-- The loop of `TestCaseBySlug` over the test cases: the first one with the slug, the
zero value when there is none. -/
def findBySlug : List TestCase → String → TestCase
  | [], _ => TestCase.zero
  | testCase :: rest, slug => if testCase.Slug == slug then testCase else findBySlug rest slug

/-- Go `TesterDefinition.TestCaseBySlug`. -/
def TesterDefinition.TestCaseBySlug (t : TesterDefinition) (slug : String) : TestCase :=
  findBySlug t.TestCases slug

end tester_definition

namespace tester_context

open tester_definition

/-- The Go struct `TesterContextTestCase`. -/
structure TesterContextTestCase where
  Slug : String
  TesterLogPrefix : String
  Title : String
  deriving DecidableEq, Repr

/-- The Go struct `TesterContext`. -/
structure TesterContext where
  ExecutablePath : String
  IsDebug : Bool
  TestCases : List TesterContextTestCase
  ShouldSkipAntiCheatTestCases : Bool
  deriving DecidableEq, Repr

/-- The Go struct `yamlConfig`. -/
structure yamlConfig where
  Debug : Bool
  deriving DecidableEq, Repr

/-- An error value of this package: `plain` is built with `fmt.Errorf`, `userError` is an
`*internal.UserError`. -/
inductive Error where
  | plain (msg : String)
  | userError (Message : String)
  deriving DecidableEq, Repr

set_option linter.dupNamespace false in
/-- The Go method `err.Error()`. -/
def Error.Error : Error → String
  | .plain msg => msg
  | .userError msg => msg

/-- The error of `os.Stat`, as far as `errors.Is(err, os.ErrNotExist)` can tell. -/
inductive StatError where
  | notExist
  | other (msg : String)
  deriving DecidableEq, Repr

/-- What the library functions and the file system answer to `GetTesterContext`. -/
structure World where
  /-- Go `json.Unmarshal` into a `[]TesterContextTestCase`. -/
  unmarshalTestCases : String → Except String (List TesterContextTestCase)
  /-- Go `path.Join` of two elements. -/
  join : String → String → String
  /-- The error of `os.Stat`; `none` is `nil`, the file exists. -/
  stat : String → Option StatError
  /-- Go `os.ReadFile`. -/
  readFile : String → Except String String
  /-- Go `yaml.Unmarshal` into a `yamlConfig`. -/
  unmarshalYAML : String → Except String yamlConfig

/-- Go `readFromYAML`. -/
def readFromYAML (w : World) (configPath : String) : Except Error yamlConfig :=
  match w.readFile configPath with
  | .error _ =>
    .error (.userError
      "Can\x27t read codecrafters.yml file in your repository. This is required to run tests.")
  | .ok fileContents =>
    match w.unmarshalYAML fileContents with
    | .error err => .error (.userError ("Error parsing codecrafters.yml: " ++ err))
    | .ok c => .ok c

/-- The loop of `GetTesterContext` over the parsed test cases (lines 67-79): the error it
returns, `none` when it runs to its end. -/
def checkTestCases : List TesterContextTestCase → Option Error
  | [] => none
  | testCase :: rest =>
    if testCase.Slug == "" then
      some (.plain "CODECRAFTERS_TEST_CASES_JSON contains a test case with an empty slug")
    else if testCase.TesterLogPrefix == "" then
      some (.plain
        "CODECRAFTERS_TEST_CASES_JSON contains a test case with an empty tester_log_prefix")
    else if testCase.Title == "" then
      some (.plain "CODECRAFTERS_TEST_CASES_JSON contains a test case with an empty title")
    else checkTestCases rest

/-- The choice of the executable in `GetTesterContext` (lines 81-94). -/
def chooseExecutablePath (w : World) (submissionDir : String)
    (definition : TesterDefinition) : String :=
  let newExecutablePath := w.join submissionDir definition.ExecutableFileName
  if definition.LegacyExecutableFileName != "" then
    let newExecutablePathErr := w.stat newExecutablePath
    let legacyExecutablePath := w.join submissionDir definition.LegacyExecutableFileName
    let legacyExecutablePathErr := w.stat legacyExecutablePath
    if legacyExecutablePathErr == none && newExecutablePathErr == some .notExist then
      legacyExecutablePath
    else newExecutablePath
  else newExecutablePath

/-- Go `GetTesterContext`; `env` is the map of environment variables. -/
def GetTesterContext (w : World) (env : String → Option String)
    (definition : TesterDefinition) : Except Error TesterContext :=
  match env "CODECRAFTERS_REPOSITORY_DIR" with
  | none => .error (.plain "CODECRAFTERS_REPOSITORY_DIR env var not found")
  | some submissionDir =>
    match env "CODECRAFTERS_TEST_CASES_JSON" with
    | none => .error (.plain "CODECRAFTERS_TEST_CASES_JSON env var not found")
    | some testCasesJson =>
      match w.unmarshalTestCases testCasesJson with
      | .error err =>
        .error (.plain ("failed to parse CODECRAFTERS_TEST_CASES_JSON: " ++ err))
      | .ok testCases =>
        let shouldSkipAntiCheatTestCases :=
          match env "CODECRAFTERS_SKIP_ANTI_CHEAT" with
          | some skipAntiCheatValue => skipAntiCheatValue == "true"
          | none => false
        match checkTestCases testCases with
        | some err => .error err
        | none =>
          let executablePath := chooseExecutablePath w submissionDir definition
          let configPath := w.join submissionDir "codecrafters.yml"
          match readFromYAML w configPath with
          | .error err => .error err
          | .ok yamlConfig =>
            if testCases.length == 0 then .error (.plain "CODECRAFTERS_TEST_CASES is empty")
            else
              .ok { ExecutablePath := executablePath, IsDebug := yamlConfig.Debug,
                    TestCases := testCases,
                    ShouldSkipAntiCheatTestCases := shouldSkipAntiCheatTestCases }

end tester_context

namespace tester_utils

open tester_definition tester_context

/-- The Go struct `Tester`. -/
structure Tester where
  context : TesterContext
  definition : TesterDefinition

/-- The loop of `Tester.validateContext` over the requested test cases: the error it
returns, `none` when it runs to its end. -/
def validateTestCases (definition : TesterDefinition) :
    List TesterContextTestCase → Option String
  | [] => none
  | testerContextTestCase :: rest =>
    let testerDefinitionTestCase := definition.TestCaseBySlug testerContextTestCase.Slug
    if testerDefinitionTestCase.Slug != testerContextTestCase.Slug then
      some ("tester context does not have test case with slug " ++ testerContextTestCase.Slug)
    else validateTestCases definition rest

/-- Go `Tester.validateContext`. -/
def Tester.validateContext (tester : Tester) : Option String :=
  validateTestCases tester.definition tester.context.TestCases

/-- Go `newTester`. -/
def newTester (w : World) (env : String → Option String) (definition : TesterDefinition) :
    Except String Tester :=
  match GetTesterContext w env definition with
  | .error (.userError msg) => .error msg
  | .error (.plain msg) =>
    .error ("CodeCrafters internal error. Error fetching tester context: " ++ msg)
  | .ok context =>
    let tester : Tester := { context := context, definition := definition }
    match tester.validateContext with
    | some err =>
      .error ("CodeCrafters internal error. Error validating tester context: " ++ err)
    | none => .ok tester

/-- Go `Tester.getRunner`. -/
def Tester.getRunner (tester : Tester) : test_runner.TestRunner :=
  test_runner.NewTestRunner
    (tester.context.TestCases.map (fun testerContextTestCase =>
      { TestCase := tester.definition.TestCaseBySlug testerContextTestCase.Slug,
        TesterLogPrefix := testerContextTestCase.TesterLogPrefix,
        Title := testerContextTestCase.Title }))

/-- The logging function `logger.GetLogger(true, "[your_program] ").Plainln`, named by an
identifier. -/
def yourProgramLogger : executable.LoggerFunc := .custom 0

/-- Go `Tester.getExecutable`. -/
def Tester.getExecutable (tester : Tester) : executable.Executable :=
  executable.NewVerboseExecutable tester.context.ExecutablePath yourProgramLogger

/-- Go `Tester.runStages`. -/
def Tester.runStages (tester : Tester) : Option Bool × List test_runner.Event :=
  tester.getRunner.Run tester.context.IsDebug tester.getExecutable

/-- A manifest entry that takes its slug as log prefix and title. -/
def entry (slug : String) : TesterContextTestCase :=
  { Slug := slug, TesterLogPrefix := if slug = "" then "stage" else slug,
    Title := if slug = "" then "Stage" else slug }

/-- A world in which the repository holds a readable `codecrafters.yml` and neither
executable, and in which four manifests parse: two entries with different slugs, two
entries with the same slug, an entry whose slug matches no test case, and an entry with an
empty slug. -/
def sampleWorld : World :=
  { unmarshalTestCases := fun json =>
      if json = "[test-1, test-2]" then .ok [entry "test-1", entry "test-2"]
      else if json = "[test-1, test-1]" then .ok [entry "test-1", entry "test-1"]
      else if json = "[test-1, test-3]" then .ok [entry "test-1", entry "test-3"]
      else if json = "[test-1, ]" then .ok [entry "test-1", entry ""]
      else .error "invalid character"
    join := fun dir name => dir ++ "/" ++ name
    stat := fun _ => some .notExist
    readFile := fun _ => .ok "debug: false"
    unmarshalYAML := fun _ => .ok { Debug := false } }

/-- The world `sampleWorld` in which only the legacy executable exists. -/
def sampleWorldLegacy : World :=
  { sampleWorld with
    stat := fun p => if p = "/app/spawn_server.sh" then none else some .notExist }

/-- The environment variables naming the repository `/app` and a manifest. -/
def sampleEnv (manifest : String) : String → Option String := fun name =>
  if name = "CODECRAFTERS_REPOSITORY_DIR" then some "/app"
  else if name = "CODECRAFTERS_TEST_CASES_JSON" then some manifest
  else none

/-- The environment `env` with the manifest variable set to `manifest`. -/
def withManifest (env : String → Option String) (manifest : String) :
    String → Option String := fun name =>
  if name = "CODECRAFTERS_TEST_CASES_JSON" then some manifest else env name

/-- A definition with the test cases `test-1` and `test-2`. -/
def sampleDefinition : TesterDefinition :=
  { ExecutableFileName := "your_program.sh", LegacyExecutableFileName := "spawn_server.sh",
    TestCases := [{ test_runner.passingCase with Slug := "test-1" },
                  { test_runner.passingCase with Slug := "test-2" }],
    AntiCheatTestCases := [] }

end tester_utils

/-! ## Package `random` -/

namespace random

/-- How a call ends: it returns a slice, it panics, or it never returns. -/
inductive Result (α : Type) where
  | returned (elements : List α)
  | panics
  | loopsForever

/-- The loop `for count > len(arr) { arr = append(arr, arr...) }` of
`RandomElementsFromArray`, run for at most `fuel` tests of its condition: the array when
the loop is left, `none` when it is still running. -/
def grow {α : Type} : Nat → List α → Int → Option (List α)
  | 0, _, _ => none
  | fuel + 1, arr, count =>
    if count > (arr.length : Int) then grow fuel (arr ++ arr) count else some arr

/-- The loop `for i, randIndex := range indices { elements[i] = arr[randIndex] }`; `none`
when an index expression `arr[randIndex]` is out of range. -/
def pick {α : Type} (arr : List α) : List Nat → Option (List α)
  | [] => some []
  | randIndex :: rest =>
    match arr[randIndex]?, pick arr rest with
    | some element, some elements => some (element :: elements)
    | _, _ => none

/-- Go `RandomElementsFromArray`; `perm n` is what `rng.Perm(n)` returns in this call. The
loop is given `count + 1` tests of its condition, which is enough for it to end whenever
the array is not empty (the length doubles at each turn); on an empty array with a positive
`count` it never ends. -/
def RandomElementsFromArray {α : Type} (perm : Nat → List Nat) (arr : List α) (count : Int) :
    Result α :=
  match grow (count.toNat + 1) arr count with
  | none => .loopsForever
  | some arr =>
    -- `make([]T, count)`
    if count < 0 then .panics
    else
      let all := perm arr.length
      -- `rng.Perm(len(arr))[:count]`
      if count.toNat > all.length then .panics
      else
        let indices := all.take count.toNat
        match pick arr indices with
        | none => .panics
        | some elements => .returned elements

/-- Go `ShuffleArray`. -/
def ShuffleArray {α : Type} (perm : Nat → List Nat) (arr : List α) : Result α :=
  RandomElementsFromArray perm arr arr.length

/-- A source of permutations: `0, ..., n-1` in descending order. -/
def descending (n : Nat) : List Nat := (List.range n).reverse

end random

/-! ## Package `bytes_diff_visualizer` -/

namespace bytes_diff_visualizer

/-- Go `intmax`. -/
def intmax (a b : Int) : Int := if a > b then a else b

/-- Go `intmin`. -/
def intmin (a b : Int) : Int := if a < b then a else b

/-- The slice expression `value[lo:hi]` on a byte slice; `none` is the run-time panic. The
bounds are checked against the length, which is at most the capacity Go checks against. -/
def sliceBytes (value : Bytes) (lo hi : Int) : Option Bytes :=
  if 0 ≤ lo ∧ lo ≤ hi ∧ hi ≤ (value.length : Int) then
    some ((value.drop lo.toNat).take (hi - lo).toNat)
  else none

/-- The slice expression `str[lo:hi]` on a string; `none` is the run-time panic. -/
def sliceString (str : String) (lo hi : Int) : Option String :=
  if 0 ≤ lo ∧ lo ≤ hi ∧ hi ≤ (str.length : Int) then
    some (String.mk ((str.data.drop lo.toNat).take (hi - lo).toNat))
  else none

/-- The attribute `color.FgHiGreen`. -/
def FgHiGreen : Nat := 92

/-- The attribute `color.FgHiRed`. -/
def FgHiRed : Nat := 91

/-- The escape character that starts a colour sequence. -/
def escape : Char := Char.ofNat 27

/-- Go `colorizeString`: what `color.New(colorToUse).Sprint(msg)` returns. `noColor` is the
value of the package variable `color.NoColor` of the colour library at the call, which
this package never sets: the library sets it when standard output is not a terminal, and
`logger.GetLogger` and the tests of this package clear it. With it the message is returned
unchanged, without it the message stands between the sequence of the attribute and the
reset sequence. -/
def colorizeString (noColor : Bool) (colorToUse : Nat) (msg : String) : String :=
  if noColor then msg
  else
    String.singleton escape ++ "[" ++ toString colorToUse ++ "m" ++ msg ++
      String.singleton escape ++ "[0m"

/-- The loop of `PadRight`, run for at most `fuel` turns; `none` when it is still running
after them, or when the slice expression `str[0:length]` panics. -/
def padLoop : Nat → String → String → Int → Option String
  | 0, _, _, _ => none
  | fuel + 1, str, pad, length =>
    let str := str ++ pad
    if (str.length : Int) > length then sliceString str 0 length
    else padLoop fuel str pad length

/-- Go `PadRight`. A pad that is not empty makes the string longer at every turn, so the
loop ends within `length + 1` turns; with an empty pad it ends at its first turn or never. -/
def PadRight (str pad : String) (length : Int) : Option String :=
  padLoop (length.toNat + 1) str pad length

/-- Go `formatBytesAsAscii`. -/
def formatBytesAsAscii (value : Bytes) : String :=
  String.join (value.map (fun b =>
    if b < 32 ∨ b > 126 then "." else String.singleton (Char.ofNat b)))

/-- The verb `%02x` on a byte, a number below 256: its two hexadecimal digits. -/
def hex02 (b : Nat) : String :=
  String.mk [Nat.digitChar (b / 16 % 16), Nat.digitChar (b % 16)]

/-- Go `formatBytesAsHex`. -/
def formatBytesAsHex (value : Bytes) : String :=
  " ".intercalate (value.map hex02)

/-- Go `formatHexWithColorizedByteHelper`. -/
def formatHexWithColorizedByteHelper (noColor : Bool) (value : Bytes) (i firstDiffIndex end_ : Int)
    (chosenColor : Nat) : Option String :=
  match sliceBytes value i firstDiffIndex,
        sliceBytes value firstDiffIndex (firstDiffIndex + 1),
        sliceBytes value (firstDiffIndex + 1) end_ with
  | some before, some differing, some after =>
    some (formatBytesAsHex before ++ " " ++
      colorizeString noColor chosenColor (formatBytesAsHex differing) ++ " " ++ formatBytesAsHex after)
  | _, _, _ => none

/-- Go `formatHexWithColorizedByte`. -/
def formatHexWithColorizedByte (noColor : Bool) (value : Bytes) (i firstDiffIndex end_ : Int)
    (chosenColor : Nat) : Option String :=
  if firstDiffIndex ≥ i ∧ firstDiffIndex < end_ then
    match formatHexWithColorizedByteHelper noColor value i firstDiffIndex end_ chosenColor with
    | some str => PadRight str " " 69
    | none => none
  else
    match sliceBytes value i end_ with
    | some bytes => PadRight (formatBytesAsHex bytes) " " 60
    | none => none

/-- Go `formatAsciiWithColorizedByteHelper`. -/
def formatAsciiWithColorizedByteHelper (noColor : Bool) (value : Bytes) (i firstDiffIndex end_ : Int)
    (chosenColor : Nat) : Option String :=
  match sliceBytes value i firstDiffIndex,
        sliceBytes value firstDiffIndex (firstDiffIndex + 1),
        sliceBytes value (firstDiffIndex + 1) end_ with
  | some before, some differing, some after =>
    some (formatBytesAsAscii before ++
      colorizeString noColor chosenColor (formatBytesAsAscii differing) ++ formatBytesAsAscii after)
  | _, _, _ => none

/-- Go `formatAsciiWithColorizedByte`. -/
def formatAsciiWithColorizedByte (noColor : Bool) (value : Bytes) (i firstDiffIndex end_ : Int)
    (chosenColor : Nat) : Option String :=
  if firstDiffIndex ≥ i ∧ firstDiffIndex < end_ then
    formatAsciiWithColorizedByteHelper noColor value i firstDiffIndex end_ chosenColor
  else
    match sliceBytes value i end_ with
    | some bytes => some (formatBytesAsAscii bytes)
    | none => none

/-- The loop `for i := 0; i < len(actual) && i < len(expected); i++` that looks for the
first differing byte, from position `i` on the rests of the two slices: the position at
which it breaks, `-1` when it runs to its end. -/
def firstDiffLoop : Bytes → Bytes → Int → Int
  | a :: actual, e :: expected, i => if a ≠ e then i else firstDiffLoop actual expected (i + 1)
  | _, _, _ => -1

/-- The variable `firstDiffIndex` of `VisualizeByteDiff` once it is settled (lines 20-37). -/
def firstDiffIndex (actual expected : Bytes) : Int :=
  let firstDiffIndex := firstDiffLoop actual expected 0
  if firstDiffIndex = -1 then
    if actual.length > expected.length then (expected.length : Int) else (actual.length : Int)
  else firstDiffIndex

/-- The values that `i` takes in the loop `for i := byteRangeStart; i < bound;
i += byteCountPerLine`, in at most `fuel` turns. -/
def rowStarts : Nat → Int → Int → List Int
  | 0, _, _ => []
  | fuel + 1, i, bound => if i < bound then i :: rowStarts fuel (i + 20) bound else []

/-- What the bodies of a loop over the rows write to `linesBuffer`, for the values of `i`
listed; `none` when one of them panics or does not return. -/
def writeRows (noColor : Bool) (value : Bytes) (firstDiffIndex : Int) (chosenColor : Nat) :
    List Int → Option String
  | [] => some ""
  | i :: rest =>
    let end_ := intmin (i + 20) value.length
    match formatHexWithColorizedByte noColor value i firstDiffIndex end_ chosenColor,
          formatAsciiWithColorizedByte noColor value i firstDiffIndex end_ chosenColor,
          writeRows noColor value firstDiffIndex chosenColor rest with
    | some bytesAsHex, some bytesAsAscii, some written =>
      some (bytesAsHex ++ "| " ++ bytesAsAscii ++ "\n" ++ written)
    | _, _, _ => none

/-- The pieces of a list of characters between the occurrences of `sep`. -/
def splitChars : List Char → Char → List (List Char)
  | [], _ => [[]]
  | c :: cs, sep =>
    if c = sep then [] :: splitChars cs sep
    else
      match splitChars cs sep with
      | first :: rest => (c :: first) :: rest
      | [] => [[c]]

/-- Go `strings.Split` with a separator of one character. -/
def Split (s : String) (sep : Char) : List String :=
  (splitChars s.data sep).map String.mk

/-- The variable `byteRangeStart` of `VisualizeByteDiff`. -/
def byteRangeStart (firstDiffIndex : Int) : Int :=
  let totalByteCountToDisplay : Int := 100
  intmax 0 (firstDiffIndex - totalByteCountToDisplay / 2)

/-- The variable `byteRangeEnd` of `VisualizeByteDiff`. -/
def byteRangeEnd (actual expected : Bytes) (byteRangeStart : Int) : Int :=
  let totalByteCountToDisplay : Int := 100
  intmin (byteRangeStart + totalByteCountToDisplay) (intmax actual.length expected.length)

/-- One of the two blocks that `VisualizeByteDiff` writes to `linesBuffer`: the header and
the rows of `value`. -/
def writeBlock (noColor : Bool) (title : String) (value : Bytes)
    (firstDiffIndex byteRangeStart byteRangeEnd : Int)
    (chosenColor : Nat) : Option String :=
  match PadRight (title ++ " (bytes " ++ toString byteRangeStart ++ "-" ++
      toString byteRangeEnd ++ "), hexadecimal:") " " 60 with
  | none => none
  | some leftHeader =>
    let bound := intmin byteRangeEnd value.length
    match writeRows noColor value firstDiffIndex chosenColor
        (rowStarts (bound - byteRangeStart).toNat byteRangeStart bound) with
    | none => none
    | some rows => some (leftHeader ++ "| ASCII:\n" ++ rows)

/-- The string `linesBuffer.String()` of `VisualizeByteDiff` on unequal inputs. -/
def linesBuffer (noColor : Bool) (actual expected : Bytes) : Option String :=
  let firstDiffIndex := firstDiffIndex actual expected
  let byteRangeStart := byteRangeStart firstDiffIndex
  let byteRangeEnd := byteRangeEnd actual expected byteRangeStart
  match writeBlock noColor "Expected" expected firstDiffIndex byteRangeStart byteRangeEnd FgHiGreen,
        writeBlock noColor "Actual" actual firstDiffIndex byteRangeStart byteRangeEnd FgHiRed with
  | some expectedBlock, some actualBlock => some (expectedBlock ++ "\n" ++ actualBlock)
  | _, _ => none

/-- Go `VisualizeByteDiff`, called while `color.NoColor` has the value `noColor`; `none`
when an index or slice expression panics or a loop does not end. -/
def VisualizeByteDiff (noColor : Bool) (actual expected : Bytes) : Option (List String) :=
  if actual = expected then some []
  else
    match linesBuffer noColor actual expected with
    | none => none
    | some output =>
      -- `output[len(output)-1]`
      match output.data[output.length - 1]? with
      | none => none
      | some last =>
        if last = '\n' then
          match sliceString output 0 ((output.length : Int) - 1) with
          | none => none
          | some output => some (Split output '\n')
        else some (Split output '\n')

/-- The bytes of `"Hello, World!"`, the `actual` of the tests of the package. -/
def helloWorld : Bytes := [72, 101, 108, 108, 111, 44, 32, 87, 111, 114, 108, 100, 33]

/-- The bytes of `"Hello, Go!"`, the `expected` of the tests of the package. -/
def helloGo : Bytes := [72, 101, 108, 108, 111, 44, 32, 71, 111, 33]

end bytes_diff_visualizer

/-! ## Package `logger`: what the logging methods write -/

namespace logger

/-- The attribute `color.FgCyan`. -/
def FgCyan : Nat := 36

/-- The attribute `color.FgHiBlue`. -/
def FgHiBlue : Nat := 94

/-- The attribute `color.FgHiGreen`. -/
def FgHiGreen : Nat := 92

/-- The attribute `color.FgHiRed`. -/
def FgHiRed : Nat := 91

/-- The attribute `color.FgYellow`. -/
def FgYellow : Nat := 33

/-- Go `colorize` on the formatted message (`fstring` itself without arguments, the result
of `fmt.Sprintf` with them): its lines, each between the sequence of the attribute and the
reset sequence, as `color.New(colorToUse).SprintFunc()` returns it with `color.NoColor`
false, the value that `GetLogger` and `GetQuietLogger` give it. -/
def colorize (colorToUse : Nat) (msg : String) : List String :=
  (bytes_diff_visualizer.Split msg '\n').map
    (bytes_diff_visualizer.colorizeString false colorToUse)

/-- Go `debugColorize`. -/
def debugColorize (msg : String) : List String := colorize FgCyan msg

/-- Go `infoColorize`. -/
def infoColorize (msg : String) : List String := colorize FgHiBlue msg

/-- Go `successColorize`. -/
def successColorize (msg : String) : List String := colorize FgHiGreen msg

/-- Go `errorColorize`. -/
def errorColorize (msg : String) : List String := colorize FgHiRed msg

/-- Go `yellowColorize`. -/
def yellowColorize (msg : String) : List String := colorize FgYellow msg

/-- The first element `yellowColorize("%s", s)[0]`; the list is never empty. -/
def yellowFirst (s : String) : String :=
  match yellowColorize s with
  | first :: _ => first
  | [] => ""

/-- What `GetLogger`, `GetQuietLogger`, `Clone` and `updateLoggerPrefix` set on the
`log.Logger` of the struct: the coloured first line of the logger's own mark followed by
the secondary ones, each as `[%s] `. -/
def Logger.outputMark (l : Logger) : String :=
  if l.secondaryPrefixes.length = 0 then yellowFirst l.pfx
  else yellowFirst (l.secondaryPrefixes.foldl (fun full secondary =>
    full ++ ("[" ++ secondary ++ "] ")) l.pfx)

/-- What `l.logger.Println(line)` writes to standard output, the flags being 0. -/
def Logger.Println (l : Logger) (line : String) : String :=
  l.outputMark ++ line ++ "\n"

/-- Go `Logger.Successf`, on the formatted message: the strings written to standard
output. -/
def Logger.Successf (l : Logger) (msg : String) : List String :=
  if l.IsQuiet then [] else (successColorize msg).map l.Println

/-- Go `Logger.Successln`. -/
def Logger.Successln (l : Logger) (msg : String) : List String :=
  if l.IsQuiet then [] else (successColorize msg).map l.Println

/-- Go `Logger.Infof`, on the formatted message. -/
def Logger.Infof (l : Logger) (msg : String) : List String :=
  if l.IsQuiet then [] else (infoColorize msg).map l.Println

/-- Go `Logger.Infoln`. -/
def Logger.Infoln (l : Logger) (msg : String) : List String :=
  if l.IsQuiet then [] else (infoColorize msg).map l.Println

/-- Go `Logger.Criticalf`, on the formatted message; `none` is the panic
`Critical is only for quiet loggers`. -/
def Logger.Criticalf (l : Logger) (msg : String) : Option (List String) :=
  if !l.IsQuiet then none else some ((errorColorize msg).map l.Println)

/-- Go `Logger.Criticalln`; `none` is the panic. -/
def Logger.Criticalln (l : Logger) (msg : String) : Option (List String) :=
  if !l.IsQuiet then none else some ((errorColorize msg).map l.Println)

/-- Go `Logger.Errorf`, on the formatted message. -/
def Logger.Errorf (l : Logger) (msg : String) : List String :=
  if l.IsQuiet then [] else (errorColorize msg).map l.Println

/-- Go `Logger.Errorln`. -/
def Logger.Errorln (l : Logger) (msg : String) : List String :=
  if l.IsQuiet then [] else (errorColorize msg).map l.Println

/-- Go `Logger.Debugf`, on the formatted message. -/
def Logger.Debugf (l : Logger) (msg : String) : List String :=
  if !l.IsDebug then [] else (debugColorize msg).map l.Println

/-- Go `Logger.Debugln`. -/
def Logger.Debugln (l : Logger) (msg : String) : List String :=
  if !l.IsDebug then [] else (debugColorize msg).map l.Println

/-- Go `Logger.Plainf`, on the formatted string. -/
def Logger.Plainf (l : Logger) (formattedString : String) : List String :=
  (bytes_diff_visualizer.Split formattedString '\n').map l.Println

/-- Go `Logger.Plainln`. -/
def Logger.Plainln (l : Logger) (msg : String) : List String :=
  (bytes_diff_visualizer.Split msg '\n').map l.Println

end logger

/-! ## `RunCLI` -/

namespace tester_utils

open tester_definition tester_context

/-- Go `Tester.getAntiCheatRunner`. -/
def Tester.getAntiCheatRunner (tester : Tester) : test_runner.TestRunner :=
  test_runner.NewQuietTestRunner
    (tester.definition.AntiCheatTestCases.enum.map (fun (index, testCase) =>
      { TestCase := testCase,
        TesterLogPrefix := "ac-" ++ toString (index + 1),
        Title := "AC" ++ toString (index + 1) }))

/-- Go `Tester.getQuietExecutable`. -/
def Tester.getQuietExecutable (tester : Tester) : executable.Executable :=
  executable.NewExecutable tester.context.ExecutablePath

/-- Go `Tester.runAntiCheatStages`. -/
def Tester.runAntiCheatStages (tester : Tester) : Option Bool × List test_runner.Event :=
  tester.getAntiCheatRunner.Run false tester.getQuietExecutable

/-- What `RunCLI` does that can be observed. -/
inductive CLIEvent where
  /-- The call `fmt.Println(err.Error())` after `newTester` has failed. -/
  | printError (msg : String)
  /-- The output of `tester.context.Print()` and the empty line after it. -/
  | printDebugContext
  /-- An action of `tester.runStages()`. -/
  | stage (event : test_runner.Event)
  /-- An action of `tester.runAntiCheatStages()`. -/
  | antiCheatStage (event : test_runner.Event)

/-- Go `RunCLI`: the exit code, `none` when the program ends in a panic, and what it does
on the way. `initPanics` says whether `random.Init()` panics, which it does when
`CODECRAFTERS_RANDOM_SEED` is set in the process environment and is not an integer. -/
def RunCLI (initPanics : Bool) (w : World) (env : String → Option String)
    (definition : TesterDefinition) : Option Int × List CLIEvent :=
  if initPanics then (none, [])
  else
    match newTester w env definition with
    | .error err => (some 1, [.printError err])
    | .ok tester =>
      let printed : List CLIEvent :=
        if !tester.context.IsDebug then [] else [.printDebugContext]
      match tester.runStages with
      | (none, events) => (none, printed ++ events.map .stage)
      | (some false, events) => (some 1, printed ++ events.map .stage)
      | (some true, events) =>
        if tester.context.ShouldSkipAntiCheatTestCases then
          (some 0, printed ++ events.map .stage)
        else
          match tester.runAntiCheatStages with
          | (none, antiCheatEvents) =>
            (none, printed ++ events.map .stage ++ antiCheatEvents.map .antiCheatStage)
          | (some false, antiCheatEvents) =>
            (some 1, printed ++ events.map .stage ++ antiCheatEvents.map .antiCheatStage)
          | (some true, antiCheatEvents) =>
            (some 0, printed ++ events.map .stage ++ antiCheatEvents.map .antiCheatStage)

end tester_utils

/-! # Properties -/

namespace test_case_harness

theorem callEach_eq (fs : List TeardownFunc) : callEach fs = fs := by
  induction fs with
  | nil => rfl
  | cons f rest ih => simp [callEach, ih]

theorem registerAll_foldl (h : TestCaseHarness) (fs : List TeardownFunc) :
    (fs.foldl TestCaseHarness.RegisterTeardownFunc h).teardownFuncs = h.teardownFuncs ++ fs := by
  induction fs generalizing h with
  | nil => simp
  | cons f rest ih => simp [ih, TestCaseHarness.RegisterTeardownFunc]

end test_case_harness

namespace test_runner

open test_case_harness tester_definition

theorem raceStep_err_none_iff (h : TestCaseHarness) (run : TestFuncRun)
    (timeout : time.Duration) :
    (raceStep h run timeout).2 = none ↔ ∃ t, run.returns = some (t, none) ∧ t < timeout := by
  unfold raceStep
  rcases hr : run.returns with _ | ⟨t, stageErr⟩
  · simp
  · by_cases ht : t < timeout
    · simp only [ht, if_true]
      constructor
      · intro h1
        exact ⟨t, by simp only [h1], ht⟩
      · rintro ⟨u, hu, _⟩
        simp only [Option.some.injEq, Prod.mk.injEq] at hu
        exact hu.2
    · simp only [ht, if_false]
      constructor
      · intro h1
        simp at h1
      · rintro ⟨u, hu, hlt⟩
        simp only [Option.some.injEq, Prod.mk.injEq] at hu
        exact absurd (hu.1 ▸ hlt) ht

theorem stepPasses_iff (r : TestRunner) (isDebug : Bool) (e : executable.Executable)
    (step : TestRunnerStep) :
    r.stepPasses isDebug e step = true ↔
      ∃ testFunc t, step.TestCase.TestFunc = some testFunc ∧
        (testFunc (r.newHarness isDebug e step)).returns = some (t, none) ∧
        t < step.TestCase.CustomOrDefaultTimeout := by
  unfold TestRunner.stepPasses
  rcases hf : step.TestCase.TestFunc with _ | testFunc
  · simp
  · rcases hr : (testFunc (r.newHarness isDebug e step)).returns with _ | ⟨t, _ | msg⟩
    · simp [hr]
    · simp [hr]
    · simp [hr]

theorem runStep_outcome (r : TestRunner) (isDebug : Bool) (e : executable.Executable)
    (index : Nat) (step : TestRunnerStep) :
    (r.runStep isDebug e index step).1 =
      match step.TestCase.TestFunc with
      | none => none
      | some testFunc =>
        some (raceStep (r.newHarness isDebug e step)
          (testFunc (r.newHarness isDebug e step)) step.TestCase.CustomOrDefaultTimeout).2 := by
  unfold TestRunner.runStep
  rcases step.TestCase.TestFunc with _ | testFunc <;> rfl

theorem runStep_passes_iff (r : TestRunner) (isDebug : Bool) (e : executable.Executable)
    (index : Nat) (step : TestRunnerStep) :
    (r.runStep isDebug e index step).1 = some none ↔ r.stepPasses isDebug e step = true := by
  rw [runStep_outcome, stepPasses_iff]
  rcases hf : step.TestCase.TestFunc with _ | testFunc
  · simp
  · simp only [Option.some.injEq, raceStep_err_none_iff]
    constructor
    · rintro ⟨t, h1, h2⟩
      exact ⟨testFunc, t, rfl, h1, h2⟩
    · rintro ⟨f, t, h0, h1, h2⟩
      cases h0
      exact ⟨t, h1, h2⟩

theorem runFrom_cons_pass (r : TestRunner) (isDebug : Bool) (e : executable.Executable)
    (index : Nat) (step : TestRunnerStep) (rest : List TestRunnerStep)
    (h : r.stepPasses isDebug e step = true) :
    r.runFrom isDebug e index (step :: rest) =
      ((r.runFrom isDebug e (index + 1) rest).1,
        (r.runStep isDebug e index step).2.map (fun a => (index, a)) ++
          (r.runFrom isDebug e (index + 1) rest).2) := by
  have h1 := (runStep_passes_iff r isDebug e index step).mpr h
  rw [TestRunner.runFrom]
  rcases hs : r.runStep isDebug e index step with ⟨outcome, actions⟩
  rw [hs] at h1
  simp only at h1
  subst h1
  rfl

theorem runFrom_cons_stop (r : TestRunner) (isDebug : Bool) (e : executable.Executable)
    (index : Nat) (step : TestRunnerStep) (rest : List TestRunnerStep)
    (h : r.stepPasses isDebug e step = false) :
    r.runFrom isDebug e index (step :: rest) =
      (if step.TestCase.TestFunc.isSome then some false else none,
        (r.runStep isDebug e index step).2.map (fun a => (index, a))) := by
  have h1 : (r.runStep isDebug e index step).1 ≠ some none := by
    intro hc
    rw [(runStep_passes_iff r isDebug e index step).mp hc] at h
    exact Bool.noConfusion h
  have h2 := runStep_outcome r isDebug e index step
  rw [TestRunner.runFrom]
  rcases hs : r.runStep isDebug e index step with ⟨outcome, actions⟩
  rw [hs] at h1 h2
  simp only at h1 h2
  rcases hf : step.TestCase.TestFunc with _ | testFunc
  · rw [hf] at h2
    simp only at h2
    subst h2
    rfl
  · rw [hf] at h2
    simp only at h2
    rcases outcome with _ | _ | msg
    · exact absurd h2 (by simp)
    · exact absurd rfl h1
    · rfl

theorem invokedSteps_append (a b : List Event) :
    invokedSteps (a ++ b) = invokedSteps a ++ invokedSteps b := by
  simp [invokedSteps]

theorem invokedSteps_beforeRace (r : TestRunner) (isDebug : Bool) (index : Nat)
    (step : TestRunnerStep) :
    invokedSteps ((r.beforeRace isDebug index step).map (fun a => (index, a))) = [index] := by
  unfold TestRunner.beforeRace invokedSteps
  by_cases h : index = 0 <;> simp [h, List.filter, Action.isTestFunc]

theorem invokedSteps_report (r : TestRunner) (isDebug : Bool) (l : logger.Logger)
    (err : Option String) (index : Nat) :
    invokedSteps ((r.report isDebug l err).map (fun a => (index, a))) = [] := by
  unfold TestRunner.report TestRunner.reportTestError invokedSteps
  rcases err with _ | msg
  · simp [List.filter, Action.isTestFunc]
  · by_cases h : isDebug = true <;> simp [h, List.filter, Action.isTestFunc]

theorem invokedSteps_teardowns (fs : List TeardownFunc) (index : Nat) :
    invokedSteps ((fs.map Action.teardown).map (fun a => (index, a))) = [] := by
  unfold invokedSteps
  induction fs with
  | nil => rfl
  | cons f rest ih => simp [List.filter, Action.isTestFunc]

theorem invokedSteps_runStep (r : TestRunner) (isDebug : Bool) (e : executable.Executable)
    (index : Nat) (step : TestRunnerStep) :
    invokedSteps ((r.runStep isDebug e index step).2.map (fun a => (index, a))) = [index] := by
  unfold TestRunner.runStep
  rcases step.TestCase.TestFunc with _ | testFunc
  · exact invokedSteps_beforeRace r isDebug index step
  · simp only [List.map_append, invokedSteps_append, invokedSteps_beforeRace,
      invokedSteps_report, invokedSteps_teardowns, List.append_nil]

/-- The calls of test procedures made by the loop from position `index` on. -/
theorem runFrom_invoked (r : TestRunner) (isDebug : Bool) (e : executable.Executable)
    (steps : List TestRunnerStep) (index : Nat) :
    ∃ k, k ≤ steps.length ∧
      invokedSteps (r.runFrom isDebug e index steps).2 = List.range' index k ∧
      ∀ i, i < steps.length →
        (i < k ↔ ∀ j step, j < i → steps[j]? = some step →
          r.stepPasses isDebug e step = true) := by
  induction steps generalizing index with
  | nil => exact ⟨0, le_refl _, rfl, fun i hi => absurd hi (by simp)⟩
  | cons step rest ih =>
    by_cases hp : r.stepPasses isDebug e step = true
    · obtain ⟨k, hk, hinv, hiff⟩ := ih (index + 1)
      refine ⟨k + 1, by simpa using hk, ?_, ?_⟩
      · rw [runFrom_cons_pass r isDebug e index step rest hp]
        simp only [invokedSteps_append, invokedSteps_runStep, hinv]
        rfl
      · intro i hi
        cases i with
        | zero =>
          simp only [Nat.zero_lt_succ, true_iff]
          intro j step1 hj
          exact absurd hj (Nat.not_lt_zero j)
        | succ i =>
          have hi1 : i < rest.length := by simpa using hi
          rw [Nat.succ_lt_succ_iff, hiff i hi1]
          constructor
          · intro hall j step1 hj hget
            cases j with
            | zero =>
              simp only [List.getElem?_cons_zero, Option.some.injEq] at hget
              exact hget ▸ hp
            | succ j =>
              simp only [List.getElem?_cons_succ] at hget
              exact hall j step1 (Nat.lt_of_succ_lt_succ hj) hget
          · intro hall j step1 hj hget
            exact hall (j + 1) step1 (Nat.succ_lt_succ hj) (by simpa using hget)
    · have hp1 : r.stepPasses isDebug e step = false := by simpa using hp
      refine ⟨1, by simp, ?_, ?_⟩
      · rw [runFrom_cons_stop r isDebug e index step rest hp1]
        simp only [invokedSteps_runStep]
        rfl
      · intro i hi
        cases i with
        | zero =>
          simp only [Nat.lt_one_iff, true_iff]
          intro j step1 hj
          exact absurd hj (Nat.not_lt_zero j)
        | succ i =>
          constructor
          · intro hlt
            omega
          · intro hall
            exact absurd (hall 0 step (Nat.succ_pos i) (by simp)) hp

/-- Claim C1. `TestRunner.Run` calls the test procedures of the steps in list order, each
at most once, and the procedure of a step is called exactly when every step before it has
passed: the positions called are `0, …, k-1`, where the step at position `k-1` is the first
one that fails or times out (or the last step), and no later procedure is called. -/
theorem C1_run_calls_in_order_until_first_failure (r : TestRunner) (isDebug : Bool)
    (e : executable.Executable) :
    ∃ k, k ≤ r.steps.length ∧
      invokedSteps (r.Run isDebug e).2 = List.range k ∧
      ∀ i, i < r.steps.length →
        (i < k ↔ ∀ j step, j < i → r.steps[j]? = some step →
          r.stepPasses isDebug e step = true) := by
  obtain ⟨k, hk, hinv, hiff⟩ := runFrom_invoked r isDebug e r.steps 0
  exact ⟨k, hk, by rw [TestRunner.Run, hinv, List.range_eq_range'], hiff⟩

theorem runFrom_all_pass_iff (r : TestRunner) (isDebug : Bool) (e : executable.Executable)
    (steps : List TestRunnerStep) (index : Nat) :
    (r.runFrom isDebug e index steps).1 = some true ↔
      ∀ step ∈ steps, r.stepPasses isDebug e step = true := by
  induction steps generalizing index with
  | nil => simp [TestRunner.runFrom]
  | cons step rest ih =>
    by_cases hp : r.stepPasses isDebug e step = true
    · rw [runFrom_cons_pass r isDebug e index step rest hp]
      simp only [ih (index + 1), List.mem_cons, forall_eq_or_imp, hp, true_and]
    · have hp1 : r.stepPasses isDebug e step = false := by simpa using hp
      rw [runFrom_cons_stop r isDebug e index step rest hp1]
      constructor
      · intro h
        by_cases hf : step.TestCase.TestFunc.isSome = true <;> simp [hf] at h
      · intro h
        exact absurd (h step (List.mem_cons_self _ _)) hp

theorem runFrom_index_ge (r : TestRunner) (isDebug : Bool) (e : executable.Executable)
    (steps : List TestRunnerStep) (index : Nat) :
    ∀ ev ∈ (r.runFrom isDebug e index steps).2, index ≤ ev.1 := by
  induction steps generalizing index with
  | nil => simp [TestRunner.runFrom]
  | cons step rest ih =>
    intro ev hev
    by_cases hp : r.stepPasses isDebug e step = true
    · rw [runFrom_cons_pass r isDebug e index step rest hp] at hev
      rcases List.mem_append.mp hev with h | h
      · obtain ⟨a, _, rfl⟩ := List.mem_map.mp h
        exact le_refl _
      · exact Nat.le_of_succ_le (ih (index + 1) ev h)
    · have hp1 : r.stepPasses isDebug e step = false := by simpa using hp
      rw [runFrom_cons_stop r isDebug e index step rest hp1] at hev
      obtain ⟨a, _, rfl⟩ := List.mem_map.mp hev
      exact le_refl _

/-- The place of one iteration in the actions of the loop: the step at offset `i` is
reached when all the steps before it pass; its actions then stand between those of the
earlier steps and those of the later ones, and nothing follows them when it does not
pass. -/
theorem runFrom_shape (r : TestRunner) (isDebug : Bool) (e : executable.Executable)
    (steps : List TestRunnerStep) (index i : Nat) (step : TestRunnerStep)
    (hstep : steps[i]? = some step)
    (hbefore : ∀ j s, j < i → steps[j]? = some s → r.stepPasses isDebug e s = true) :
    ∃ earlier later,
      (r.runFrom isDebug e index steps).2 =
        earlier ++ (r.runStep isDebug e (index + i) step).2.map (fun a => (index + i, a)) ++
          later ∧
      (∀ ev ∈ earlier, ev.1 < index + i) ∧ (∀ ev ∈ later, index + i < ev.1) ∧
      (r.stepPasses isDebug e step = false →
        later = [] ∧
        (r.runFrom isDebug e index steps).1 =
          if step.TestCase.TestFunc.isSome then some false else none) := by
  induction steps generalizing index i with
  | nil => simp at hstep
  | cons s0 rest ih =>
    cases i with
    | zero =>
      simp only [List.getElem?_cons_zero, Option.some.injEq] at hstep
      subst hstep
      by_cases hp : r.stepPasses isDebug e s0 = true
      · refine ⟨[], (r.runFrom isDebug e (index + 1) rest).2, ?_, ?_, ?_, ?_⟩
        · rw [runFrom_cons_pass r isDebug e index s0 rest hp]
          rfl
        · intro ev hev
          exact absurd hev (List.not_mem_nil ev)
        · intro ev hev
          exact runFrom_index_ge r isDebug e rest (index + 1) ev hev
        · intro hf
          rw [hp] at hf
          exact Bool.noConfusion hf
      · have hp1 : r.stepPasses isDebug e s0 = false := by simpa using hp
        refine ⟨[], [], ?_, ?_, ?_, ?_⟩
        · rw [runFrom_cons_stop r isDebug e index s0 rest hp1]
          simp
        · intro ev hev
          exact absurd hev (List.not_mem_nil ev)
        · intro ev hev
          exact absurd hev (List.not_mem_nil ev)
        · intro _
          exact ⟨rfl, by rw [runFrom_cons_stop r isDebug e index s0 rest hp1]⟩
    | succ i =>
      have hp : r.stepPasses isDebug e s0 = true := hbefore 0 s0 (Nat.succ_pos i) (by simp)
      have hstep1 : rest[i]? = some step := by simpa using hstep
      have hbefore1 : ∀ j s, j < i → rest[j]? = some s → r.stepPasses isDebug e s = true := by
        intro j s hj hs
        exact hbefore (j + 1) s (Nat.succ_lt_succ hj) (by simpa using hs)
      obtain ⟨earlier, later, htrace, hearlier, hlater, hstop⟩ :=
        ih (index + 1) i hstep1 hbefore1
      have hidx : index + 1 + i = index + (i + 1) := by omega
      rw [hidx] at htrace hearlier hlater
      refine ⟨(r.runStep isDebug e index s0).2.map (fun a => (index, a)) ++ earlier, later,
        ?_, ?_, hlater, ?_⟩
      · rw [runFrom_cons_pass r isDebug e index s0 rest hp]
        simp only [htrace, List.append_assoc]
      · intro ev hev
        rcases List.mem_append.mp hev with h | h
        · obtain ⟨a, _, rfl⟩ := List.mem_map.mp h
          show index < index + (i + 1)
          omega
        · exact hearlier ev h
      · intro hf
        obtain ⟨h1, h2⟩ := hstop hf
        exact ⟨h1, by rw [runFrom_cons_pass r isDebug e index s0 rest hp]; exact h2⟩

theorem runStep_actions (r : TestRunner) (isDebug : Bool) (e : executable.Executable)
    (index : Nat) (step : TestRunnerStep) (testFunc : TestCaseHarness → TestFuncRun)
    (hf : step.TestCase.TestFunc = some testFunc) :
    (r.runStep isDebug e index step).2 =
      r.beforeRace isDebug index step ++
        r.report isDebug (r.getLoggerForStep isDebug step)
          (raceStep (r.newHarness isDebug e step) (testFunc (r.newHarness isDebug e step))
            step.TestCase.CustomOrDefaultTimeout).2 ++
        (raceStep (r.newHarness isDebug e step) (testFunc (r.newHarness isDebug e step))
          step.TestCase.CustomOrDefaultTimeout).1.teardownFuncs.map Action.teardown := by
  unfold TestRunner.runStep
  rw [hf]
  simp only [TestCaseHarness.RunTeardownFuncs, callEach_eq]
  rfl

theorem teardownsOf_append (i : Nat) (a b : List Event) :
    teardownsOf i (a ++ b) = teardownsOf i a ++ teardownsOf i b := by
  simp [teardownsOf, List.filterMap_append]

theorem teardownsOf_other (i : Nat) (trace : List Event) (h : ∀ ev ∈ trace, ev.1 ≠ i) :
    teardownsOf i trace = [] := by
  unfold teardownsOf
  rw [List.filterMap_eq_nil_iff]
  rintro ⟨j, a⟩ hev
  have hj : j ≠ i := h (j, a) hev
  cases a <;> simp [hj]

theorem teardownsOf_no_teardown (i : Nat) (actions : List Action)
    (h : ∀ a ∈ actions, ∀ f, a ≠ Action.teardown f) :
    teardownsOf i (actions.map (fun a => (i, a))) = [] := by
  unfold teardownsOf
  rw [List.filterMap_eq_nil_iff]
  intro ev hev
  obtain ⟨a, ha, rfl⟩ := List.mem_map.mp hev
  cases a with
  | teardown f => exact absurd rfl (h _ ha f)
  | _ => rfl

theorem teardownsOf_teardowns (i : Nat) (fs : List TeardownFunc) :
    teardownsOf i ((fs.map Action.teardown).map (fun a => (i, a))) = fs := by
  unfold teardownsOf
  induction fs with
  | nil => rfl
  | cons f rest ih =>
    simp only [List.map_cons, List.filterMap_cons, if_true]
    exact congrArg (List.cons f) ih

theorem beforeRace_no_teardown (r : TestRunner) (isDebug : Bool) (index : Nat)
    (step : TestRunnerStep) :
    ∀ a ∈ r.beforeRace isDebug index step, ∀ f, a ≠ Action.teardown f := by
  intro a ha f
  unfold TestRunner.beforeRace at ha
  by_cases h : index = 0 <;> simp [h] at ha <;> rcases ha with rfl | ha <;>
    first | exact Action.noConfusion | (try rcases ha with rfl | rfl) <;> exact Action.noConfusion

theorem report_no_teardown (r : TestRunner) (isDebug : Bool) (l : logger.Logger)
    (err : Option String) : ∀ a ∈ r.report isDebug l err, ∀ f, a ≠ Action.teardown f := by
  intro a ha f
  unfold TestRunner.report TestRunner.reportTestError at ha
  rcases err with _ | msg
  · simp at ha
    subst ha
    exact Action.noConfusion
  · by_cases h : isDebug = true <;> simp [h] at ha <;> rcases ha with rfl | rfl <;>
      exact Action.noConfusion

/-- Claim C2. `TestRunner.Run` returns true exactly when every step passes, that is, when
the test procedure of every step returns a `nil` error before the timeout of the step
elapses; in particular it returns true on an empty list of steps. It returns false as soon
as a step fails or times out: when the step at position `i` does so and all the steps
before it pass, the result is false and no action of the run belongs to a later step. -/
theorem C2_run_true_iff_every_step_passes (r : TestRunner) (isDebug : Bool)
    (e : executable.Executable) :
    ((r.Run isDebug e).1 = some true ↔ ∀ step ∈ r.steps, r.stepPasses isDebug e step = true) ∧
    (r.steps = [] → (r.Run isDebug e).1 = some true) ∧
    (∀ i step, r.steps[i]? = some step → r.stepFails isDebug e step = true →
      (∀ j s, j < i → r.steps[j]? = some s → r.stepPasses isDebug e s = true) →
      (r.Run isDebug e).1 = some false ∧ ∀ ev ∈ (r.Run isDebug e).2, ev.1 ≤ i) := by
  refine ⟨runFrom_all_pass_iff r isDebug e r.steps 0, ?_, ?_⟩
  · intro h
    refine (runFrom_all_pass_iff r isDebug e r.steps 0).mpr ?_
    rw [h]
    intro step hstep
    exact absurd hstep (List.not_mem_nil step)
  · intro i step hstep hfail hbefore
    unfold TestRunner.stepFails at hfail
    simp only [Bool.and_eq_true, Bool.not_eq_true'] at hfail
    obtain ⟨earlier, later, htrace, hearlier, _, hstop⟩ :=
      runFrom_shape r isDebug e r.steps 0 i step hstep hbefore
    obtain ⟨hlater, hres⟩ := hstop hfail.2
    rw [hfail.1] at hres
    refine ⟨hres, ?_⟩
    intro ev hev
    rw [TestRunner.Run, htrace, hlater, List.append_nil] at hev
    rcases List.mem_append.mp hev with h | h
    · have := hearlier ev h
      omega
    · obtain ⟨a, _, rfl⟩ := List.mem_map.mp h
      show 0 + i ≤ i
      omega

/-- Claim C3. For every step that `TestRunner.Run` starts (a step with a test procedure,
reached because all the steps before it passed), the actions of the run are: the actions of
the earlier steps; then, for this step, the actions up to the call of its test procedure,
the report of the outcome of the race (passed, failed or timed out), and one call of every
teardown closure on the harness of the step, in registration order; then the actions of
later steps only, and none at all when the step did not pass. The harness of the step is
the one the procedure has left when the race is decided. -/
theorem C3_teardowns_follow_outcome (r : TestRunner) (isDebug : Bool)
    (e : executable.Executable) (i : Nat) (step : TestRunnerStep)
    (testFunc : TestCaseHarness → TestFuncRun)
    (hstep : r.steps[i]? = some step)
    (hfunc : step.TestCase.TestFunc = some testFunc)
    (hstarted : ∀ j s, j < i → r.steps[j]? = some s → r.stepPasses isDebug e s = true) :
    ∃ earlier later,
      (r.Run isDebug e).2 =
        earlier ++
          (r.beforeRace isDebug i step ++
            r.report isDebug (r.getLoggerForStep isDebug step)
              (raceStep (r.newHarness isDebug e step) (testFunc (r.newHarness isDebug e step))
                step.TestCase.CustomOrDefaultTimeout).2 ++
            (raceStep (r.newHarness isDebug e step) (testFunc (r.newHarness isDebug e step))
              step.TestCase.CustomOrDefaultTimeout).1.teardownFuncs.map Action.teardown).map
            (fun a => (i, a)) ++
          later ∧
      (∀ ev ∈ earlier, ev.1 < i) ∧ (∀ ev ∈ later, i < ev.1) ∧
      ((raceStep (r.newHarness isDebug e step) (testFunc (r.newHarness isDebug e step))
          step.TestCase.CustomOrDefaultTimeout).2 ≠ none → later = []) := by
  obtain ⟨earlier, later, htrace, hearlier, hlater, hstop⟩ :=
    runFrom_shape r isDebug e r.steps 0 i step hstep hstarted
  simp only [Nat.zero_add] at htrace hearlier hlater
  rw [runStep_actions r isDebug e i step testFunc hfunc] at htrace
  refine ⟨earlier, later, htrace, hearlier, hlater, ?_⟩
  intro herr
  refine (hstop ?_).1
  rcases hp : r.stepPasses isDebug e step with _ | _
  · rfl
  · have h1 := (runStep_passes_iff r isDebug e i step).mpr hp
    rw [runStep_outcome, hfunc] at h1
    simp only [Option.some.injEq] at h1
    exact absurd h1 herr

/-- The hypotheses of claim C3 hold for the hanging step of `sampleRunner`, at position 1,
and the conclusion follows there: the closures on its harness are called after the timeout
has been reported, and nothing follows. -/
theorem C3_teardowns_follow_outcome_witness :
    sampleRunner.steps[1]? =
        some { TestCase := hangingCase, TesterLogPrefix := "stage-2", Title := "Stage #2" } ∧
    hangingCase.TestFunc =
        some (fun _ => { registers := [(1, 10), (2000000000, 11)], returns := none }) ∧
    (∀ j s, j < 1 → sampleRunner.steps[j]? = some s →
        sampleRunner.stepPasses false (executable.NewExecutable "/blah") s = true) ∧
    ∃ earlier later,
      (sampleRunner.Run false (executable.NewExecutable "/blah")).2 =
        earlier ++
          (sampleRunner.beforeRace false 1
              { TestCase := hangingCase, TesterLogPrefix := "stage-2", Title := "Stage #2" } ++
            sampleRunner.report false (logger.GetLogger false "[stage-2] ")
              (some (timedOutMsg 1500000000)) ++
            [Action.teardown 10]).map (fun a => (1, a)) ++
          later ∧
      (∀ ev ∈ earlier, ev.1 < 1) ∧ (∀ ev ∈ later, 1 < ev.1) ∧
      (some (timedOutMsg 1500000000) ≠ none → later = []) := by
  have hstarted : ∀ j s, j < 1 → sampleRunner.steps[j]? = some s →
      sampleRunner.stepPasses false (executable.NewExecutable "/blah") s = true := by
    intro j s hj hs
    have hj0 : j = 0 := by omega
    subst hj0
    simp only [sampleRunner, NewTestRunner, List.getElem?_cons_zero, Option.some.injEq] at hs
    subst hs
    rfl
  exact ⟨rfl, rfl, hstarted,
    C3_teardowns_follow_outcome sampleRunner false (executable.NewExecutable "/blah") 1
      { TestCase := hangingCase, TesterLogPrefix := "stage-2", Title := "Stage #2" }
      (fun _ => { registers := [(1, 10), (2000000000, 11)], returns := none })
      rfl rfl hstarted⟩

end test_runner

namespace test_case_harness

/-- Claim C4. `RegisterTeardownFunc` appends its argument to the end of the list of the
harness; after the closures `fs` have been registered in turn on a fresh harness, the list
is `fs` and `RunTeardownFuncs` calls exactly the closures of `fs`, each once, in
registration order. -/
theorem C4_registered_closures_run_in_order (l : logger.Logger) (e : executable.Executable)
    (fs : List TeardownFunc) :
    (∀ (s : TestCaseHarness) (f : TeardownFunc),
      (s.RegisterTeardownFunc f).teardownFuncs = s.teardownFuncs ++ [f]) ∧
    (fs.foldl TestCaseHarness.RegisterTeardownFunc
      { Logger := l, Executable := e, teardownFuncs := [] }).teardownFuncs = fs ∧
    (fs.foldl TestCaseHarness.RegisterTeardownFunc
      { Logger := l, Executable := e, teardownFuncs := [] }).RunTeardownFuncs.2 = fs := by
  refine ⟨fun s f => rfl, ?_, ?_⟩
  · rw [registerAll_foldl, List.nil_append]
  · rw [TestCaseHarness.RunTeardownFuncs, callEach_eq, registerAll_foldl, List.nil_append]

end test_case_harness

namespace test_runner

open test_case_harness tester_definition

/-- Claim C5, refuted as stated: on a harness with one registered closure, the list still
holds the closure after `RunTeardownFuncs`, and a second `RunTeardownFuncs` calls it
again. -/
theorem C5_second_run_calls_closures_again :
    sampleHarness.RunTeardownFuncs.1.teardownFuncs = [7] ∧
    ¬ (sampleHarness.RunTeardownFuncs.1.RunTeardownFuncs.2 = []) := by
  constructor
  · rfl
  · intro h
    exact List.noConfusion h

/-- Claim C5, amended. `RunTeardownFuncs` does not drain the list: it calls every registered
closure once and leaves the harness as it was, so a second `RunTeardownFuncs` on the same
harness calls the same closures again. Within `TestRunner.Run` the closures on the harness
of a started step are called exactly once each, since `Run` calls `RunTeardownFuncs` once
on each harness it builds. -/
theorem C5_teardown_list_kept_and_run_once (r : TestRunner) (isDebug : Bool)
    (e : executable.Executable) (i : Nat) (step : TestRunnerStep)
    (testFunc : TestCaseHarness → TestFuncRun)
    (hstep : r.steps[i]? = some step)
    (hfunc : step.TestCase.TestFunc = some testFunc)
    (hstarted : ∀ j s, j < i → r.steps[j]? = some s → r.stepPasses isDebug e s = true) :
    (∀ s : TestCaseHarness,
      s.RunTeardownFuncs.1 = s ∧ s.RunTeardownFuncs.2 = s.teardownFuncs ∧
      s.RunTeardownFuncs.1.RunTeardownFuncs.2 = s.teardownFuncs) ∧
    teardownsOf i (r.Run isDebug e).2 =
      (raceStep (r.newHarness isDebug e step) (testFunc (r.newHarness isDebug e step))
        step.TestCase.CustomOrDefaultTimeout).1.teardownFuncs := by
  constructor
  · intro s
    simp only [TestCaseHarness.RunTeardownFuncs, callEach_eq, and_self]
  · obtain ⟨earlier, later, htrace, hearlier, hlater, _⟩ :=
      runFrom_shape r isDebug e r.steps 0 i step hstep hstarted
    simp only [Nat.zero_add] at htrace hearlier hlater
    rw [runStep_actions r isDebug e i step testFunc hfunc] at htrace
    rw [TestRunner.Run, htrace]
    simp only [teardownsOf_append, List.map_append]
    rw [teardownsOf_other i earlier (fun ev hev => Nat.ne_of_lt (hearlier ev hev)),
      teardownsOf_other i later (fun ev hev => Nat.ne_of_gt (hlater ev hev)),
      teardownsOf_no_teardown i _ (beforeRace_no_teardown r isDebug i step),
      teardownsOf_no_teardown i _ (report_no_teardown r isDebug _ _),
      teardownsOf_teardowns]
    simp

/-- The hypotheses of the amended claim C5 hold for the first step of `sampleRunner`, whose
procedure registers closures 7 and 8: the run calls 7 and 8 once each during that step. -/
theorem C5_teardown_list_kept_and_run_once_witness :
    sampleRunner.steps[0]? =
        some { TestCase := passingCase, TesterLogPrefix := "stage-1", Title := "Stage #1" } ∧
    teardownsOf 0 (sampleRunner.Run false (executable.NewExecutable "/blah")).2 = [7, 8] :=
  ⟨rfl,
    (C5_teardown_list_kept_and_run_once sampleRunner false (executable.NewExecutable "/blah") 0
      { TestCase := passingCase, TesterLogPrefix := "stage-1", Title := "Stage #1" }
      (fun _ => { registers := [(1, 7), (2, 8)], returns := some (5, none) })
      rfl rfl (fun j _ hj _ => absurd hj (Nat.not_lt_zero j))).2⟩

end test_runner

namespace executable

theorem launch_not_new (os : StartEnv) (e : Executable) (args : List String) (msg : String) :
    (e.launch os args).2.1 ≠ some (Error.new msg) := by
  unfold Executable.launch
  rcases os.stdoutPipe with m1 | p1
  · simp
  dsimp only
  rcases os.stderrPipe with m2 | p2
  · simp
  dsimp only
  rcases os.stdinPipe with m3 | p3
  · simp
  dsimp only
  rcases os.start with m4 | pid
  · simp
  dsimp only
  rcases os.findProcess pid with m5 | proc
  · simp
  simp

theorem launch_cmd (os : StartEnv) (e : Executable) (args : List String) :
    ((e.launch os args).2.1 = none ∧ (e.launch os args).1.allSet = true) ∨
    ((e.launch os args).2.1 ≠ none ∧ (e.launch os args).1.cmd = e.cmd) := by
  unfold Executable.launch
  rcases os.stdoutPipe with m1 | p1
  · simp
  dsimp only
  rcases os.stderrPipe with m2 | p2
  · simp
  dsimp only
  rcases os.stdinPipe with m3 | p3
  · simp
  dsimp only
  rcases os.start with m4 | pid
  · simp
  dsimp only
  rcases os.findProcess pid with m5 | proc
  · simp
  simp [Executable.allSet]

theorem launch_spawn (os : StartEnv) (e : Executable) (args : List String)
    (hfind : ∀ pid, ∃ p, os.findProcess pid = .ok p)
    (herr : (e.launch os args).2.1 ≠ none) :
    ∀ pid, Effect.spawn pid ∉ (e.launch os args).2.2 := by
  revert herr
  unfold Executable.launch
  rcases os.stdoutPipe with m1 | p1
  · simp
  dsimp only
  rcases os.stderrPipe with m2 | p2
  · simp
  dsimp only
  rcases os.stdinPipe with m3 | p3
  · simp
  dsimp only
  rcases os.start with m4 | pid
  · simp
  dsimp only
  obtain ⟨proc, hproc⟩ := hfind pid
  rw [hproc]
  simp

/-- What `Start` does on a handle that is not running: it returns one of its own errors and
leaves the handle alone, or goes on to launch the command. -/
theorem Start_idle (os : StartEnv) (e : Executable) (args : List String)
    (hidle : e.isRunning = false) :
    (∃ msg, e.Start os args = (e, some (Error.new msg), [])) ∨
    e.Start os args = e.launch os args := by
  unfold Executable.Start
  rw [if_neg (by simp [hidle])]
  rcases resolvePath os e.Path with _ | absolutePath
  · exact Or.inl ⟨_, rfl⟩
  · simp only
    rcases os.stat absolutePath with m | fileInfo
    · exact Or.inl ⟨_, rfl⟩
    · simp only
      split
      · exact Or.inl ⟨_, rfl⟩
      · exact Or.inr rfl

theorem Start_running (os : StartEnv) (e : Executable)
    (args : List String) (hrunning : e.isRunning = true) :
    e.Start os args = (e, some (Error.new alreadyInProgressMsg), []) := by
  unfold Executable.Start
  rw [if_pos hrunning]

/-- Claim C6. On a handle with an invocation in progress, `Start` returns the error
"process already in progress", leaves every field of the handle as it was and performs no
action, whatever the environment, the path and the arguments. -/
theorem C6_start_rejected_while_running (os : StartEnv) (e : Executable) (args : List String)
    (hrunning : e.isRunning = true) :
    e.Start os args = (e, some (Error.new "process already in progress"), []) := by
  unfold Executable.Start
  rw [if_pos hrunning]
  rfl

/-- The handle `runningHandle` is running, and a second `Start` on it is rejected. -/
theorem C6_start_rejected_while_running_witness :
    runningHandle.isRunning = true ∧
    runningHandle.Start sampleOS ["again"] =
      (runningHandle, some (Error.new "process already in progress"), []) :=
  ⟨rfl, C6_start_rejected_while_running sampleOS runningHandle ["again"] rfl⟩

theorem Start_not_found (os : StartEnv) (e : Executable) (args : List String)
    (hidle : e.isRunning = false)
    (h : (∃ m1 m2, os.lookPath e.Path = .error m1 ∧ os.abs e.Path = .error m2) ∨
      ∃ absolutePath msg, resolvePath os e.Path = some absolutePath ∧
        os.stat absolutePath = .error msg) :
    e.Start os args = (e, some (Error.new (filepath.Base e.Path ++ " not found")), []) := by
  unfold Executable.Start
  rw [if_neg (by simp [hidle])]
  rcases h with ⟨m1, m2, h1, h2⟩ | ⟨absolutePath, msg, h1, h2⟩
  · have hres : resolvePath os e.Path = none := by
      unfold resolvePath
      rw [h1, h2]
    rw [hres]
    rfl
  · rw [h1]
    simp only [h2]
    rfl

/-- Claim C7, refuted as stated: for the path `/blah`, which resolves to an entry that
cannot be stat'ed, `Start` fails with the message `blah not found`, which does not contain
the configured path `/blah`. -/
theorem C7_not_found_message_drops_directory :
    (NewExecutable "/blah").isRunning = false ∧
    resolvePath sampleOS (NewExecutable "/blah").Path = some "/blah" ∧
    sampleOS.stat "/blah" = .error "no such file or directory" ∧
    ((NewExecutable "/blah").Start sampleOS []).2.1 = some (Error.new "blah not found") ∧
    ¬ strContains "blah not found" (NewExecutable "/blah").Path := by
  refine ⟨rfl, rfl, rfl, ?_, ?_⟩
  · rw [Start_not_found sampleOS (NewExecutable "/blah") [] rfl
      (Or.inr ⟨"/blah", "no such file or directory", rfl, rfl⟩)]
    rfl
  · decide

/-- Claim C7, amended. For every handle with no invocation in progress whose `Path`
resolves neither through the `PATH` lookup nor as a filesystem path, or whose resolved file
cannot be stat'ed, `Start` leaves the handle as it was and fails with the error
`<base> not found`, where `<base>` is `filepath.Base(Path)`, the last element of the
configured path: the message contains that last element and the words `not found`. -/
theorem C7_not_found_names_base_of_path (os : StartEnv) (e : Executable) (args : List String)
    (hidle : e.isRunning = false)
    (h : (∃ m1 m2, os.lookPath e.Path = .error m1 ∧ os.abs e.Path = .error m2) ∨
      ∃ absolutePath msg, resolvePath os e.Path = some absolutePath ∧
        os.stat absolutePath = .error msg) :
    e.Start os args = (e, some (Error.new (filepath.Base e.Path ++ " not found")), []) ∧
    strContains (filepath.Base e.Path ++ " not found") (filepath.Base e.Path) ∧
    strContains (filepath.Base e.Path ++ " not found") "not found" := by
  refine ⟨Start_not_found os e args hidle h, ?_, ?_⟩
  · unfold strContains
    rw [String.data_append]
    exact (List.prefix_append _ _).isInfix
  · unfold strContains
    rw [String.data_append]
    have hs : (" not found" : String).data = [' '] ++ ("not found" : String).data := rfl
    rw [hs, ← List.append_assoc]
    exact (List.suffix_append _ _).isInfix

/-- The hypotheses of the amended claim C7 hold for the path `/blah` in `sampleOS`, and the
error names `blah`. -/
theorem C7_not_found_names_base_of_path_witness :
    (NewExecutable "/blah").isRunning = false ∧
    (∃ absolutePath msg, resolvePath sampleOS (NewExecutable "/blah").Path = some absolutePath ∧
      sampleOS.stat absolutePath = .error msg) ∧
    (NewExecutable "/blah").Start sampleOS [] =
      (NewExecutable "/blah",
        some (Error.new (filepath.Base (NewExecutable "/blah").Path ++ " not found")), []) :=
  ⟨rfl, ⟨"/blah", "no such file or directory", rfl, rfl⟩,
    (C7_not_found_names_base_of_path sampleOS (NewExecutable "/blah") [] rfl
      (Or.inr ⟨"/blah", "no such file or directory", rfl, rfl⟩)).1⟩

theorem perm_exec_bits (mode : Nat) : (mode &&& 0o777) &&& 0o111 = mode &&& 0o111 := by
  rw [Nat.land_assoc]
  rfl

/-- Claim C8. For every handle with no invocation in progress whose `Path` resolves to an
entry that can be stat'ed, `Start` returns the error
`<Path> (resolved to <absolute path>) is not an executable file` if and only if the entry is
a directory or has none of the three execute permission bits set (mode & 0111 = 0). -/
theorem C8_not_executable_iff (os : StartEnv) (e : Executable) (args : List String)
    (absolutePath : String) (fileInfo : FileInfo)
    (hidle : e.isRunning = false)
    (hresolve : resolvePath os e.Path = some absolutePath)
    (hstat : os.stat absolutePath = .ok fileInfo) :
    (e.Start os args).2.1 =
        some (Error.new
          (e.Path ++ " (resolved to " ++ absolutePath ++ ") is not an executable file")) ↔
      (fileInfo.IsDir = true ∨ fileInfo.Mode &&& 0o111 = 0) := by
  unfold Executable.Start
  rw [if_neg (by simp [hidle]), hresolve]
  simp only [hstat, FileInfo.Perm, perm_exec_bits]
  by_cases hd : fileInfo.IsDir = true
  · simp [hd, notExecutableMsg]
  · by_cases hm : fileInfo.Mode &&& 0o111 = 0
    · simp [hm, notExecutableMsg]
    · have hne : (e.launch os args).2.1 ≠ some (Error.new
          (e.Path ++ " (resolved to " ++ absolutePath ++ ") is not an executable file")) :=
        launch_not_new os e args _
      simp [hd, hm, hne]

/-- The hypotheses of claim C8 hold for the plain file `/tmp/notes.txt` (mode 0644) in
`sampleOS`: none of its execute bits is set, and `Start` returns the error. -/
theorem C8_not_executable_iff_witness :
    (NewExecutable "/tmp/notes.txt").isRunning = false ∧
    resolvePath sampleOS (NewExecutable "/tmp/notes.txt").Path = some "/tmp/notes.txt" ∧
    sampleOS.stat "/tmp/notes.txt" = .ok { Mode := 0o644 } ∧
    ((NewExecutable "/tmp/notes.txt").Start sampleOS []).2.1 =
      some (Error.new
        ((NewExecutable "/tmp/notes.txt").Path ++ " (resolved to " ++ "/tmp/notes.txt" ++
          ") is not an executable file")) :=
  ⟨rfl, rfl, rfl,
    (C8_not_executable_iff sampleOS (NewExecutable "/tmp/notes.txt") [] "/tmp/notes.txt"
      { Mode := 0o644 } rfl rfl rfl).mpr (Or.inr rfl)⟩

/-- Claim C9. If `Start` returns an error on a handle that had no invocation in progress,
the handle has no invocation in progress afterwards, and a following `Kill` returns `nil`,
sends no signal and leaves the handle as it is, whatever the environment of `Kill`.
Moreover such a `Start` has launched no process, given that `os.FindProcess` does not fail
(it never does on Unix, the only platform on which this package builds). -/
theorem C9_failed_start_leaves_nothing_running (os : StartEnv) (e : Executable)
    (args : List String)
    (hidle : e.isRunning = false)
    (herr : (e.Start os args).2.1 ≠ none) :
    (e.Start os args).1.isRunning = false ∧
    (∀ env : KillEnv,
      (e.Start os args).1.Kill env = ((e.Start os args).1, KillOutcome.returned none, [])) ∧
    ((∀ pid, ∃ p, os.findProcess pid = .ok p) →
      ∀ pid, Effect.spawn pid ∉ (e.Start os args).2.2) := by
  have hcmd : e.cmd = none := by
    unfold Executable.isRunning at hidle
    exact Option.isNone_iff_eq_none.mp (by simpa using hidle)
  have hafter : (e.Start os args).1.cmd = none := by
    rcases Start_idle os e args hidle with ⟨msg, h⟩ | h
    · rw [h]
      exact hcmd
    · rw [h] at herr ⊢
      rcases launch_cmd os e args with ⟨h1, _⟩ | ⟨_, h2⟩
      · exact absurd h1 herr
      · rw [h2]
        exact hcmd
  refine ⟨by simp [Executable.isRunning, hafter], ?_, ?_⟩
  · intro env
    unfold Executable.Kill
    rw [hafter]
  · intro hfind pid
    rcases Start_idle os e args hidle with ⟨msg, h⟩ | h
    · rw [h]
      exact List.not_mem_nil _
    · rw [h] at herr ⊢
      exact launch_spawn os e args hfind herr pid

/-- The hypotheses of claim C9 hold for the path `/blah` in `sampleOS`: `Start` fails, and
the following `Kill` is a no-op. -/
theorem C9_failed_start_leaves_nothing_running_witness :
    (NewExecutable "/blah").isRunning = false ∧
    ((NewExecutable "/blah").Start sampleOS []).2.1 ≠ none ∧
    ((NewExecutable "/blah").Start sampleOS []).1.Kill
        { wait := sampleWait, reapedInTime := true } =
      (((NewExecutable "/blah").Start sampleOS []).1, KillOutcome.returned none, []) :=
  ⟨rfl, by decide,
    (C9_failed_start_leaves_nothing_running sampleOS (NewExecutable "/blah") [] rfl
      (by decide)).2.1 { wait := sampleWait, reapedInTime := true }⟩

theorem waitDeferred_state (e : Executable) :
    (e.waitDeferred.1 = e ∧ e.waitDeferred.2.1 = false) ∨
    (e.waitDeferred.1 = e.waitReset ∧ e.waitDeferred.2.1 = true) := by
  unfold Executable.waitDeferred
  rcases e.ctxCancelFunc with _ | c
  · exact Or.inl ⟨rfl, rfl⟩
  · exact Or.inr ⟨rfl, rfl⟩

/-- The handle after `Wait` is the handle before it or the handle reset by the deferred
function, and it is the reset one whenever `Wait` returns. -/
theorem Wait_state (env : WaitEnv) (e : Executable) :
    ((e.Wait env).1 = e ∧ ∀ result err, (e.Wait env).2.1 ≠ .returned result err) ∨
    (e.Wait env).1 = e.waitReset := by
  unfold Executable.Wait
  rcases e.StdinPipe with _ | stdin
  · dsimp only
    rcases waitDeferred_state e with ⟨h1, _⟩ | ⟨h1, _⟩
    · exact Or.inl ⟨h1, fun _ _ => WaitOutcome.noConfusion⟩
    · exact Or.inr h1
  · dsimp only
    rcases e.readDone with _ | rd
    · exact Or.inl ⟨rfl, fun _ _ => WaitOutcome.noConfusion⟩
    rcases e.cmd with _ | cmd
    · exact Or.inl ⟨rfl, fun _ _ => WaitOutcome.noConfusion⟩
    dsimp only
    rcases waitExitCode env.cmdWait with err | exitCode
    · dsimp only
      rcases waitDeferred_state e with ⟨h1, h2⟩ | ⟨h1, _⟩
      · refine Or.inl ⟨h1, fun _ _ => ?_⟩
        rw [h2]
        exact WaitOutcome.noConfusion
      · exact Or.inr h1
    · dsimp only
      split
      · rcases waitDeferred_state e with ⟨h1, h2⟩ | ⟨h1, _⟩
        · refine Or.inl ⟨h1, fun _ _ => ?_⟩
          dsimp only
          rw [h2]
          exact WaitOutcome.noConfusion
        · exact Or.inr h1
      · rcases waitDeferred_state e with ⟨h1, _⟩ | ⟨h1, _⟩
        · exact Or.inl ⟨h1, fun _ _ => WaitOutcome.noConfusion⟩
        · exact Or.inr h1

theorem Kill_state (env : KillEnv) (e : Executable) :
    (e.Kill env).1 = e ∨ (e.Kill env).1 = (e.Wait env.wait).1 := by
  unfold Executable.Kill
  rcases e.cmd with _ | cmd
  · exact Or.inl rfl
  · dsimp only
    rcases (e.Wait env.wait).2.1 with _ | _ | _
    · dsimp only
      by_cases h : env.reapedInTime = true <;> simp [h]
    · exact Or.inr rfl
    · by_cases h : env.reapedInTime = true <;> simp [h]

theorem waitReset_cleared (e : Executable) : e.waitReset.resetFieldsCleared = true := rfl

theorem Start_keeps_together (os : StartEnv) (e : Executable) (args : List String)
    (h : e.isRunning = true → e.allSet = true) :
    (e.Start os args).1.isRunning = true → (e.Start os args).1.allSet = true := by
  by_cases hr : e.isRunning = true
  · rw [Start_running os e args hr]
    exact h
  · have hidle : e.isRunning = false := by simpa using hr
    rcases Start_idle os e args hidle with ⟨msg, hs⟩ | hs
    · rw [hs]
      exact h
    · rw [hs]
      rcases launch_cmd os e args with ⟨_, h2⟩ | ⟨_, h2⟩
      · exact fun _ => h2
      · intro h3
        unfold Executable.isRunning at h3 hidle
        rw [h2, hidle] at h3
        exact Bool.noConfusion h3

theorem Wait_keeps_together (env : WaitEnv) (e : Executable)
    (h : e.isRunning = true → e.allSet = true) :
    (e.Wait env).1.isRunning = true → (e.Wait env).1.allSet = true := by
  rcases Wait_state env e with ⟨h1, _⟩ | h1
  · rw [h1]
    exact h
  · rw [h1]
    intro h2
    exact Bool.noConfusion h2

theorem Kill_keeps_together (env : KillEnv) (e : Executable)
    (h : e.isRunning = true → e.allSet = true) :
    (e.Kill env).1.isRunning = true → (e.Kill env).1.allSet = true := by
  rcases Kill_state env e with h1 | h1
  · rw [h1]
    exact h
  · rw [h1]
    exact Wait_keeps_together env.wait e h

theorem calls_keep_together (cs : List Call) (e : Executable)
    (h : e.isRunning = true → e.allSet = true) :
    (e.calls cs).isRunning = true → (e.calls cs).allSet = true := by
  induction cs generalizing e with
  | nil => exact h
  | cons c rest ih =>
    show ((e.call c).calls rest).isRunning = true → ((e.call c).calls rest).allSet = true
    apply ih
    cases c with
    | Start os args => exact Start_keeps_together os e args h
    | Wait env => exact Wait_keeps_together env e h
    | Kill env => exact Kill_keeps_together env e h

/-- Claim C10, refuted as stated. On a fresh handle, a successful `Start` followed by a
`Wait` that returns leaves the OS process handle set while the command, the stdin pipe, the
pipes, the buffers and the drain channel are cleared: the deferred function of `Wait` does
not assign `e.Process`. The state is neither all set nor all cleared. -/
theorem C10_fields_neither_all_set_nor_all_cleared :
    ((NewExecutable "/bin/prog").Start sampleOS ["hey"]).2.1 = none ∧
    (((NewExecutable "/bin/prog").Start sampleOS ["hey"]).1.Wait sampleWait).2.1 =
      WaitOutcome.returned { Stdout := [104, 105], Stderr := [], ExitCode := 0 } none ∧
    ((NewExecutable "/bin/prog").calls [.Start sampleOS ["hey"], .Wait sampleWait]).allSet
      = false ∧
    ((NewExecutable "/bin/prog").calls [.Start sampleOS ["hey"], .Wait sampleWait]).allCleared
      = false ∧
    ((NewExecutable "/bin/prog").calls
      [.Start sampleOS ["hey"], .Wait sampleWait]).Process.isSome = true ∧
    ((NewExecutable "/bin/prog").calls
      [.Start sampleOS ["hey"], .Wait sampleWait]).resetFieldsCleared = true := by
  refine ⟨rfl, rfl, rfl, rfl, rfl, rfl⟩

/-- Claim C10, amended. In every state reachable from a fresh or cloned handle by any
sequence of `Start`, `Wait` and `Kill` calls, failed ones included, an invocation in
progress (the command is set) has all the running-state fields set: the OS process handle,
the stdin pipe, the stdout and stderr pipes and buffers and the drain channel. A `Start`
that succeeds in such a state sets them all together with the command, and a `Wait` that
returns in such a state clears the command, the stdin pipe, the stdout and stderr pipes and
buffers and the drain channel together and leaves the OS process handle as it was. -/
theorem C10_running_fields_set_while_running (path : String) (timeout : Int)
    (loggerFunc : LoggerFunc) (workingDir : String) (cs : List Call) :
    (((Executable.literal path timeout loggerFunc workingDir).calls cs).isRunning = true →
      ((Executable.literal path timeout loggerFunc workingDir).calls cs).allSet = true) ∧
    (∀ os args,
      (((Executable.literal path timeout loggerFunc workingDir).calls cs).Start os args).2.1
          = none →
      (((Executable.literal path timeout loggerFunc workingDir).calls cs).Start os args).1.allSet
          = true) ∧
    (∀ env result err,
      (((Executable.literal path timeout loggerFunc workingDir).calls cs).Wait env).2.1
          = WaitOutcome.returned result err →
      (((Executable.literal path timeout loggerFunc workingDir).calls cs).Wait
          env).1.resetFieldsCleared = true ∧
      (((Executable.literal path timeout loggerFunc workingDir).calls cs).Wait
          env).1.Process =
        ((Executable.literal path timeout loggerFunc workingDir).calls cs).Process) := by
  have hinit : (Executable.literal path timeout loggerFunc workingDir).isRunning = true →
      (Executable.literal path timeout loggerFunc workingDir).allSet = true :=
    fun h => Bool.noConfusion h
  refine ⟨calls_keep_together cs _ hinit, ?_, ?_⟩
  · intro os args hok
    generalize (Executable.literal path timeout loggerFunc workingDir).calls cs = e at hok ⊢
    by_cases hr : e.isRunning = true
    · rw [Start_running os e args hr] at hok
      exact Option.noConfusion hok
    · have hidle : e.isRunning = false := by simpa using hr
      rcases Start_idle os e args hidle with ⟨msg, hs⟩ | hs
      · rw [hs] at hok
        exact Option.noConfusion hok
      · rw [hs] at hok ⊢
        rcases launch_cmd os e args with ⟨_, h2⟩ | ⟨h1, _⟩
        · exact h2
        · exact absurd hok h1
  · intro env result err hret
    generalize (Executable.literal path timeout loggerFunc workingDir).calls cs = e at hret ⊢
    rcases Wait_state env e with ⟨_, h2⟩ | h1
    · exact absurd hret (h2 result err)
    · rw [h1]
      exact ⟨rfl, rfl⟩

theorem launch_ready (os : StartEnv) (e : Executable) (args : List String) :
    ((e.launch os args).2.1 = none ∧ (e.launch os args).1.ready = true ∧
      (e.launch os args).1.isRunning = true) ∨
    ((e.launch os args).2.1 ≠ none ∧ (e.launch os args).1.cmd = e.cmd) := by
  unfold Executable.launch
  rcases os.stdoutPipe with m1 | p1
  · simp
  dsimp only
  rcases os.stderrPipe with m2 | p2
  · simp
  dsimp only
  rcases os.stdinPipe with m3 | p3
  · simp
  dsimp only
  rcases os.start with m4 | pid
  · simp
  dsimp only
  rcases os.findProcess pid with m5 | proc
  · simp
  simp [Executable.ready, Executable.isRunning]

theorem Start_keeps_ready (os : StartEnv) (e : Executable) (args : List String)
    (h : e.isRunning = true → e.ready = true) :
    (e.Start os args).1.isRunning = true → (e.Start os args).1.ready = true := by
  by_cases hr : e.isRunning = true
  · rw [Start_running os e args hr]
    exact h
  · have hidle : e.isRunning = false := by simpa using hr
    rcases Start_idle os e args hidle with ⟨msg, hs⟩ | hs
    · rw [hs]
      exact h
    · rw [hs]
      rcases launch_ready os e args with ⟨_, h2, _⟩ | ⟨_, h2⟩
      · exact fun _ => h2
      · intro h3
        unfold Executable.isRunning at h3 hidle
        rw [h2, hidle] at h3
        exact Bool.noConfusion h3

theorem Wait_keeps_ready (env : WaitEnv) (e : Executable)
    (h : e.isRunning = true → e.ready = true) :
    (e.Wait env).1.isRunning = true → (e.Wait env).1.ready = true := by
  rcases Wait_state env e with ⟨h1, _⟩ | h1
  · rw [h1]
    exact h
  · rw [h1]
    intro h2
    exact Bool.noConfusion h2

theorem Kill_keeps_ready (env : KillEnv) (e : Executable)
    (h : e.isRunning = true → e.ready = true) :
    (e.Kill env).1.isRunning = true → (e.Kill env).1.ready = true := by
  rcases Kill_state env e with h1 | h1
  · rw [h1]
    exact h
  · rw [h1]
    exact Wait_keeps_ready env.wait e h

/-- On every handle reached from one that is not running, an invocation in progress has
every field set that `Wait` dereferences. -/
theorem calls_keep_ready (cs : List Call) (e : Executable)
    (h : e.isRunning = true → e.ready = true) :
    (e.calls cs).isRunning = true → (e.calls cs).ready = true := by
  induction cs generalizing e with
  | nil => exact h
  | cons c rest ih =>
    show ((e.call c).calls rest).isRunning = true → ((e.call c).calls rest).ready = true
    apply ih
    cases c with
    | Start os args => exact Start_keeps_ready os e args h
    | Wait env => exact Wait_keeps_ready env e h
    | Kill env => exact Kill_keeps_ready env e h

theorem literal_calls_ready (path : String) (timeout : Int) (loggerFunc : LoggerFunc)
    (workingDir : String) (cs : List Call)
    (hrun : ((Executable.literal path timeout loggerFunc workingDir).calls cs).isRunning
      = true) :
    ((Executable.literal path timeout loggerFunc workingDir).calls cs).ready = true :=
  calls_keep_ready cs _ (fun h => Bool.noConfusion h) hrun

/-- What `Wait` does on a handle that has every field set that it dereferences: it resets
the handle and returns; the error of `e.cmd.Wait()` that is not an exit error comes first,
the exceeded deadline second, the result last. -/
theorem Wait_of_ready (env : WaitEnv) (e : Executable) (h : e.ready = true) :
    e.Wait env =
      (e.waitReset,
        (match waitExitCode env.cmdWait with
         | .error err => WaitOutcome.returned ⟨[], [], 0⟩ (some err)
         | .ok exitCode =>
           if env.deadlineExceeded then
             WaitOutcome.returned ⟨[], [], 0⟩ (some (.new "execution timed out"))
           else
             WaitOutcome.returned
               ⟨(setupIORelay env.stdout).1, (setupIORelay env.stderr).1, exitCode⟩ none),
        [.closeStdin, .recvReadDone, .recvReadDone, .cmdWait] ++
          (match waitExitCode env.cmdWait with
           | .error _ => []
           | .ok _ => [.flush false, .flush true]) ++ [.cancelCtx]) := by
  simp only [Executable.ready, Bool.and_eq_true, Option.isSome_iff_exists] at h
  obtain ⟨⟨⟨⟨⟨⟨⟨⟨⟨p, hp⟩, ⟨rd, hrd⟩⟩, ⟨cmd, hcmd⟩⟩, ⟨w1, hw1⟩⟩, ⟨w2, hw2⟩⟩, ⟨b1, hb1⟩⟩,
    ⟨b2, hb2⟩⟩, ⟨ctx, hctx⟩⟩, ⟨cancel, hcancel⟩⟩ := h
  unfold Executable.Wait Executable.waitDeferred
  rw [hp, hrd, hcmd, hw1, hw2, hb1, hb2, hctx, hcancel]
  dsimp only
  rcases waitExitCode env.cmdWait with err | exitCode
  · simp
  · by_cases hd : env.deadlineExceeded = true <;> simp [hd]

theorem Wait_ready_returns (env : WaitEnv) (e : Executable) (h : e.ready = true) :
    ∃ result err, (e.Wait env).2.1 = WaitOutcome.returned result err := by
  rw [Wait_of_ready env e h]
  dsimp only
  rcases waitExitCode env.cmdWait with err | exitCode
  · exact ⟨_, _, rfl⟩
  · dsimp only
    split <;> exact ⟨_, _, rfl⟩

theorem Start_Path (os : StartEnv) (e : Executable) (args : List String) :
    (e.Start os args).1.Path = e.Path := by
  by_cases hr : e.isRunning = true
  · rw [Start_running os e args hr]
  · have hidle : e.isRunning = false := by simpa using hr
    rcases Start_idle os e args hidle with ⟨msg, hs⟩ | hs
    · rw [hs]
    · rw [hs]
      unfold Executable.launch
      rcases os.stdoutPipe with m1 | p1
      · rfl
      dsimp only
      rcases os.stderrPipe with m2 | p2
      · rfl
      dsimp only
      rcases os.stdinPipe with m3 | p3
      · rfl
      dsimp only
      rcases os.start with m4 | pid
      · rfl
      dsimp only
      rcases os.findProcess pid with m5 | proc
      · rfl
      rfl

theorem Wait_Path (env : WaitEnv) (e : Executable) : (e.Wait env).1.Path = e.Path := by
  rcases Wait_state env e with ⟨h1, _⟩ | h1 <;> rw [h1]
  rfl

theorem Kill_Path (env : KillEnv) (e : Executable) : (e.Kill env).1.Path = e.Path := by
  rcases Kill_state env e with h1 | h1
  · rw [h1]
  · rw [h1]
    exact Wait_Path env.wait e

theorem calls_Path (cs : List Call) (e : Executable) : (e.calls cs).Path = e.Path := by
  induction cs generalizing e with
  | nil => rfl
  | cons c rest ih =>
    show ((e.call c).calls rest).Path = e.Path
    rw [ih]
    cases c with
    | Start os args => exact Start_Path os e args
    | Wait env => exact Wait_Path env e
    | Kill env => exact Kill_Path env e

/-- On a handle that is not running, `Start` succeeds in an environment that allows it, and
leaves the handle running with every field set that `Wait` dereferences. -/
theorem Start_allowed (os : StartEnv) (e : Executable) (args : List String)
    (hidle : e.isRunning = false) (hallows : os.allows e.Path = true) :
    (e.Start os args).2.1 = none ∧ (e.Start os args).1.isRunning = true ∧
      (e.Start os args).1.ready = true := by
  revert hallows
  unfold Executable.Start StartEnv.allows
  rw [if_neg (by simp [hidle])]
  rcases resolvePath os e.Path with _ | absolutePath
  · intro h
    exact Bool.noConfusion h
  dsimp only
  rcases os.stat absolutePath with m0 | fileInfo
  · intro h
    simp at h
  unfold Executable.launch
  rcases os.stdoutPipe with m1 | p1
  · intro h
    simp at h
  rcases os.stderrPipe with m2 | p2
  · intro h
    simp at h
  rcases os.stdinPipe with m3 | p3
  · intro h
    simp at h
  rcases os.start with m4 | pid
  · intro h
    simp at h
  dsimp only
  rcases os.findProcess pid with m5 | proc
  · intro h
    simp at h
  · intro h
    simp only [Bool.and_true, Bool.not_eq_true'] at h
    simp [h, Executable.ready, Executable.isRunning]

theorem append_ne_alreadyInProgress (a b : String) (c : Char)
    (hb : b.data.getLast? = some c) (hc : c ≠ 's') : a ++ b ≠ alreadyInProgressMsg := by
  intro h
  have h1 : (a ++ b).data.getLast? = alreadyInProgressMsg.data.getLast? := by rw [h]
  rw [String.data_append, List.getLast?_append, hb] at h1
  have h2 : alreadyInProgressMsg.data.getLast? = some 's' := by decide
  rw [h2] at h1
  simp only [Option.or_some, Option.some.injEq] at h1
  exact hc h1

/-- On a handle that is not running, `Start` does not return the error "process already
in progress". -/
theorem Start_idle_not_rejected (os : StartEnv) (e : Executable) (args : List String)
    (hidle : e.isRunning = false) :
    (e.Start os args).2.1 ≠ some (Error.new "process already in progress") := by
  have hnf : notFoundMsg e.Path ≠ alreadyInProgressMsg :=
    append_ne_alreadyInProgress _ _ 'd' (by decide) (by decide)
  have hne : ∀ a, notExecutableMsg e.Path a ≠ alreadyInProgressMsg := fun a =>
    append_ne_alreadyInProgress _ _ 'e' (by decide) (by decide)
  unfold Executable.Start
  rw [if_neg (by simp [hidle])]
  rcases resolvePath os e.Path with _ | absolutePath
  · intro h
    simp only [Option.some.injEq, Error.new.injEq] at h
    exact hnf h
  · dsimp only
    rcases os.stat absolutePath with m | fileInfo
    · intro h
      simp only [Option.some.injEq, Error.new.injEq] at h
      exact hnf h
    · dsimp only
      split
      · intro h
        simp only [Option.some.injEq, Error.new.injEq] at h
        exact hne absolutePath h
      · exact launch_not_new os e args _

theorem rounds_leave_idle (rs : List (StartEnv × List String × WaitEnv)) (e : Executable)
    (hidle : e.isRunning = false)
    (hallow : ∀ r ∈ rs, r.1.allows e.Path = true) :
    (e.calls (rounds rs)).isRunning = false := by
  induction rs generalizing e with
  | nil => exact hidle
  | cons r rest ih =>
    obtain ⟨os, args, env⟩ := r
    have h1 := Start_allowed os e args hidle (hallow _ (List.mem_cons_self _ _))
    show (((e.Start os args).1.Wait env).1.calls (rounds rest)).isRunning = false
    apply ih
    · rw [Wait_of_ready env _ h1.2.2]
      rfl
    · intro r hr
      rw [Wait_Path, Start_Path]
      exact hallow r (List.mem_cons_of_mem _ hr)

/-- Claim C11. On an invocation in progress (a running handle reached from a fresh or
cloned one), `Wait` returns, with a result or with an error; afterwards the handle has no
invocation in progress and a following `Start` is not rejected with "process already in
progress": it succeeds in every environment that allows the launch. Moreover the same
handle can be started and waited for any number of times in succession: after any number
of rounds of `Start` and `Wait` in environments that allow the launch, one more `Start`
succeeds and the `Wait` after it returns. -/
theorem C11_handle_reusable_after_wait (path : String) (timeout : Int)
    (loggerFunc : LoggerFunc) (workingDir : String) (cs : List Call) (env : WaitEnv)
    (hrun : ((Executable.literal path timeout loggerFunc workingDir).calls cs).isRunning
      = true) :
    (∃ result err,
      (((Executable.literal path timeout loggerFunc workingDir).calls cs).Wait env).2.1 =
        WaitOutcome.returned result err) ∧
    (((Executable.literal path timeout loggerFunc workingDir).calls cs).Wait env).1.isRunning
      = false ∧
    (∀ os args,
      ((((Executable.literal path timeout loggerFunc workingDir).calls cs).Wait env).1.Start
        os args).2.1 ≠ some (Error.new "process already in progress")) ∧
    (∀ os args, os.allows path = true →
      ((((Executable.literal path timeout loggerFunc workingDir).calls cs).Wait env).1.Start
        os args).2.1 = none) ∧
    (∀ (rs : List (StartEnv × List String × WaitEnv)) os args env1,
      (∀ r ∈ rs, r.1.allows path = true) → os.allows path = true →
      (((Executable.literal path timeout loggerFunc workingDir).calls (rounds rs)).Start
        os args).2.1 = none ∧
      ∃ result err,
        ((((Executable.literal path timeout loggerFunc workingDir).calls (rounds rs)).Start
          os args).1.Wait env1).2.1 = WaitOutcome.returned result err) := by
  have hready := literal_calls_ready path timeout loggerFunc workingDir cs hrun
  have hpath : ((Executable.literal path timeout loggerFunc workingDir).calls cs).Path = path :=
    calls_Path cs _
  generalize (Executable.literal path timeout loggerFunc workingDir).calls cs = e
    at hready hpath
  have hwait := Wait_of_ready env e hready
  have hidle : (e.Wait env).1.isRunning = false := by
    rw [hwait]
    rfl
  refine ⟨?_, hidle, fun os args => Start_idle_not_rejected os _ args hidle, ?_, ?_⟩
  · exact Wait_ready_returns env e hready
  · intro os args hallows
    refine (Start_allowed os _ args hidle ?_).1
    rw [Wait_Path, hpath]
    exact hallows
  · intro rs os args env1 hrs hos
    have hidle0 : (Executable.literal path timeout loggerFunc workingDir).isRunning = false :=
      rfl
    have hidle1 := rounds_leave_idle rs _ hidle0 hrs
    have hp1 : ((Executable.literal path timeout loggerFunc workingDir).calls
        (rounds rs)).Path = path := calls_Path _ _
    generalize (Executable.literal path timeout loggerFunc workingDir).calls (rounds rs) = e1
      at hidle1 hp1
    have hstart := Start_allowed os e1 args hidle1 (by rw [hp1]; exact hos)
    exact ⟨hstart.1, Wait_ready_returns env1 _ hstart.2.2⟩

/-- The hypothesis of claim C11 holds for `/bin/prog` started in `sampleOS`: the handle is
running, `Wait` returns, and a second `Start` succeeds. -/
theorem C11_handle_reusable_after_wait_witness :
    ((Executable.literal "/bin/prog" 10000 LoggerFunc.nullLogger "").calls
      [.Start sampleOS ["hey"]]).isRunning = true ∧
    sampleOS.allows "/bin/prog" = true ∧
    ((((Executable.literal "/bin/prog" 10000 LoggerFunc.nullLogger "").calls
      [.Start sampleOS ["hey"]]).Wait sampleWait).1.Start sampleOS ["again"]).2.1 = none :=
  ⟨rfl, rfl,
    (C11_handle_reusable_after_wait "/bin/prog" 10000 LoggerFunc.nullLogger ""
      [.Start sampleOS ["hey"]] sampleWait rfl).2.2.2.1 sampleOS ["again"] rfl⟩

/-- Claim C12. On an invocation in progress that completes without exceeding its
deadline, `Wait` returns no error and a result whose `ExitCode` is the exit status of the
process when it exited normally (0 when `e.cmd.Wait()` returns `nil`, the non-zero status
carried by the exit error otherwise), and 128 + N when it was terminated by signal N: 139
for `SIGSEGV`, N = 11. -/
theorem C12_exit_code_of_completed_invocation (path : String) (timeout : Int)
    (loggerFunc : LoggerFunc) (workingDir : String) (cs : List Call) (env : WaitEnv)
    (hrun : ((Executable.literal path timeout loggerFunc workingDir).calls cs).isRunning
      = true)
    (hdeadline : env.deadlineExceeded = false) :
    (env.cmdWait = .success →
      (((Executable.literal path timeout loggerFunc workingDir).calls cs).Wait env).2.1 =
        WaitOutcome.returned
          ⟨(setupIORelay env.stdout).1, (setupIORelay env.stderr).1, 0⟩ none) ∧
    (∀ code : Nat, env.cmdWait = .exitError (.exited code) →
      (((Executable.literal path timeout loggerFunc workingDir).calls cs).Wait env).2.1 =
        WaitOutcome.returned
          ⟨(setupIORelay env.stdout).1, (setupIORelay env.stderr).1, (code : Int)⟩ none) ∧
    (∀ sig : Nat, env.cmdWait = .exitError (.signaled sig) →
      (((Executable.literal path timeout loggerFunc workingDir).calls cs).Wait env).2.1 =
        WaitOutcome.returned
          ⟨(setupIORelay env.stdout).1, (setupIORelay env.stderr).1, 128 + (sig : Int)⟩
          none) ∧
    (env.cmdWait = .exitError (.signaled 11) →
      (((Executable.literal path timeout loggerFunc workingDir).calls cs).Wait env).2.1 =
        WaitOutcome.returned
          ⟨(setupIORelay env.stdout).1, (setupIORelay env.stderr).1, 139⟩ none) := by
  have hready := literal_calls_ready path timeout loggerFunc workingDir cs hrun
  generalize (Executable.literal path timeout loggerFunc workingDir).calls cs = e at hready
  rw [Wait_of_ready env e hready]
  refine ⟨?_, ?_, ?_, ?_⟩
  · intro h
    simp [h, hdeadline, waitExitCode, CmdWaitResult.ExitCode]
  · intro code h
    simp [h, hdeadline, waitExitCode, CmdWaitResult.ExitCode]
  · intro sig h
    simp [h, hdeadline, waitExitCode, CmdWaitResult.ExitCode]
  · intro h
    simp [h, hdeadline, waitExitCode, CmdWaitResult.ExitCode]

/-- The hypotheses of claim C12 hold for `/bin/prog` started in `sampleOS` and dying of
signal 11 in time: `Wait` returns exit code 139 and no error. -/
theorem C12_exit_code_of_completed_invocation_witness :
    ((Executable.literal "/bin/prog" 10000 LoggerFunc.nullLogger "").calls
      [.Start sampleOS []]).isRunning = true ∧
    sampleWaitSegfault.deadlineExceeded = false ∧
    (((Executable.literal "/bin/prog" 10000 LoggerFunc.nullLogger "").calls
      [.Start sampleOS []]).Wait sampleWaitSegfault).2.1 =
        WaitOutcome.returned
          ⟨(setupIORelay sampleWaitSegfault.stdout).1,
            (setupIORelay sampleWaitSegfault.stderr).1, 139⟩ none :=
  ⟨rfl, rfl,
    (C12_exit_code_of_completed_invocation "/bin/prog" 10000 LoggerFunc.nullLogger ""
      [.Start sampleOS []] sampleWaitSegfault rfl rfl).2.2.2 rfl⟩

/-- Claim C13, evaluated at the failing input: on a running handle whose deadline has been
exceeded and whose `e.cmd.Wait()` returns an error that is not an exit error (here the
error of the context, which `exec` returns for a subject that had exited with status 0
when the deadline passed), `Wait` returns that error at line 268 and not "execution timed
out": the deadline check of line 284 is not reached. -/
theorem C13_other_wait_error_precedes_deadline :
    ((Executable.literal "/bin/prog" 10000 LoggerFunc.nullLogger "").calls
      [.Start sampleOS []]).isRunning = true ∧
    sampleWaitContextError.deadlineExceeded = true ∧
    (((Executable.literal "/bin/prog" 10000 LoggerFunc.nullLogger "").calls
      [.Start sampleOS []]).Wait sampleWaitContextError).2.1 =
        WaitOutcome.returned ⟨[], [], 0⟩ (some (Error.external "context deadline exceeded")) ∧
    (((Executable.literal "/bin/prog" 10000 LoggerFunc.nullLogger "").calls
      [.Start sampleOS []]).Wait sampleWaitContextError).2.1 ≠
        WaitOutcome.returned ⟨[], [], 0⟩ (some (Error.new "execution timed out")) := by
  refine ⟨rfl, rfl, rfl, ?_⟩
  decide

/-- Where `e.cmd.Wait()` has returned `nil` or an exit error, the deadline takes precedence:
on an invocation in progress whose deadline has been exceeded, `Wait` returns the error
"execution timed out" together with an empty result, whatever the exit status or signal of
the process. When `e.cmd.Wait()` returns any other error, `Wait` returns that error with an
empty result. -/
theorem Wait_deadline_precedes_exit_status (path : String) (timeout : Int)
    (loggerFunc : LoggerFunc) (workingDir : String) (cs : List Call) (env : WaitEnv)
    (hrun : ((Executable.literal path timeout loggerFunc workingDir).calls cs).isRunning
      = true)
    (hdeadline : env.deadlineExceeded = true) :
    ((env.cmdWait = .success ∨ ∃ status, env.cmdWait = .exitError status) →
      (((Executable.literal path timeout loggerFunc workingDir).calls cs).Wait env).2.1 =
        WaitOutcome.returned ⟨[], [], 0⟩ (some (Error.new "execution timed out"))) ∧
    (∀ msg exitCode, env.cmdWait = .otherError msg exitCode →
      (((Executable.literal path timeout loggerFunc workingDir).calls cs).Wait env).2.1 =
        WaitOutcome.returned ⟨[], [], 0⟩ (some (Error.external msg))) := by
  have hready := literal_calls_ready path timeout loggerFunc workingDir cs hrun
  generalize (Executable.literal path timeout loggerFunc workingDir).calls cs = e at hready
  rw [Wait_of_ready env e hready]
  refine ⟨?_, ?_⟩
  · rintro (h | ⟨status, h⟩)
    · simp [h, hdeadline, waitExitCode]
    · rcases status with code | sig
      · simp [h, hdeadline, waitExitCode, CmdWaitResult.ExitCode]
      · simp [h, hdeadline, waitExitCode, CmdWaitResult.ExitCode]
  · intro msg exitCode h
    simp [h, waitExitCode]

/-- For `/bin/prog` started in `sampleOS` and killed at its deadline, `Wait` returns
"execution timed out" and an empty result. -/
theorem Wait_deadline_precedes_exit_status_sample :
    ((Executable.literal "/bin/prog" 10000 LoggerFunc.nullLogger "").calls
      [.Start sampleOS []]).isRunning = true ∧
    sampleWaitKilled.deadlineExceeded = true ∧
    (((Executable.literal "/bin/prog" 10000 LoggerFunc.nullLogger "").calls
      [.Start sampleOS []]).Wait sampleWaitKilled).2.1 =
        WaitOutcome.returned ⟨[], [], 0⟩ (some (Error.new "execution timed out")) :=
  ⟨rfl, rfl,
    (Wait_deadline_precedes_exit_status "/bin/prog" 10000 LoggerFunc.nullLogger ""
      [.Start sampleOS []] sampleWaitKilled rfl rfl).1 (Or.inr ⟨_, rfl⟩)⟩

/-- The copy loop delivers the first `remaining` bytes of the stream, however the pipe
splits the stream into reads. -/
theorem copyLimited_eq_take (sizes : List Nat) (pending : Bytes) (remaining : Nat) :
    copyLimited sizes pending remaining = pending.take remaining := by
  induction sizes generalizing pending remaining with
  | nil => rfl
  | cons available sizes ih =>
    unfold copyLimited
    by_cases h0 : remaining = 0
    · simp [h0]
    · rw [if_neg h0]
      dsimp only
      generalize hn : max 1 (min available (min (32 * 1024) remaining)) = n
      have hle : n ≤ remaining := by
        rw [← hn]
        omega
      rw [ih, List.length_take]
      by_cases hlen : n ≤ pending.length
      · rw [Nat.min_eq_left hlen]
        have hsum : remaining = n + (remaining - n) := by omega
        conv_rhs => rw [hsum, List.take_add]
      · have hshort : pending.length ≤ n := by omega
        rw [List.drop_of_length_le hshort, List.take_of_length_le hshort,
          List.take_of_length_le (le_trans hshort hle)]
        simp

/-- The result that `Wait` returns without an error holds what the two relays have
captured. -/
theorem Wait_result (env : WaitEnv) (e : Executable) (result : ExecutableResult)
    (h : (e.Wait env).2.1 = WaitOutcome.returned result none) :
    result.Stdout = (setupIORelay env.stdout).1 ∧
      result.Stderr = (setupIORelay env.stderr).1 := by
  revert h
  unfold Executable.Wait Executable.waitDeferred
  rcases e.StdinPipe with _ | stdin
  · rcases e.ctxCancelFunc with _ | c <;> simp
  dsimp only
  rcases e.readDone with _ | rd
  · simp
  rcases e.cmd with _ | cmd
  · simp
  dsimp only
  rcases waitExitCode env.cmdWait with err | exitCode
  · rcases e.ctxCancelFunc with _ | c <;> simp
  dsimp only
  rcases e.stdoutLineWriter with _ | w1
  · rcases e.ctxCancelFunc with _ | c <;> simp
  rcases e.stderrLineWriter with _ | w2
  · rcases e.ctxCancelFunc with _ | c <;> simp
  rcases e.stdoutBuffer with _ | b1
  · rcases e.ctxCancelFunc with _ | c <;> simp
  rcases e.stderrBuffer with _ | b2
  · rcases e.ctxCancelFunc with _ | c <;> simp
  rcases e.ctxWithTimeout with _ | ctx
  · rcases e.ctxCancelFunc with _ | c <;> simp
  rcases e.ctxCancelFunc with _ | c
  · simp
  by_cases hd : env.deadlineExceeded = true
  · simp [hd]
  · simp only [hd, Bool.not_true, Bool.false_eq_true, if_false, WaitOutcome.returned.injEq,
      and_true]
    intro h
    rw [← h]
    exact ⟨rfl, rfl⟩

/-- Claim C14. Whenever `Run` returns a result (no error), its `Stdout` is exactly the
first min(n, 1 MiB) bytes that the subject wrote to its standard output and its `Stderr`
exactly the first min(m, 1 MiB) bytes that it wrote to its standard error, in order; each
is what the copy loop of its own relay delivers from its own stream under the cap of
1,048,576 bytes, however the pipe splits the stream into reads. -/
theorem C14_run_captures_each_stream (os : StartEnv) (env : WaitEnv) (e : Executable)
    (args : List String) (result : ExecutableResult)
    (h : (e.Run os env args).2.1 = WaitOutcome.returned result none) :
    result.Stdout = env.stdout.take 1048576 ∧
    result.Stderr = env.stderr.take 1048576 ∧
    result.Stdout.length = min env.stdout.length 1048576 ∧
    result.Stderr.length = min env.stderr.length 1048576 ∧
    (∀ sizes, copyLimited sizes env.stdout (1024 * 1024) = result.Stdout) ∧
    (∀ sizes, copyLimited sizes env.stderr (1024 * 1024) = result.Stderr) := by
  have hwait : result.Stdout = (setupIORelay env.stdout).1 ∧
      result.Stderr = (setupIORelay env.stderr).1 := by
    revert h
    unfold Executable.Run
    rcases hs : e.Start os args with ⟨e1, err, effects⟩
    rcases err with _ | err
    · dsimp only
      intro h
      exact Wait_result env e1 result h
    · dsimp only
      intro h
      simp at h
  obtain ⟨h1, h2⟩ := hwait
  have hlimit : relayLimit = 1048576 := rfl
  have hs1 : (setupIORelay env.stdout).1 = env.stdout.take 1048576 := rfl
  have hs2 : (setupIORelay env.stderr).1 = env.stderr.take 1048576 := rfl
  rw [hs1] at h1
  rw [hs2] at h2
  refine ⟨h1, h2, ?_, ?_, ?_, ?_⟩
  · rw [h1, List.length_take, Nat.min_comm]
  · rw [h2, List.length_take, Nat.min_comm]
  · intro sizes
    rw [copyLimited_eq_take, h1]
  · intro sizes
    rw [copyLimited_eq_take, h2]

/-- The hypothesis of claim C14 holds for `/bin/prog` run in `sampleOS` with a subject that
prints `hi`: the result holds `hi` on `Stdout` and nothing on `Stderr`. -/
theorem C14_run_captures_each_stream_witness :
    ((NewExecutable "/bin/prog").Run sampleOS sampleWait ["hey"]).2.1 =
      WaitOutcome.returned ⟨[104, 105], [], 0⟩ none ∧
    ([104, 105] : Bytes) = sampleWait.stdout.take 1048576 ∧
    ([] : Bytes) = sampleWait.stderr.take 1048576 :=
  ⟨rfl,
    (C14_run_captures_each_stream sampleOS sampleWait (NewExecutable "/bin/prog") ["hey"]
      ⟨[104, 105], [], 0⟩ rfl).1,
    (C14_run_captures_each_stream sampleOS sampleWait (NewExecutable "/bin/prog") ["hey"]
      ⟨[104, 105], [], 0⟩ rfl).2.1⟩

/-- Claim C15, refuted as stated: a stream of exactly 1 MiB does not overflow the cap, its
capture is the whole stream, and the relay emits the warning all the same. -/
theorem C15_warning_without_overflow :
    (List.replicate relayLimit 0 : Bytes).length = 1024 * 1024 ∧
    (setupIORelay (List.replicate relayLimit 0)).1 = List.replicate relayLimit 0 ∧
    (setupIORelay (List.replicate relayLimit 0)).2 =
      [Effect.loggerFunc
        "Warning: Logs exceeded allowed limit, output might be truncated.\n"] := by
  refine ⟨?_, ?_, ?_⟩
  · rw [List.length_replicate]
    rfl
  · simp [setupIORelay]
  · simp [setupIORelay]

/-- Claim C15, amended. A capture relay emits the warning, once, if and only if it has
copied exactly 1 MiB, that is, if and only if the subject produced at least 1 MiB on that
stream; a stream of less than 1 MiB produces no warning. The capture is truncated exactly
when the subject produced more than 1 MiB, so a stream of exactly 1 MiB is captured whole
and warned about. -/
theorem C15_warning_iff_cap_reached (source : Bytes) :
    ((setupIORelay source).2 =
        [Effect.loggerFunc
          "Warning: Logs exceeded allowed limit, output might be truncated.\n"] ↔
      1024 * 1024 ≤ source.length) ∧
    ((setupIORelay source).2 = [] ↔ source.length < 1024 * 1024) ∧
    ((setupIORelay source).1 ≠ source ↔ 1024 * 1024 < source.length) := by
  have hlimit : relayLimit = 1024 * 1024 := rfl
  unfold setupIORelay
  simp only [List.length_take, hlimit]
  refine ⟨?_, ?_, ?_⟩
  · by_cases h : 1024 * 1024 ≤ source.length
    · simp [Nat.min_eq_left h, h]
    · have h1 : min (1024 * 1024) source.length = source.length := by omega
      have h2 : source.length ≠ 1024 * 1024 := by omega
      simp [h1, h2, h]
  · by_cases h : 1024 * 1024 ≤ source.length
    · have h3 : ¬ source.length < 1024 * 1024 := by omega
      simp [Nat.min_eq_left h, h3]
    · have h1 : min (1024 * 1024) source.length = source.length := by omega
      have h2 : source.length ≠ 1024 * 1024 := by omega
      have h3 : source.length < 1024 * 1024 := by omega
      simp [h1, h2, h3]
  · rw [Ne, List.take_eq_self_iff]
    omega

/-- Claim C16. On every invocation in progress, `Wait` first closes the stdin pipe, then
receives from the drain channel exactly twice, and only then calls `e.cmd.Wait()`: its
actions start with these four, in this order, and none of the three kinds of action occurs
again afterwards. -/
theorem C16_wait_order (path : String) (timeout : Int) (loggerFunc : LoggerFunc)
    (workingDir : String) (cs : List Call) (env : WaitEnv)
    (hrun : ((Executable.literal path timeout loggerFunc workingDir).calls cs).isRunning
      = true) :
    ∃ later,
      (((Executable.literal path timeout loggerFunc workingDir).calls cs).Wait env).2.2 =
        [Effect.closeStdin, Effect.recvReadDone, Effect.recvReadDone, Effect.cmdWait] ++
          later ∧
      Effect.closeStdin ∉ later ∧ Effect.recvReadDone ∉ later ∧ Effect.cmdWait ∉ later := by
  have hready := literal_calls_ready path timeout loggerFunc workingDir cs hrun
  generalize (Executable.literal path timeout loggerFunc workingDir).calls cs = e at hready
  rw [Wait_of_ready env e hready]
  dsimp only
  rcases waitExitCode env.cmdWait with err | exitCode
  · exact ⟨[Effect.cancelCtx], rfl, by simp, by simp, by simp⟩
  · exact ⟨[Effect.flush false, Effect.flush true, Effect.cancelCtx], rfl, by simp, by simp,
      by simp⟩

/-- The hypothesis of claim C16 holds for `/bin/prog` started in `sampleOS`, and the
actions of its `Wait` start with the four in order. -/
theorem C16_wait_order_witness :
    ((Executable.literal "/bin/prog" 10000 LoggerFunc.nullLogger "").calls
      [.Start sampleOS []]).isRunning = true ∧
    ∃ later,
      (((Executable.literal "/bin/prog" 10000 LoggerFunc.nullLogger "").calls
        [.Start sampleOS []]).Wait sampleWait).2.2 =
        [Effect.closeStdin, Effect.recvReadDone, Effect.recvReadDone, Effect.cmdWait] ++
          later ∧
      Effect.closeStdin ∉ later ∧ Effect.recvReadDone ∉ later ∧ Effect.cmdWait ∉ later :=
  ⟨rfl,
    C16_wait_order "/bin/prog" 10000 LoggerFunc.nullLogger "" [.Start sampleOS []]
      sampleWait rfl⟩

/-- Claim C17. On an invocation in progress whose subject has not been reaped when the
2-second timer of `Kill` fires, `Kill` sends `SIGTERM` to the process and to its group,
then `SIGKILL` to the process and to its group, lets the `Wait` of its goroutine finish
(the two drain receives and `e.cmd.Wait()` come after the `SIGKILL`s) and returns the error
"program failed to exit in 2 seconds after receiving sigterm". Afterwards the handle has no
invocation in progress and can be started again: a following `Start` is not rejected, and
succeeds in every environment that allows the launch. -/
theorem C17_kill_escalates_after_grace_period (path : String) (timeout : Int)
    (loggerFunc : LoggerFunc) (workingDir : String) (cs : List Call) (env : KillEnv)
    (hrun : ((Executable.literal path timeout loggerFunc workingDir).calls cs).isRunning
      = true)
    (hlate : env.reapedInTime = false) :
    ∃ cmd later,
      ((Executable.literal path timeout loggerFunc workingDir).calls cs).cmd = some cmd ∧
      (((Executable.literal path timeout loggerFunc workingDir).calls cs).Kill env).2.1 =
        KillOutcome.returned
          (some (Error.new "program failed to exit in 2 seconds after receiving sigterm")) ∧
      (((Executable.literal path timeout loggerFunc workingDir).calls cs).Kill env).2.2 =
        [Effect.kill (cmd.Pid : Int) .SIGTERM, Effect.kill (-(cmd.Pid : Int)) .SIGTERM,
          Effect.closeStdin,
          Effect.kill (cmd.Pid : Int) .SIGKILL, Effect.kill (-(cmd.Pid : Int)) .SIGKILL,
          Effect.recvReadDone, Effect.recvReadDone, Effect.cmdWait] ++ later ∧
      (∀ target sig, Effect.kill target sig ∉ later) ∧
      (((Executable.literal path timeout loggerFunc workingDir).calls cs).Kill
        env).1.isRunning = false ∧
      (∀ os args,
        ((((Executable.literal path timeout loggerFunc workingDir).calls cs).Kill
          env).1.Start os args).2.1 ≠ some (Error.new "process already in progress")) ∧
      (∀ os args, os.allows path = true →
        ((((Executable.literal path timeout loggerFunc workingDir).calls cs).Kill
          env).1.Start os args).2.1 = none) := by
  have hready := literal_calls_ready path timeout loggerFunc workingDir cs hrun
  have hpath : ((Executable.literal path timeout loggerFunc workingDir).calls cs).Path = path :=
    calls_Path cs _
  generalize (Executable.literal path timeout loggerFunc workingDir).calls cs = e
    at hrun hready hpath
  obtain ⟨cmd, hcmd⟩ := Option.isSome_iff_exists.mp hrun
  have hkill : e.Kill env =
      (e.waitReset,
        KillOutcome.returned
          (some (Error.new "program failed to exit in 2 seconds after receiving sigterm")),
        [Effect.kill (cmd.Pid : Int) .SIGTERM, Effect.kill (-(cmd.Pid : Int)) .SIGTERM,
          Effect.closeStdin,
          Effect.kill (cmd.Pid : Int) .SIGKILL, Effect.kill (-(cmd.Pid : Int)) .SIGKILL,
          Effect.recvReadDone, Effect.recvReadDone, Effect.cmdWait] ++
          ((match waitExitCode env.wait.cmdWait with
            | .error _ => []
            | .ok _ => [Effect.flush false, Effect.flush true]) ++ [Effect.cancelCtx])) := by
    unfold Executable.Kill
    rw [hcmd]
    dsimp only
    rw [Wait_of_ready env.wait e hready]
    dsimp only
    rcases waitExitCode env.wait.cmdWait with err | exitCode
    · simp [hlate]
    · by_cases hd : env.wait.deadlineExceeded = true <;> simp [hlate, hd]
  have hidle : (e.Kill env).1.isRunning = false := by
    rw [hkill]
    rfl
  refine ⟨cmd, _, hcmd, by rw [hkill], by rw [hkill], ?_, hidle,
    fun os args => Start_idle_not_rejected os _ args hidle, ?_⟩
  · intro target sig
    rcases waitExitCode env.wait.cmdWait with err | exitCode <;> simp
  · intro os args hallows
    refine (Start_allowed os _ args hidle ?_).1
    rw [Kill_Path, hpath]
    exact hallows

/-- The hypotheses of claim C17 hold for `/bin/prog` started in `sampleOS` with a subject
that ignores `SIGTERM`: `Kill` returns the error, and the handle is idle afterwards. -/
theorem C17_kill_escalates_after_grace_period_witness :
    ((Executable.literal "/bin/prog" 10000 LoggerFunc.nullLogger "").calls
      [.Start sampleOS []]).isRunning = true ∧
    sampleKillLate.reapedInTime = false ∧
    (((Executable.literal "/bin/prog" 10000 LoggerFunc.nullLogger "").calls
      [.Start sampleOS []]).Kill sampleKillLate).2.1 =
        KillOutcome.returned
          (some (Error.new "program failed to exit in 2 seconds after receiving sigterm")) ∧
    (((Executable.literal "/bin/prog" 10000 LoggerFunc.nullLogger "").calls
      [.Start sampleOS []]).Kill sampleKillLate).1.isRunning = false := by
  obtain ⟨cmd, later, _, h2, _, _, h5, _⟩ :=
    C17_kill_escalates_after_grace_period "/bin/prog" 10000 LoggerFunc.nullLogger ""
      [.Start sampleOS []] sampleKillLate rfl rfl
  exact ⟨rfl, rfl, h2, h5⟩

/-- Claim C20. `Clone` builds a handle from the `Path`, `TimeoutInMilliseconds`, logging
function and `WorkingDir` of the original and nothing else: these four fields are those of
the original, and the clone has no invocation in progress (no command, process, pipes,
buffers, drain channel, context or line writers; `HasExited` is false), whether or not the
original is running. `Clone` only reads its receiver: the original is the same handle
before and after the call. -/
theorem C20_clone_is_fresh (e : Executable) :
    e.Clone.Path = e.Path ∧
    e.Clone.TimeoutInMilliseconds = e.TimeoutInMilliseconds ∧
    e.Clone.loggerFunc = e.loggerFunc ∧
    e.Clone.WorkingDir = e.WorkingDir ∧
    e.Clone.isRunning = false ∧
    e.Clone.allCleared = true ∧
    e.Clone.HasExited = false ∧
    e.Clone = Executable.literal e.Path e.TimeoutInMilliseconds e.loggerFunc e.WorkingDir ∧
    (e.isRunning = true → e.Clone.isRunning = false ∧ e.Clone.cmd = none ∧
      e.Clone.Process = none ∧ e.Clone.StdinPipe = none ∧ e.Clone.stdoutPipe = none ∧
      e.Clone.stderrPipe = none ∧ e.Clone.stdoutBuffer = none ∧
      e.Clone.stderrBuffer = none ∧ e.Clone.readDone = none) :=
  ⟨rfl, rfl, rfl, rfl, rfl, rfl, rfl, rfl,
    fun _ => ⟨rfl, rfl, rfl, rfl, rfl, rfl, rfl, rfl, rfl⟩⟩

end executable

namespace time

theorem roundFloat64_eq (n d : Nat) :
    roundFloat64 n d = (nearest (n * 2 ^ fractionBits n d) d, fractionBits n d) := rfl

theorem nearest_le (x d B : Nat) (hd : 0 < d) (h : x ≤ B * d) : nearest x d ≤ B := by
  have hq : x / d ≤ B := Nat.div_le_of_le_mul (by rw [Nat.mul_comm]; exact h)
  unfold nearest
  dsimp only
  rcases Nat.lt_or_eq_of_le hq with hlt | heq
  · split
    · omega
    · split <;> omega
  · have hx : x = B * d := by
      have h1 : d * (x / d) ≤ x := Nat.mul_div_le x d
      rw [heq, Nat.mul_comm] at h1
      omega
    have hr : x % d = 0 := by
      rw [hx]
      exact Nat.mul_mod_left B d
    rw [hr, heq]
    simp only [Nat.mul_zero, Nat.not_lt_zero, if_false]
    rw [if_neg (by omega)]

theorem le_nearest (x d A : Nat) (hd : 0 < d) (h : A * d ≤ x) : A ≤ nearest x d := by
  have hq : A ≤ x / d := (Nat.le_div_iff_mul_le hd).mpr h
  unfold nearest
  dsimp only
  split
  · omega
  · split <;> omega

theorem fractionBits_ge (n d : Nat) (h : n / d < 2 ^ 23) : 30 ≤ fractionBits n d := by
  unfold fractionBits
  split
  · by_cases h0 : n / d = 0
    · rw [h0, Nat.log2_zero]
      decide
    · have := (Nat.log2_lt h0).mpr h
      omega
  · dsimp only
    omega

theorem two_pow_split (k : Nat) (h : 30 ≤ k) :
    ∃ P, 0 < P ∧ 2 ^ k = 1073741824 * P := by
  refine ⟨2 ^ (k - 30), Nat.two_pow_pos _, ?_⟩
  have hk : k = 30 + (k - 30) := by omega
  conv_lhs => rw [hk, Nat.pow_add]

/-- Below 2^23 seconds, `int64(d.Seconds())` is the whole number of seconds in `d`: the
two float64 roundings never reach the next whole second. -/
theorem truncSecondsNat_eq_div (d : Nat) (h : d / 1000000000 < 2 ^ 23) :
    truncSecondsNat d = d / 1000000000 := by
  unfold truncSecondsNat
  dsimp only
  by_cases hn : d % 1000000000 = 0
  · rw [if_pos hn]
  rw [if_neg hn]
  generalize hsec : d / 1000000000 = sec at h ⊢
  generalize hnsec : d % 1000000000 = nsec at hn ⊢
  have hlt : nsec < 1000000000 := by
    rw [← hnsec]
    exact Nat.mod_lt _ (by decide)
  rw [roundFloat64_eq nsec 1000000000]
  dsimp only
  -- first rounding: the fraction stays at least 2^-30 below one
  have hk1 : 30 ≤ fractionBits nsec 1000000000 :=
    fractionBits_ge _ _ (by rw [Nat.div_eq_of_lt hlt]; decide)
  generalize fractionBits nsec 1000000000 = k1 at hk1 ⊢
  obtain ⟨P1, hP1, hD1⟩ := two_pow_split k1 hk1
  generalize 2 ^ k1 = D1 at hD1 ⊢
  have hm1 : nearest (nsec * D1) 1000000000 ≤ 1073741823 * P1 := by
    apply nearest_le _ _ _ (by decide)
    rw [hD1]
    calc nsec * (1073741824 * P1) = (nsec * 1073741824) * P1 := by ring
      _ ≤ (1073741823 * 1000000000) * P1 := Nat.mul_le_mul_right P1 (by omega)
      _ = 1073741823 * P1 * 1000000000 := by ring
  generalize nearest (nsec * D1) 1000000000 = m1 at hm1 ⊢
  have hm1lt : m1 < D1 := by omega
  -- second rounding: the sum stays at least 2^-30 below the next whole second
  rw [roundFloat64_eq]
  dsimp only
  have hquot : (sec * D1 + m1) / D1 = sec := by
    rw [Nat.add_comm, Nat.add_mul_div_right _ _ (by omega), Nat.div_eq_of_lt hm1lt,
      Nat.zero_add]
  have hk2 : 30 ≤ fractionBits (sec * D1 + m1) D1 :=
    fractionBits_ge _ _ (by rw [hquot]; exact h)
  generalize fractionBits (sec * D1 + m1) D1 = k2 at hk2 ⊢
  obtain ⟨P2, hP2, hD2⟩ := two_pow_split k2 hk2
  generalize 2 ^ k2 = D2 at hD2 ⊢
  have hD1pos : 0 < D1 := by omega
  have hD2pos : 0 < D2 := by omega
  have hup : nearest ((sec * D1 + m1) * D2) D1 ≤ sec * D2 + 1073741823 * P2 := by
    apply nearest_le _ _ _ hD1pos
    have h1 : m1 * D2 ≤ 1073741823 * P2 * D1 := by
      calc m1 * D2 ≤ (1073741823 * P1) * D2 := Nat.mul_le_mul_right D2 hm1
        _ = 1073741823 * P2 * D1 := by rw [hD1, hD2]; ring
    calc (sec * D1 + m1) * D2 = sec * D2 * D1 + m1 * D2 := by ring
      _ ≤ sec * D2 * D1 + 1073741823 * P2 * D1 := Nat.add_le_add_left h1 _
      _ = (sec * D2 + 1073741823 * P2) * D1 := by ring
  have hlow : sec * D2 ≤ nearest ((sec * D1 + m1) * D2) D1 := by
    apply le_nearest _ _ _ hD1pos
    calc sec * D2 * D1 = sec * D1 * D2 := by ring
      _ ≤ (sec * D1 + m1) * D2 := Nat.mul_le_mul_right D2 (Nat.le_add_right _ _)
  generalize nearest ((sec * D1 + m1) * D2) D1 = m2 at hup hlow ⊢
  have hlt2 : m2 < (sec + 1) * D2 := by
    have : (sec + 1) * D2 = sec * D2 + D2 := by ring
    omega
  apply Nat.le_antisymm
  · exact Nat.le_of_lt_succ ((Nat.div_lt_iff_lt_mul hD2pos).mpr hlt2)
  · exact (Nat.le_div_iff_mul_le hD2pos).mpr hlow

/-- A whole number of seconds is reported as it is. -/
theorem truncSeconds_whole (k : Int) : truncSeconds (k * Second) = k := by
  have hnat : ∀ n : Nat, truncSecondsNat (n * 1000000000) = n := by
    intro n
    unfold truncSecondsNat
    simp
  unfold truncSeconds Second
  rcases Int.le_total 0 k with hk | hk
  · obtain ⟨n, rfl⟩ := Int.eq_ofNat_of_zero_le hk
    have h1 : (0 : Int) ≤ (n : Int) * 1000000000 := by positivity
    have h2 : ((n : Int) * 1000000000).toNat = n * 1000000000 := by
      have : (n : Int) * 1000000000 = ((n * 1000000000 : Nat) : Int) := by push_cast; ring
      rw [this, Int.toNat_ofNat]
    rw [if_pos h1, h2, hnat]
  · obtain ⟨n, hn⟩ := Int.eq_ofNat_of_zero_le (Int.neg_nonneg.mpr hk)
    have hkn : k = -(n : Int) := by omega
    subst hkn
    by_cases h0 : n = 0
    · subst h0
      simp [truncSecondsNat]
    · have h1 : ¬ (0 : Int) ≤ -(n : Int) * 1000000000 := by
        have : 0 < (n : Int) := by omega
        nlinarith
      have h2 : (-(-(n : Int) * 1000000000)).toNat = n * 1000000000 := by
        have : -(-(n : Int) * 1000000000) = ((n * 1000000000 : Nat) : Int) := by
          push_cast
          ring
        rw [this, Int.toNat_ofNat]
      rw [if_neg h1, h2, hnat]

/-- Below 2^23 seconds in absolute value, `int64(d.Seconds())` is `d` divided by one second
and truncated toward zero. -/
theorem truncSeconds_eq_tdiv (d : Int) (hlow : -(8388608 * Second) < d)
    (hhigh : d < 8388608 * Second) : truncSeconds d = d.tdiv Second := by
  have hlow1 : -(8388608 * 1000000000 : Int) < d := hlow
  have hhigh1 : d < (8388608 * 1000000000 : Int) := hhigh
  show truncSeconds d = d.tdiv (1000000000 : Int)
  unfold truncSeconds
  by_cases h0 : 0 ≤ d
  · obtain ⟨n, rfl⟩ := Int.eq_ofNat_of_zero_le h0
    have hn : n / 1000000000 < 2 ^ 23 := by
      apply (Nat.div_lt_iff_lt_mul (by decide)).mpr
      omega
    rw [if_pos h0, Int.toNat_ofNat, truncSecondsNat_eq_div n hn]
    exact Int.ofNat_tdiv n 1000000000
  · obtain ⟨n, hn⟩ := Int.eq_ofNat_of_zero_le (show (0 : Int) ≤ -d by omega)
    have hd : d = -(n : Int) := by omega
    subst hd
    have hn1 : n / 1000000000 < 2 ^ 23 := by
      apply (Nat.div_lt_iff_lt_mul (by decide)).mpr
      omega
    rw [if_neg h0, Int.neg_neg, Int.toNat_ofNat, truncSecondsNat_eq_div n hn1, Int.neg_tdiv]
    exact congrArg Neg.neg (Int.ofNat_tdiv n 1000000000)

theorem log2_one : Nat.log2 1 = 0 := by
  rw [Nat.log2]
  decide

theorem log2_two_pow_24 : Nat.log2 16777216 = 24 := by
  have h := @Nat.log2_two_pow 24
  simpa using h

/-- From 2^24 seconds on, the float64 sum of `Seconds` has no bit left for the fraction, so
a fraction of half a second or more rounds up: 16777216.999999999 s becomes 16777217. -/
theorem truncSeconds_large : truncSeconds 16777216999999999 = 16777217 := by
  have hfrac : roundFloat64 999999999 1000000000 = (9007199245733793, 53) := by
    unfold roundFloat64
    have : 1000000000 / 999999999 = 1 := by norm_num
    simp only [this, log2_one]
    norm_num
  have hsum : roundFloat64 (16777216 * 2 ^ 53 + 9007199245733793) (2 ^ 53) =
      (4503599895805952, 28) := by
    unfold roundFloat64
    have h : (16777216 * 2 ^ 53 + 9007199245733793) / 2 ^ 53 = 16777216 := by norm_num
    simp only [h, log2_two_pow_24]
    norm_num
  have hnat : truncSecondsNat 16777216999999999 = 16777217 := by
    unfold truncSecondsNat
    have h1 : 16777216999999999 / 1000000000 = 16777216 := by norm_num
    have h2 : 16777216999999999 % 1000000000 = 999999999 := by norm_num
    simp only [h1, h2, hfrac, hsum]
    norm_num
  unfold truncSeconds
  have h0 : (0 : Int) ≤ 16777216999999999 := by norm_num
  rw [if_pos h0]
  have h1 : Int.toNat 16777216999999999 = 16777216999999999 := rfl
  rw [h1, hnat]
  rfl

end time

namespace tester_definition

/-- Claim C19. `CustomOrDefaultTimeout` returns 10 seconds (10,000,000,000 ns) when the
`Timeout` of the test case is zero, and `Timeout` itself for every non-zero `Timeout`. -/
theorem C19_custom_or_default_timeout (t : TestCase) :
    (t.Timeout = 0 → t.CustomOrDefaultTimeout = 10 * time.Second) ∧
    (t.Timeout ≠ 0 → t.CustomOrDefaultTimeout = t.Timeout) ∧
    10 * time.Second = 10000000000 := by
  unfold TestCase.CustomOrDefaultTimeout
  refine ⟨?_, ?_, rfl⟩
  · intro h
    simp [h]
  · intro h
    simp [h]

end tester_definition

namespace test_runner

open test_case_harness tester_definition

theorem raceStep_deadline (h : TestCaseHarness) (run : TestFuncRun) (timeout : time.Duration)
    (hwins : ∀ t stageErr, run.returns = some (t, stageErr) → timeout ≤ t) :
    (raceStep h run timeout).2 = some (timedOutMsg timeout) := by
  unfold raceStep
  rcases hr : run.returns with _ | ⟨t, stageErr⟩
  · rfl
  · have hle : timeout ≤ t := hwins t stageErr hr
    have hnot : ¬ t < timeout := not_lt.mpr hle
    simp only [hnot, if_false]

theorem timedOutMsg_sample : timedOutMsg 1500000000 = "timed out, test exceeded 1 seconds" := by
  have h : time.truncSeconds 1500000000 = 1 := by
    rw [time.truncSeconds_eq_tdiv 1500000000 (by decide) (by decide)]
    decide
  unfold timedOutMsg
  rw [h]
  decide

/-- Claim C18, refuted as stated: the second step of `sampleRunner` has a configured
timeout of 1.5 seconds and never returns; the error reported for it is "timed out, test
exceeded 1 seconds", and 1 second is not the configured timeout. -/
theorem C18_reported_seconds_are_truncated :
    hangingCase.CustomOrDefaultTimeout = 1500000000 ∧
    (sampleRunner.runStep false (executable.NewExecutable "/blah") 1
      { TestCase := hangingCase, TesterLogPrefix := "stage-2", Title := "Stage #2" }).1 =
        some (some "timed out, test exceeded 1 seconds") ∧
    (1 : Int) * time.Second ≠ hangingCase.CustomOrDefaultTimeout := by
  refine ⟨rfl, ?_, by decide⟩
  rw [← timedOutMsg_sample]
  rfl

/-- Claim C18, amended. When the deadline of a step wins the race in `TestRunner.Run` (the
test procedure never returns, or returns no earlier than the timeout), the error of the
step, which `Run` passes to `Errorf`, is "timed out, test exceeded N seconds" where N is
`int64(timeout.Seconds())` for the configured timeout of the step (its custom timeout, or
the 10-second default). N seconds is exactly the configured timeout when that is a whole
number of seconds; for every timeout of less than 2^23 seconds in absolute value N is the
timeout truncated toward zero to whole seconds; for larger timeouts the float64 value of
`Seconds()` is rounded before the conversion, and N can be the next whole second:
16777216.999999999 s gives 16777217. -/
theorem C18_timed_out_message (r : TestRunner) (isDebug : Bool) (e : executable.Executable)
    (index : Nat) (step : TestRunnerStep) (testFunc : TestCaseHarness → TestFuncRun)
    (hfunc : step.TestCase.TestFunc = some testFunc)
    (hwins : ∀ t stageErr,
      (testFunc (r.newHarness isDebug e step)).returns = some (t, stageErr) →
      step.TestCase.CustomOrDefaultTimeout ≤ t) :
    (r.runStep isDebug e index step).1 =
      some (some ("timed out, test exceeded " ++
        toString (time.truncSeconds step.TestCase.CustomOrDefaultTimeout) ++ " seconds")) ∧
    Action.log (r.getLoggerForStep isDebug step) .Errorf
        ("timed out, test exceeded " ++
          toString (time.truncSeconds step.TestCase.CustomOrDefaultTimeout) ++ " seconds") ∈
      (r.runStep isDebug e index step).2 ∧
    (∀ k : Int, step.TestCase.CustomOrDefaultTimeout = k * time.Second →
      time.truncSeconds step.TestCase.CustomOrDefaultTimeout = k) ∧
    (-(8388608 * time.Second) < step.TestCase.CustomOrDefaultTimeout →
      step.TestCase.CustomOrDefaultTimeout < 8388608 * time.Second →
      time.truncSeconds step.TestCase.CustomOrDefaultTimeout =
        Int.tdiv step.TestCase.CustomOrDefaultTimeout time.Second) ∧
    time.truncSeconds 16777216999999999 = 16777217 ∧
    Int.tdiv 16777216999999999 time.Second = 16777216 := by
  have herr := raceStep_deadline (r.newHarness isDebug e step)
    (testFunc (r.newHarness isDebug e step)) step.TestCase.CustomOrDefaultTimeout hwins
  refine ⟨?_, ?_, ?_, ?_, time.truncSeconds_large, by decide⟩
  · rw [runStep_outcome, hfunc]
    dsimp only
    rw [herr]
    rfl
  · rw [runStep_actions r isDebug e index step testFunc hfunc, herr]
    apply List.mem_append_left
    apply List.mem_append_right
    unfold TestRunner.report TestRunner.reportTestError
    exact List.mem_cons_self _ _
  · intro k hk
    rw [hk]
    exact time.truncSeconds_whole k
  · intro hlow hhigh
    exact time.truncSeconds_eq_tdiv _ hlow hhigh

/-- The hypotheses of the amended claim C18 hold for the hanging step of `sampleRunner`:
its procedure never returns, and the error of the step is the timed-out message. -/
theorem C18_timed_out_message_witness :
    hangingCase.TestFunc =
        some (fun _ => { registers := [(1, 10), (2000000000, 11)], returns := none }) ∧
    (sampleRunner.runStep false (executable.NewExecutable "/blah") 1
      { TestCase := hangingCase, TesterLogPrefix := "stage-2", Title := "Stage #2" }).1 =
        some (some ("timed out, test exceeded " ++
          toString (time.truncSeconds hangingCase.CustomOrDefaultTimeout) ++ " seconds")) :=
  ⟨rfl,
    (C18_timed_out_message sampleRunner false (executable.NewExecutable "/blah") 1
      { TestCase := hangingCase, TesterLogPrefix := "stage-2", Title := "Stage #2" }
      (fun _ => { registers := [(1, 10), (2000000000, 11)], returns := none }) rfl
      (fun _ _ h => Option.noConfusion h)).1⟩

end test_runner

namespace executable

theorem Kill_returned_state (env : KillEnv) (e : Executable) (err : Option Error)
    (hrun : e.isRunning = true) (h : (e.Kill env).2.1 = KillOutcome.returned err) :
    (e.Kill env).1 = e.waitReset := by
  obtain ⟨cmd, hcmd⟩ := Option.isSome_iff_exists.mp hrun
  revert h
  unfold Executable.Kill
  rw [hcmd]
  dsimp only
  rcases hw : e.Wait env.wait with ⟨e1, outcome, effects⟩
  rcases outcome with ⟨result, werr⟩ | _ | _
  · intro _
    have hstate : e1 = e.waitReset := by
      rcases Wait_state env.wait e with ⟨_, h2⟩ | h1
      · rw [hw] at h2
        exact absurd rfl (h2 result werr)
      · rw [hw] at h1
        exact h1
    dsimp only
    split <;> exact hstate
  · intro h
    simp at h
  · dsimp only
    split <;> intro h <;> simp at h

/-- Claim C30, refuted as stated: the handle left by a `Start` that failed in
`cmd.Start()` has no invocation in progress and has never been started, and its stdin pipe
and drain channel are set; `Wait` on it closes the stdin pipe and then blocks for ever on
`<-e.readDone`: it neither panics nor returns. -/
theorem C30_wait_blocks_after_failed_start :
    ((NewExecutable "/bin/prog").Start sampleOSExecFails ["hey"]).2.1 =
      some (Error.external "fork/exec /bin/prog: exec format error") ∧
    ((NewExecutable "/bin/prog").Start sampleOSExecFails ["hey"]).1.isRunning = false ∧
    ((NewExecutable "/bin/prog").Start sampleOSExecFails ["hey"]).1.StdinPipe.isSome = true ∧
    (((NewExecutable "/bin/prog").Start sampleOSExecFails ["hey"]).1.Wait sampleWait).2 =
      (WaitOutcome.blocked, [.closeStdin]) ∧
    (((NewExecutable "/bin/prog").Start sampleOSExecFails ["hey"]).1.Wait sampleWait).2.1 ≠
      WaitOutcome.panicked := by
  refine ⟨rfl, rfl, rfl, rfl, ?_⟩
  decide

/-- Claim C30, amended. `Wait` does not guard its precondition. On a handle with no
invocation in progress that has never been passed to `Start` (fresh or cloned), has already
been waited for (the handle left by a `Wait` that returned) or has already been killed
(the handle left by a `Kill` that returned on a running handle), `Wait` returns neither a
result nor an error: it panics on the nil stdin pipe, and its deferred function panics on
the nil cancel function before it resets anything, so the handle is unchanged and no action
is performed. `Kill` on the same handle returns `nil` without any action. -/
theorem C30_wait_panics_on_idle_handle (e : Executable)
    (h : (∃ path timeout loggerFunc workingDir,
            e = Executable.literal path timeout loggerFunc workingDir) ∨
         (∃ (e0 : Executable) (env : WaitEnv) (result : ExecutableResult)
            (err : Option Error),
            (e0.Wait env).2.1 = WaitOutcome.returned result err ∧ e = (e0.Wait env).1) ∨
         (∃ (e0 : Executable) (env : KillEnv) (err : Option Error),
            e0.isRunning = true ∧ (e0.Kill env).2.1 = KillOutcome.returned err ∧
            e = (e0.Kill env).1)) :
    e.isRunning = false ∧ e.StdinPipe = none ∧ e.ctxCancelFunc = none ∧
    (∀ env, e.Wait env = (e, WaitOutcome.panicked, [])) ∧
    (∀ env, e.Kill env = (e, KillOutcome.returned none, [])) := by
  have hfields : e.cmd = none ∧ e.StdinPipe = none ∧ e.ctxCancelFunc = none := by
    rcases h with ⟨path, timeout, loggerFunc, workingDir, rfl⟩ |
      ⟨e0, env, result, err, hret, rfl⟩ | ⟨e0, env, err, hrun, hret, rfl⟩
    · exact ⟨rfl, rfl, rfl⟩
    · rcases Wait_state env e0 with ⟨_, h2⟩ | h1
      · exact absurd hret (h2 result err)
      · rw [h1]
        exact ⟨rfl, rfl, rfl⟩
    · rw [Kill_returned_state env e0 err hrun hret]
      exact ⟨rfl, rfl, rfl⟩
  obtain ⟨hcmd, hstdin, hcancel⟩ := hfields
  refine ⟨by simp [Executable.isRunning, hcmd], hstdin, hcancel, ?_, ?_⟩
  · intro env
    unfold Executable.Wait Executable.waitDeferred
    rw [hstdin, hcancel]
  · intro env
    unfold Executable.Kill
    rw [hcmd]

/-- The hypothesis of the amended claim C30 holds for a fresh handle and for the handle left by the
`Wait` of `runningHandle`: `Wait` panics on both. -/
theorem C30_wait_panics_on_idle_handle_witness :
    (runningHandle.Wait sampleWait).2.1 = WaitOutcome.returned ⟨[104, 105], [], 0⟩ none ∧
    (runningHandle.Wait sampleWait).1.Wait sampleWait =
      ((runningHandle.Wait sampleWait).1, WaitOutcome.panicked, []) ∧
    (NewExecutable "/bin/prog").Wait sampleWait =
      (NewExecutable "/bin/prog", WaitOutcome.panicked, []) :=
  ⟨rfl,
    (C30_wait_panics_on_idle_handle (runningHandle.Wait sampleWait).1
      (Or.inr (Or.inl ⟨runningHandle, sampleWait, ⟨[104, 105], [], 0⟩, none, rfl, rfl⟩))).2.2.2.1
      sampleWait,
    (C30_wait_panics_on_idle_handle (NewExecutable "/bin/prog")
      (Or.inl ⟨_, _, _, _, rfl⟩)).2.2.2.1 sampleWait⟩

end executable

namespace tester_definition

theorem findBySlug_of_mem (testCases : List TestCase) (slug : String)
    (h : ∃ d ∈ testCases, d.Slug = slug) :
    findBySlug testCases slug ∈ testCases ∧ (findBySlug testCases slug).Slug = slug := by
  induction testCases with
  | nil =>
    obtain ⟨d, hd, _⟩ := h
    exact absurd hd (List.not_mem_nil d)
  | cons testCase rest ih =>
    unfold findBySlug
    by_cases hs : testCase.Slug = slug
    · simp [hs]
    · have hrest : ∃ d ∈ rest, d.Slug = slug := by
        obtain ⟨d, hd, hds⟩ := h
        rcases List.mem_cons.mp hd with rfl | hd
        · exact absurd hds hs
        · exact ⟨d, hd, hds⟩
      have := ih hrest
      simp only [beq_iff_eq, hs, if_false]
      exact ⟨List.mem_cons_of_mem _ this.1, this.2⟩

theorem findBySlug_of_not_mem (testCases : List TestCase) (slug : String)
    (h : ∀ d ∈ testCases, d.Slug ≠ slug) : (findBySlug testCases slug).Slug = "" := by
  induction testCases with
  | nil => rfl
  | cons testCase rest ih =>
    unfold findBySlug
    have hs : testCase.Slug ≠ slug := h testCase (List.mem_cons_self _ _)
    simp only [beq_iff_eq, hs, if_false]
    exact ih (fun d hd => h d (List.mem_cons_of_mem _ hd))

/-- For a slug that is not empty, `TestCaseBySlug` returns a test case with this slug
exactly when the definition has one. -/
theorem TestCaseBySlug_slug_iff (t : TesterDefinition) (slug : String) (hslug : slug ≠ "") :
    (t.TestCaseBySlug slug).Slug = slug ↔ ∃ d ∈ t.TestCases, d.Slug = slug := by
  unfold TesterDefinition.TestCaseBySlug
  constructor
  · intro h
    by_contra hnot
    have hall : ∀ d ∈ t.TestCases, d.Slug ≠ slug := fun d hd hds => hnot ⟨d, hd, hds⟩
    rw [findBySlug_of_not_mem _ _ hall] at h
    exact hslug h.symm
  · intro h
    exact (findBySlug_of_mem _ _ h).2

end tester_definition

namespace tester_context

open tester_definition

theorem checkTestCases_none (testCases : List TesterContextTestCase)
    (h : checkTestCases testCases = none) :
    ∀ testCase ∈ testCases,
      testCase.Slug ≠ "" ∧ testCase.TesterLogPrefix ≠ "" ∧ testCase.Title ≠ "" := by
  induction testCases with
  | nil =>
    intro testCase hmem
    exact absurd hmem (List.not_mem_nil _)
  | cons first rest ih =>
    unfold checkTestCases at h
    by_cases h1 : first.Slug = ""
    · simp [h1] at h
    by_cases h2 : first.TesterLogPrefix = ""
    · simp [h1, h2] at h
    by_cases h3 : first.Title = ""
    · simp [h1, h2, h3] at h
    simp only [beq_iff_eq, h1, h2, h3, if_false] at h
    intro testCase hmem
    rcases List.mem_cons.mp hmem with rfl | hmem
    · exact ⟨h1, h2, h3⟩
    · exact ih h testCase hmem

/-- What an accepted manifest looks like: it is what `json.Unmarshal` has parsed from the
environment variable, it has passed the loop over the test cases and is not empty, and the
executable is the one chosen at lines 81-94. -/
theorem GetTesterContext_ok (w : World) (env : String → Option String)
    (definition : TesterDefinition) (context : TesterContext)
    (h : GetTesterContext w env definition = .ok context) :
    ∃ submissionDir testCasesJson,
      env "CODECRAFTERS_REPOSITORY_DIR" = some submissionDir ∧
      env "CODECRAFTERS_TEST_CASES_JSON" = some testCasesJson ∧
      w.unmarshalTestCases testCasesJson = .ok context.TestCases ∧
      checkTestCases context.TestCases = none ∧
      context.TestCases ≠ [] ∧
      context.ExecutablePath = chooseExecutablePath w submissionDir definition ∧
      ∃ config, readFromYAML w (w.join submissionDir "codecrafters.yml") = .ok config := by
  revert h
  unfold GetTesterContext
  rcases hdir : env "CODECRAFTERS_REPOSITORY_DIR" with _ | submissionDir
  · intro h
    simp at h
  dsimp only
  rcases hjson : env "CODECRAFTERS_TEST_CASES_JSON" with _ | testCasesJson
  · intro h
    simp at h
  dsimp only
  rcases hparse : w.unmarshalTestCases testCasesJson with err | testCases
  · intro h
    simp at h
  dsimp only
  rcases hcheck : checkTestCases testCases with _ | err
  swap
  · intro h
    simp at h
  dsimp only
  rcases hyaml : readFromYAML w (w.join submissionDir "codecrafters.yml") with err | config
  · intro h
    simp at h
  dsimp only
  by_cases hlen : testCases.length = 0
  · intro h
    simp [hlen] at h
  · intro h
    simp only [beq_iff_eq, hlen, if_false, Except.ok.injEq] at h
    subst h
    refine ⟨submissionDir, testCasesJson, rfl, rfl, hparse, hcheck, ?_, rfl, config, hyaml⟩
    intro hnil
    have hnil1 : testCases = [] := hnil
    exact hlen (by rw [hnil1]; rfl)

theorem checkTestCases_of_forall (testCases : List TesterContextTestCase)
    (h : ∀ testCase ∈ testCases,
      testCase.Slug ≠ "" ∧ testCase.TesterLogPrefix ≠ "" ∧ testCase.Title ≠ "") :
    checkTestCases testCases = none := by
  induction testCases with
  | nil => rfl
  | cons first rest ih =>
    unfold checkTestCases
    obtain ⟨h1, h2, h3⟩ := h first (List.mem_cons_self _ _)
    simp only [beq_iff_eq, h1, h2, h3, if_false]
    exact ih (fun testCase hmem => h testCase (List.mem_cons_of_mem _ hmem))

/-- The result of `GetTesterContext` on a manifest that is not empty and passes the loop
over the test cases, in a repository whose `codecrafters.yml` can be read. -/
theorem GetTesterContext_of_parse (w : World) (env : String → Option String)
    (definition : TesterDefinition) (submissionDir testCasesJson : String)
    (testCases : List TesterContextTestCase) (config : yamlConfig)
    (hdir : env "CODECRAFTERS_REPOSITORY_DIR" = some submissionDir)
    (hjson : env "CODECRAFTERS_TEST_CASES_JSON" = some testCasesJson)
    (hparse : w.unmarshalTestCases testCasesJson = .ok testCases)
    (hcheck : checkTestCases testCases = none)
    (hyaml : readFromYAML w (w.join submissionDir "codecrafters.yml") = .ok config)
    (hne : testCases ≠ []) :
    ∃ context, GetTesterContext w env definition = .ok context ∧
      context.TestCases = testCases ∧
      context.ExecutablePath = chooseExecutablePath w submissionDir definition := by
  unfold GetTesterContext
  rw [hdir]
  dsimp only
  rw [hjson]
  dsimp only
  rw [hparse]
  dsimp only
  rw [hcheck]
  dsimp only
  rw [hyaml]
  dsimp only
  have hlen : testCases.length ≠ 0 := fun h => hne (List.length_eq_zero.mp h)
  simp only [beq_iff_eq, hlen, if_false]
  exact ⟨_, rfl, rfl, rfl⟩

end tester_context

namespace tester_utils

open tester_definition tester_context

/-- The loop of `validateContext` runs to its end exactly when `TestCaseBySlug` answers
every requested slug with a test case of that slug. -/
theorem validateTestCases_none_iff (definition : TesterDefinition)
    (testCases : List TesterContextTestCase) :
    validateTestCases definition testCases = none ↔
      ∀ testCase ∈ testCases, (definition.TestCaseBySlug testCase.Slug).Slug = testCase.Slug := by
  induction testCases with
  | nil => simp [validateTestCases]
  | cons first rest ih =>
    unfold validateTestCases
    by_cases h : (definition.TestCaseBySlug first.Slug).Slug = first.Slug
    · simp [h, ih]
    · simp [h]

/-- The error of the loop of `validateContext` names a requested slug that `TestCaseBySlug`
does not answer with a test case of that slug. -/
theorem validateTestCases_some (definition : TesterDefinition)
    (testCases : List TesterContextTestCase) (err : String)
    (h : validateTestCases definition testCases = some err) :
    ∃ testCase ∈ testCases,
      (definition.TestCaseBySlug testCase.Slug).Slug ≠ testCase.Slug ∧
      err = "tester context does not have test case with slug " ++ testCase.Slug := by
  induction testCases with
  | nil => simp [validateTestCases] at h
  | cons first rest ih =>
    unfold validateTestCases at h
    by_cases hs : (definition.TestCaseBySlug first.Slug).Slug = first.Slug
    · simp only [hs, bne_self_eq_false, Bool.false_eq_true, if_false] at h
      obtain ⟨testCase, hmem, hne, herr⟩ := ih h
      exact ⟨testCase, List.mem_cons_of_mem _ hmem, hne, herr⟩
    · simp only [bne_iff_ne, ne_eq, hs, not_false_eq_true, if_true, Option.some.injEq] at h
      exact ⟨first, List.mem_cons_self _ _, hs, h.symm⟩

/-- What `newTester` returns once `GetTesterContext` has accepted the manifest. -/
theorem newTester_of_context (w : World) (env : String → Option String)
    (definition : TesterDefinition) (context : TesterContext)
    (hctx : GetTesterContext w env definition = .ok context) :
    newTester w env definition =
      match validateTestCases definition context.TestCases with
      | some err =>
        .error ("CodeCrafters internal error. Error validating tester context: " ++ err)
      | none => .ok { context := context, definition := definition } := by
  unfold newTester
  rw [hctx]
  rfl

/-- C21: given a manifest accepted by `GetTesterContext`, `newTester` fails if and only if
some requested slug is the slug of no test case of the definition, its error is then the
validation error naming such a slug, and when it succeeds `TestCaseBySlug` maps every
requested slug to a test case of the definition that carries this slug. -/
theorem C21_newTester_fails_iff_slug_unmatched (w : World) (env : String → Option String)
    (definition : TesterDefinition) (context : TesterContext)
    (hctx : GetTesterContext w env definition = .ok context) :
    ((∃ msg, newTester w env definition = .error msg) ↔
      ∃ requested ∈ context.TestCases, ∀ d ∈ definition.TestCases, d.Slug ≠ requested.Slug) ∧
    (∀ msg, newTester w env definition = .error msg →
      ∃ requested ∈ context.TestCases,
        (∀ d ∈ definition.TestCases, d.Slug ≠ requested.Slug) ∧
        msg = "CodeCrafters internal error. Error validating tester context: " ++
          ("tester context does not have test case with slug " ++ requested.Slug)) ∧
    (∀ tester, newTester w env definition = .ok tester →
      tester.context = context ∧ tester.definition = definition ∧
      ∀ requested ∈ context.TestCases,
        definition.TestCaseBySlug requested.Slug ∈ definition.TestCases ∧
        (definition.TestCaseBySlug requested.Slug).Slug = requested.Slug) := by
  obtain ⟨_, _, _, _, _, hcheck, _, _, _⟩ := GetTesterContext_ok w env definition context hctx
  have hslug : ∀ requested ∈ context.TestCases, requested.Slug ≠ "" :=
    fun requested hmem => (checkTestCases_none _ hcheck requested hmem).1
  have hnew := newTester_of_context w env definition context hctx
  have herror : ∀ msg, newTester w env definition = .error msg →
      ∃ requested ∈ context.TestCases,
        (∀ d ∈ definition.TestCases, d.Slug ≠ requested.Slug) ∧
        msg = "CodeCrafters internal error. Error validating tester context: " ++
          ("tester context does not have test case with slug " ++ requested.Slug) := by
    intro msg hmsg
    rw [hnew] at hmsg
    rcases hv : validateTestCases definition context.TestCases with _ | err
    · rw [hv] at hmsg
      simp at hmsg
    · rw [hv] at hmsg
      obtain ⟨requested, hmem, hne, herr⟩ := validateTestCases_some _ _ _ hv
      refine ⟨requested, hmem, ?_, ?_⟩
      · intro d hd hds
        exact hne ((TestCaseBySlug_slug_iff definition _ (hslug requested hmem)).2 ⟨d, hd, hds⟩)
      · simp only [Except.error.injEq] at hmsg
        rw [← hmsg, herr]
  refine ⟨⟨?_, ?_⟩, herror, ?_⟩
  · rintro ⟨msg, hmsg⟩
    obtain ⟨requested, hmem, hne, _⟩ := herror msg hmsg
    exact ⟨requested, hmem, hne⟩
  · rintro ⟨requested, hmem, hne⟩
    rcases hv : validateTestCases definition context.TestCases with _ | err
    · exfalso
      have hall := (validateTestCases_none_iff _ _).1 hv requested hmem
      obtain ⟨d, hd, hds⟩ := (TestCaseBySlug_slug_iff definition _ (hslug requested hmem)).1 hall
      exact hne d hd hds
    · rw [hnew, hv]
      exact ⟨_, rfl⟩
  · intro tester htester
    rw [hnew] at htester
    rcases hv : validateTestCases definition context.TestCases with _ | err
    · rw [hv] at htester
      simp only [Except.ok.injEq] at htester
      subst htester
      refine ⟨rfl, rfl, ?_⟩
      intro requested hmem
      have hall := (validateTestCases_none_iff _ _).1 hv requested hmem
      have hex := (TestCaseBySlug_slug_iff definition _ (hslug requested hmem)).1 hall
      exact findBySlug_of_mem _ _ hex
    · rw [hv] at htester
      simp at htester

theorem C21_newTester_fails_iff_slug_unmatched_witness :
    GetTesterContext sampleWorld (sampleEnv "[test-1, test-3]") sampleDefinition =
        .ok { ExecutablePath := "/app/your_program.sh", IsDebug := false,
              TestCases := [entry "test-1", entry "test-3"],
              ShouldSkipAntiCheatTestCases := false } ∧
      ((∃ msg, newTester sampleWorld (sampleEnv "[test-1, test-3]") sampleDefinition =
          .error msg) ↔
        ∃ requested ∈ [entry "test-1", entry "test-3"],
          ∀ d ∈ sampleDefinition.TestCases, d.Slug ≠ requested.Slug) :=
  ⟨rfl,
   (C21_newTester_fails_iff_slug_unmatched sampleWorld (sampleEnv "[test-1, test-3]")
      sampleDefinition
      { ExecutablePath := "/app/your_program.sh", IsDebug := false,
        TestCases := [entry "test-1", entry "test-3"],
        ShouldSkipAntiCheatTestCases := false } rfl).1⟩

end tester_utils

namespace tester_utils

open tester_definition tester_context

/-- The result of `newTester` when `GetTesterContext` has returned an error. -/
theorem newTester_of_error (w : World) (env : String → Option String)
    (definition : TesterDefinition) (err : tester_context.Error)
    (h : GetTesterContext w env definition = .error err) :
    ∃ msg, newTester w env definition = .error msg := by
  unfold newTester
  rw [h]
  cases err with
  | plain msg => exact ⟨_, rfl⟩
  | userError msg => exact ⟨_, rfl⟩

/-- C22, counterexample: the manifest with two entries of slug `test-1` is accepted by
`GetTesterContext` and by `newTester`, and the runner then has two steps for `test-1`. -/
theorem C22_repeated_slug_accepted :
    (∃ context, GetTesterContext sampleWorld (sampleEnv "[test-1, test-1]") sampleDefinition =
        .ok context ∧
      context.TestCases.map (fun testCase => testCase.Slug) = ["test-1", "test-1"]) ∧
    (∃ tester, newTester sampleWorld (sampleEnv "[test-1, test-1]") sampleDefinition =
        .ok tester ∧
      tester.context.TestCases.map (fun testCase => testCase.Slug) = ["test-1", "test-1"] ∧
      tester.getRunner.steps.map (fun step => step.TestCase.Slug) = ["test-1", "test-1"]) :=
  ⟨⟨_, rfl, rfl⟩, ⟨_, rfl, rfl, rfl⟩⟩

/-- C22, amended: a manifest in which some entry has an empty slug is rejected with an
error by `GetTesterContext` and by `newTester`, and `RunCLI` then prints the error and
returns 1 without any action of a step; a repeated slug is not a ground for rejection: when
a manifest is accepted by `newTester`, so is the manifest that repeats one of its
entries, and the runner of the tester then has one step per entry of that manifest, in
order, the repeated one included, each with the test case of the slug of its entry. -/
theorem C22_empty_slug_rejected_repeated_slug_accepted (w : World)
    (env : String → Option String) (definition : TesterDefinition) (testCasesJson : String)
    (testCases : List TesterContextTestCase)
    (hjson : env "CODECRAFTERS_TEST_CASES_JSON" = some testCasesJson)
    (hparse : w.unmarshalTestCases testCasesJson = .ok testCases) :
    ((∃ testCase ∈ testCases, testCase.Slug = "") →
      (∃ err, GetTesterContext w env definition = .error err) ∧
      (∃ msg, newTester w env definition = .error msg ∧
        RunCLI false w env definition = (some 1, [.printError msg]))) ∧
    (∀ tester, newTester w env definition = .ok tester →
      ∀ repeated ∈ testCases, ∀ repeatedJson,
        w.unmarshalTestCases repeatedJson = .ok (repeated :: testCases) →
        ∃ tester2, newTester w (withManifest env repeatedJson) definition = .ok tester2 ∧
          tester2.context.TestCases = repeated :: testCases ∧
          tester2.getRunner.steps =
            (repeated :: testCases).map (fun requested =>
              { TestCase := definition.TestCaseBySlug requested.Slug,
                TesterLogPrefix := requested.TesterLogPrefix,
                Title := requested.Title }) ∧
          tester2.getRunner.steps.map (fun step => step.TestCase.Slug) =
            (repeated :: testCases).map (fun requested => requested.Slug)) := by
  have hsame : ∀ context, GetTesterContext w env definition = .ok context →
      context.TestCases = testCases := by
    intro context hctx
    obtain ⟨_, json, _, hjson2, hparse2, _⟩ := GetTesterContext_ok w env definition context hctx
    rw [hjson] at hjson2
    simp only [Option.some.injEq] at hjson2
    subst hjson2
    rw [hparse] at hparse2
    simp only [Except.ok.injEq] at hparse2
    exact hparse2.symm
  constructor
  · rintro ⟨testCase, hmem, hempty⟩
    rcases hctx : GetTesterContext w env definition with err | context
    · obtain ⟨msg, hmsg⟩ := newTester_of_error w env definition err hctx
      refine ⟨⟨err, rfl⟩, msg, hmsg, ?_⟩
      unfold RunCLI
      rw [hmsg]
      rfl
    · exfalso
      obtain ⟨_, _, _, _, _, hcheck, _⟩ := GetTesterContext_ok w env definition context hctx
      rw [hsame context hctx] at hcheck
      exact (checkTestCases_none _ hcheck testCase hmem).1 hempty
  · intro tester htester repeated hmem repeatedJson hparse2
    rcases hctx : GetTesterContext w env definition with err | context
    · obtain ⟨msg, hmsg⟩ := newTester_of_error w env definition err hctx
      rw [hmsg] at htester
      simp at htester
    · obtain ⟨submissionDir, _, hdir, _, _, hcheck, _, _, config, hyaml⟩ :=
        GetTesterContext_ok w env definition context hctx
      have hcases := hsame context hctx
      rw [hcases] at hcheck
      have hall := checkTestCases_none _ hcheck
      have hcheck2 : checkTestCases (repeated :: testCases) = none := by
        apply checkTestCases_of_forall
        intro testCase hmem2
        rcases List.mem_cons.mp hmem2 with rfl | hmem2
        · exact hall _ hmem
        · exact hall _ hmem2
      obtain ⟨context2, hctx2, hcases2, _⟩ :=
        GetTesterContext_of_parse w (withManifest env repeatedJson) definition submissionDir
          repeatedJson (repeated :: testCases) config
          (by simpa [withManifest] using hdir) (by simp [withManifest]) hparse2 hcheck2 hyaml
          (List.cons_ne_nil _ _)
      have hvalid : validateTestCases definition testCases = none := by
        rw [newTester_of_context w env definition context hctx, hcases] at htester
        rcases hv : validateTestCases definition testCases with _ | err
        · rfl
        · rw [hv] at htester
          simp at htester
      have hvalid2 : validateTestCases definition context2.TestCases = none := by
        rw [hcases2]
        rw [validateTestCases_none_iff] at hvalid ⊢
        intro testCase hmem2
        rcases List.mem_cons.mp hmem2 with rfl | hmem2
        · exact hvalid _ hmem
        · exact hvalid _ hmem2
      refine ⟨{ context := context2, definition := definition }, ?_, hcases2, ?_, ?_⟩
      · rw [newTester_of_context w _ definition context2 hctx2, hvalid2]
      · unfold Tester.getRunner test_runner.NewTestRunner
        show List.map _ context2.TestCases = _
        rw [hcases2]
      · unfold Tester.getRunner test_runner.NewTestRunner
        show List.map _ (List.map _ context2.TestCases) = _
        rw [List.map_map, hcases2]
        apply List.map_congr_left
        intro requested hmem2
        rw [hcases2] at hvalid2
        exact (validateTestCases_none_iff _ _).1 hvalid2 requested hmem2

theorem C22_empty_slug_rejected_repeated_slug_accepted_witness :
    sampleEnv "[test-1, ]" "CODECRAFTERS_TEST_CASES_JSON" = some "[test-1, ]" ∧
    sampleWorld.unmarshalTestCases "[test-1, ]" = .ok [entry "test-1", entry ""] ∧
    ((∃ testCase ∈ [entry "test-1", entry ""], testCase.Slug = "") →
      (∃ err, GetTesterContext sampleWorld (sampleEnv "[test-1, ]") sampleDefinition =
        .error err) ∧
      (∃ msg, newTester sampleWorld (sampleEnv "[test-1, ]") sampleDefinition =
        .error msg ∧
        RunCLI false sampleWorld (sampleEnv "[test-1, ]") sampleDefinition =
          (some 1, [.printError msg]))) :=
  ⟨rfl, rfl,
   (C22_empty_slug_rejected_repeated_slug_accepted sampleWorld (sampleEnv "[test-1, ]")
      sampleDefinition "[test-1, ]" [entry "test-1", entry ""] rfl rfl).1⟩

end tester_utils

namespace tester_context

open tester_definition

/-- C23: when `GetTesterContext` succeeds, `ExecutablePath` is the repository directory
joined with `LegacyExecutableFileName` when a legacy file name is configured, the legacy
file exists and the new executable file does not exist, and the repository directory joined
with `ExecutableFileName` in every other case; where the two paths differ, it is the legacy
path if and only if the three conditions hold. -/
theorem C23_legacy_executable_iff (w : World) (env : String → Option String)
    (definition : TesterDefinition) (context : TesterContext)
    (hctx : GetTesterContext w env definition = .ok context) :
    ∃ submissionDir, env "CODECRAFTERS_REPOSITORY_DIR" = some submissionDir ∧
      ((definition.LegacyExecutableFileName ≠ "" ∧
          w.stat (w.join submissionDir definition.LegacyExecutableFileName) = none ∧
          w.stat (w.join submissionDir definition.ExecutableFileName) = some .notExist →
        context.ExecutablePath = w.join submissionDir definition.LegacyExecutableFileName) ∧
       (¬ (definition.LegacyExecutableFileName ≠ "" ∧
          w.stat (w.join submissionDir definition.LegacyExecutableFileName) = none ∧
          w.stat (w.join submissionDir definition.ExecutableFileName) = some .notExist) →
        context.ExecutablePath = w.join submissionDir definition.ExecutableFileName) ∧
       (w.join submissionDir definition.LegacyExecutableFileName ≠
          w.join submissionDir definition.ExecutableFileName →
        (context.ExecutablePath = w.join submissionDir definition.LegacyExecutableFileName ↔
          definition.LegacyExecutableFileName ≠ "" ∧
          w.stat (w.join submissionDir definition.LegacyExecutableFileName) = none ∧
          w.stat (w.join submissionDir definition.ExecutableFileName) = some .notExist))) := by
  obtain ⟨submissionDir, _, hdir, _, _, _, _, hpath, _⟩ :=
    GetTesterContext_ok w env definition context hctx
  refine ⟨submissionDir, hdir, ?_⟩
  have hyes : definition.LegacyExecutableFileName ≠ "" ∧
        w.stat (w.join submissionDir definition.LegacyExecutableFileName) = none ∧
        w.stat (w.join submissionDir definition.ExecutableFileName) = some .notExist →
      context.ExecutablePath = w.join submissionDir definition.LegacyExecutableFileName := by
    rintro ⟨hname, hlegacy, hnew⟩
    rw [hpath]
    unfold chooseExecutablePath
    simp [hname, hlegacy, hnew]
  have hno : ¬ (definition.LegacyExecutableFileName ≠ "" ∧
        w.stat (w.join submissionDir definition.LegacyExecutableFileName) = none ∧
        w.stat (w.join submissionDir definition.ExecutableFileName) = some .notExist) →
      context.ExecutablePath = w.join submissionDir definition.ExecutableFileName := by
    intro hnot
    rw [hpath]
    unfold chooseExecutablePath
    by_cases hname : definition.LegacyExecutableFileName = ""
    · simp [hname]
    · by_cases hlegacy :
          w.stat (w.join submissionDir definition.LegacyExecutableFileName) = none
      · by_cases hnew :
            w.stat (w.join submissionDir definition.ExecutableFileName) = some .notExist
        · exact absurd ⟨hname, hlegacy, hnew⟩ hnot
        · simp [hname, hlegacy, hnew]
      · simp [hname, hlegacy]
  refine ⟨hyes, hno, ?_⟩
  intro hdiff
  constructor
  · intro heq
    by_contra hnot
    rw [hno hnot] at heq
    exact hdiff heq.symm
  · exact hyes

theorem C23_legacy_executable_iff_witness :
    GetTesterContext tester_utils.sampleWorldLegacy
        (tester_utils.sampleEnv "[test-1, test-2]") tester_utils.sampleDefinition =
      .ok { ExecutablePath := "/app/spawn_server.sh", IsDebug := false,
            TestCases := [tester_utils.entry "test-1", tester_utils.entry "test-2"],
            ShouldSkipAntiCheatTestCases := false } ∧
    ∃ submissionDir,
      tester_utils.sampleEnv "[test-1, test-2]" "CODECRAFTERS_REPOSITORY_DIR" =
        some submissionDir ∧
      ((tester_utils.sampleDefinition.LegacyExecutableFileName ≠ "" ∧
          tester_utils.sampleWorldLegacy.stat (tester_utils.sampleWorldLegacy.join submissionDir
            tester_utils.sampleDefinition.LegacyExecutableFileName) = none ∧
          tester_utils.sampleWorldLegacy.stat (tester_utils.sampleWorldLegacy.join submissionDir
            tester_utils.sampleDefinition.ExecutableFileName) = some .notExist →
        "/app/spawn_server.sh" = tester_utils.sampleWorldLegacy.join submissionDir
          tester_utils.sampleDefinition.LegacyExecutableFileName)) := by
  obtain ⟨submissionDir, hdir, hyes, _, _⟩ :=
    C23_legacy_executable_iff tester_utils.sampleWorldLegacy
      (tester_utils.sampleEnv "[test-1, test-2]") tester_utils.sampleDefinition
      { ExecutablePath := "/app/spawn_server.sh", IsDebug := false,
        TestCases := [tester_utils.entry "test-1", tester_utils.entry "test-2"],
        ShouldSkipAntiCheatTestCases := false } rfl
  exact ⟨rfl, submissionDir, hdir, hyes⟩

end tester_context

namespace random

theorem grow_terminates {α : Type} (fuel : Nat) (arr : List α) (count : Int)
    (h : count ≤ ((arr.length * 2 ^ fuel : Nat) : Int)) :
    ∃ grown, grow (fuel + 1) arr count = some grown := by
  induction fuel generalizing arr with
  | zero =>
    unfold grow
    have h1 : ¬ count > (arr.length : Int) := by
      simp only [pow_zero, mul_one] at h
      omega
    simp only [h1, if_false]
    exact ⟨_, rfl⟩
  | succ fuel ih =>
    unfold grow
    by_cases h1 : count > (arr.length : Int)
    · simp only [h1, if_true]
      apply ih
      have : (arr ++ arr).length * 2 ^ fuel = arr.length * 2 ^ (fuel + 1) := by
        rw [List.length_append, pow_succ]
        ring
      rw [this]
      exact h
    · simp only [h1, if_false]
      exact ⟨_, rfl⟩

theorem grow_spec {α : Type} (fuel : Nat) (arr grown : List α) (count : Int)
    (h : grow fuel arr count = some grown) :
    count ≤ (grown.length : Int) ∧ (∀ x, x ∈ grown ↔ x ∈ arr) ∧
      (count ≤ (arr.length : Int) → grown = arr) := by
  induction fuel generalizing arr with
  | zero => simp [grow] at h
  | succ fuel ih =>
    unfold grow at h
    by_cases h1 : count > (arr.length : Int)
    · simp only [h1, if_true] at h
      obtain ⟨hlen, hmem, _⟩ := ih _ h
      refine ⟨hlen, ?_, ?_⟩
      · intro x
        rw [hmem x]
        simp
      · intro h2
        omega
    · simp only [h1, if_false, Option.some.injEq] at h
      subst h
      exact ⟨by omega, fun _ => Iff.rfl, fun _ => rfl⟩

theorem pick_some_iff {α : Type} (arr : List α) (indices : List Nat) (elements : List α) :
    pick arr indices = some elements ↔
      List.Forall₂ (fun randIndex element => arr[randIndex]? = some element)
        indices elements := by
  induction indices generalizing elements with
  | nil =>
    cases elements with
    | nil => simp [pick]
    | cons _ _ => simp [pick]
  | cons randIndex rest ih =>
    unfold pick
    rcases h1 : arr[randIndex]? with _ | element
    · constructor
      · intro h
        simp at h
      · intro h
        cases h with
        | cons hhead _ => rw [h1] at hhead; simp at hhead
    · rcases h2 : pick arr rest with _ | picked
      · constructor
        · intro h
          simp at h
        · intro h
          cases h with
          | cons hhead htail =>
            rw [(ih _).2 htail] at h2
            simp at h2
      · constructor
        · intro h
          simp only [Option.some.injEq] at h
          subst h
          exact List.Forall₂.cons h1 ((ih _).1 h2)
        · intro h
          cases h with
          | cons hhead htail =>
            rw [h1] at hhead
            simp only [Option.some.injEq] at hhead
            subst hhead
            rw [(ih _).2 htail] at h2
            simp only [Option.some.injEq] at h2
            subst h2
            rfl

theorem pick_in_range {α : Type} (arr : List α) (indices : List Nat)
    (h : ∀ randIndex ∈ indices, randIndex < arr.length) :
    ∃ elements, pick arr indices = some elements := by
  induction indices with
  | nil => exact ⟨[], rfl⟩
  | cons randIndex rest ih =>
    obtain ⟨elements, hrest⟩ := ih (fun i hi => h i (List.mem_cons_of_mem _ hi))
    have hlt := h randIndex (List.mem_cons_self _ _)
    unfold pick
    rw [hrest, List.getElem?_eq_getElem hlt]
    exact ⟨_, rfl⟩

/-- The elements picked at the indices `0, ..., len(arr)-1`, in any order, are a
permutation of the array. -/
theorem pick_perm {α : Type} (arr : List α) (indices : List Nat) (elements : List α)
    (hperm : indices.Perm (List.range arr.length))
    (h : pick arr indices = some elements) : elements.Perm arr := by
  have hmap : ∀ (l : List Nat) (ys : List α),
      List.Forall₂ (fun randIndex element => arr[randIndex]? = some element) l ys →
      l.map (fun i => arr[i]?) = ys.map some := by
    intro l ys hall
    induction hall with
    | nil => rfl
    | cons hhead _ ih => simp [hhead, ih]
  have h1 := hmap _ _ ((pick_some_iff _ _ _).1 h)
  have h2 : (List.range arr.length).map (fun i => arr[i]?) = arr.map some := by
    apply List.ext_getElem?
    intro i
    by_cases hi : i < arr.length
    · simp [hi, List.getElem?_eq_getElem]
    · have hle : arr.length ≤ i := Nat.le_of_not_lt hi
      simp [List.getElem?_eq_none, hle]
  have h3 : (elements.map some).Perm (arr.map some) := by
    rw [← h1, ← h2]
    exact hperm.map _
  have h4 := h3.filterMap id
  simpa [List.filterMap_map] using h4

/-- C27: with `rng.Perm(n)` returning a permutation of `0, ..., n-1`, for every non-empty
array and every `count >= 0`, `RandomElementsFromArray` returns exactly `count` elements,
each an element of the array, taken from pairwise distinct positions of the array when
`count <= len(arr)`; and `ShuffleArray` returns a permutation of the array for every
array, the empty one included. -/
theorem C27_random_elements_from_array {α : Type} (perm : Nat → List Nat)
    (hperm : ∀ n, (perm n).Perm (List.range n)) :
    (∀ (arr : List α) (count : Nat), arr ≠ [] →
      ∃ elements, RandomElementsFromArray perm arr count = .returned elements ∧
        elements.length = count ∧
        (∀ element ∈ elements, element ∈ arr) ∧
        (count ≤ arr.length →
          ∃ positions : List Nat, positions.Nodup ∧
            List.Forall₂ (fun position element => arr[position]? = some element)
              positions elements)) ∧
    (∀ arr : List α, ∃ elements, ShuffleArray perm arr = .returned elements ∧
      elements.Perm arr) := by
  have hlenperm : ∀ n, (perm n).length = n := fun n => by
    rw [(hperm n).length_eq, List.length_range]
  have hnodup : ∀ n, (perm n).Nodup := fun n =>
    (hperm n).nodup_iff.2 (List.nodup_range n)
  have hbound : ∀ n, ∀ i ∈ perm n, i < n := fun n i hi =>
    List.mem_range.1 ((hperm n).mem_iff.1 hi)
  have hfrom : ∀ (grown : List α) (l : List Nat) (ys : List α),
      List.Forall₂ (fun randIndex element => grown[randIndex]? = some element) l ys →
      ∀ y ∈ ys, ∃ i : Nat, grown[i]? = some y := by
    intro grown l ys hall
    induction hall with
    | nil =>
      intro y hy
      exact absurd hy (List.not_mem_nil y)
    | cons hhead _ ih =>
      intro y hy
      rcases List.mem_cons.mp hy with rfl | hy
      · exact ⟨_, hhead⟩
      · exact ih y hy
  -- the call, once the loop has ended
  have hcall : ∀ (arr grown : List α) (count : Nat),
      grow ((count : Int).toNat + 1) arr count = some grown →
      ∃ elements, RandomElementsFromArray perm arr count = .returned elements ∧
        pick grown ((perm grown.length).take count) = some elements ∧
        count ≤ grown.length := by
    intro arr grown count hgrow
    obtain ⟨hle, _, _⟩ := grow_spec _ _ _ _ hgrow
    have hle1 : count ≤ grown.length := by omega
    obtain ⟨elements, hpick⟩ := pick_in_range grown ((perm grown.length).take count)
      (fun i hi => hbound _ i (List.mem_of_mem_take hi))
    refine ⟨elements, ?_, hpick, hle1⟩
    unfold RandomElementsFromArray
    rw [hgrow]
    have h0 : ¬ ((count : Int) < 0) := by omega
    have h1 : ¬ ((count : Int).toNat > (perm grown.length).length) := by
      rw [hlenperm]
      simp only [Int.toNat_ofNat]
      omega
    have h2 : ¬ (count > (perm grown.length).length) := by
      rw [hlenperm]
      omega
    simp only [h0, h2, if_false, Int.toNat_ofNat, hpick]
  constructor
  · intro arr count hne
    have hpos : 0 < arr.length := List.length_pos.2 hne
    obtain ⟨grown, hgrow⟩ := grow_terminates (count : Int).toNat arr count (by
      simp only [Int.toNat_ofNat]
      have h2 : count < 2 ^ count := Nat.lt_two_pow count
      have h3 : 1 * 2 ^ count ≤ arr.length * 2 ^ count := Nat.mul_le_mul_right _ hpos
      have h4 : count ≤ arr.length * 2 ^ count := by omega
      exact_mod_cast h4)
    obtain ⟨elements, hret, hpick, hle⟩ := hcall arr grown count hgrow
    obtain ⟨_, hmem, hsame⟩ := grow_spec _ _ _ _ hgrow
    have hall := (pick_some_iff _ _ _).1 hpick
    refine ⟨elements, hret, ?_, ?_, ?_⟩
    · rw [← hall.length_eq, List.length_take, hlenperm]
      omega
    · intro element helem
      obtain ⟨i, hi⟩ := hfrom _ _ _ hall element helem
      exact (hmem element).1 (List.getElem?_mem hi)
    · intro hcount
      have hgrown : grown = arr := hsame (by exact_mod_cast hcount)
      rw [hgrown] at hall
      exact ⟨_, (hnodup _).sublist (List.take_sublist _ _), hall⟩
  · intro arr
    rcases arr with _ | ⟨first, rest⟩
    · exact ⟨[], by
        unfold ShuffleArray RandomElementsFromArray
        have h0 := hlenperm 0
        have hnil : perm 0 = [] := List.length_eq_zero.mp h0
        simp [grow, hnil, pick], List.Perm.refl _⟩
    · have hgrow : grow (((first :: rest).length : Int).toNat + 1) (first :: rest)
          ((first :: rest).length : Int) = some (first :: rest) := by
        unfold grow
        simp
      obtain ⟨elements, hret, hpick, _⟩ := hcall (first :: rest) (first :: rest) _ hgrow
      refine ⟨elements, hret, ?_⟩
      apply pick_perm _ _ _ _ hpick
      rw [List.take_of_length_le (by rw [hlenperm])]
      exact hperm _

theorem C27_random_elements_from_array_witness :
    (∀ n, (descending n).Perm (List.range n)) ∧
    RandomElementsFromArray descending [10, 20, 30] 2 = .returned [30, 20] ∧
    ∃ elements, RandomElementsFromArray descending [10, 20, 30] (2 : Nat) =
        .returned elements ∧
      elements.length = 2 ∧ (∀ element ∈ elements, element ∈ [10, 20, 30]) ∧
      (2 ≤ [10, 20, 30].length →
        ∃ positions : List Nat, positions.Nodup ∧
          List.Forall₂ (fun position element => [10, 20, 30][position]? = some element)
            positions elements) :=
  ⟨fun n => List.reverse_perm _, rfl,
   (C27_random_elements_from_array descending (fun n => List.reverse_perm _)).1
     [10, 20, 30] 2 (by simp)⟩

end random

namespace bytes_diff_visualizer

theorem intmin_le_left (a b : Int) : intmin a b ≤ a := by
  unfold intmin
  split <;> omega

theorem intmin_le_right (a b : Int) : intmin a b ≤ b := by
  unfold intmin
  split <;> omega

theorem lt_intmin (a b c : Int) (h1 : c < a) (h2 : c < b) : c < intmin a b := by
  unfold intmin
  split <;> omega

theorem sliceBytes_of_le (value : Bytes) (lo hi : Int) (h0 : 0 ≤ lo) (h1 : lo ≤ hi)
    (h2 : hi ≤ (value.length : Int)) :
    sliceBytes value lo hi = some ((value.drop lo.toNat).take (hi - lo).toNat) := by
  simp [sliceBytes, h0, h1, h2]

theorem sliceString_zero (str : String) (length : Int) (h0 : 0 ≤ length)
    (h1 : length ≤ (str.length : Int)) :
    sliceString str 0 length = some (String.mk (str.data.take length.toNat)) := by
  unfold sliceString
  have h : (0 : Int) ≤ 0 ∧ 0 ≤ length ∧ length ≤ (str.length : Int) := ⟨le_refl _, h0, h1⟩
  rw [if_pos h]
  simp

theorem length_append_space (str : String) : (str ++ " ").length = str.length + 1 := by
  rw [String.length_append]
  rfl

theorem data_append_space (str : String) : (str ++ " ").data = str.data ++ [' '] := by
  rw [String.data_append]

/-- With the pad `" "` the loop of `PadRight` ends: the result is the string followed by
spaces, cut to `length` characters. -/
theorem padLoop_space (fuel : Nat) (str : String) (length : Int) (h0 : 0 ≤ length)
    (hfuel : length.toNat ≤ fuel + str.length) :
    ∃ k, padLoop (fuel + 1) str " " length =
      some (String.mk ((str.data ++ List.replicate k ' ').take length.toNat)) := by
  induction fuel generalizing str with
  | zero =>
    unfold padLoop
    have hlen := length_append_space str
    have hgt : ((str ++ " ").length : Int) > length := by
      rw [hlen]
      omega
    simp only [hgt, if_true]
    refine ⟨1, ?_⟩
    rw [sliceString_zero _ _ h0 (by omega), data_append_space]
    rfl
  | succ fuel ih =>
    unfold padLoop
    have hlen := length_append_space str
    by_cases hgt : ((str ++ " ").length : Int) > length
    · simp only [hgt, if_true]
      refine ⟨1, ?_⟩
      rw [sliceString_zero _ _ h0 (by omega), data_append_space]
      rfl
    · simp only [hgt, if_false]
      obtain ⟨k, hk⟩ := ih (str ++ " ") (by rw [hlen]; omega)
      refine ⟨k + 1, ?_⟩
      rw [hk, data_append_space, List.append_assoc]
      rfl

theorem PadRight_space (str : String) (length : Int) (h0 : 0 ≤ length) :
    ∃ k, PadRight str " " length =
      some (String.mk ((str.data ++ List.replicate k ' ').take length.toNat)) := by
  unfold PadRight
  exact padLoop_space _ _ _ h0 (by omega)

theorem PadRight_total (str : String) (length : Int) (h0 : 0 ≤ length) :
    ∃ padded, PadRight str " " length = some padded := by
  obtain ⟨k, hk⟩ := PadRight_space str length h0
  exact ⟨_, hk⟩

/-- In a row that starts inside the slice, no slice expression of the two formatting
functions is out of range and both return. -/
theorem formatRow_total (noColor : Bool) (value : Bytes) (i firstDiffIndex : Int)
    (chosenColor : Nat)
    (h0 : 0 ≤ i) (h1 : i < (value.length : Int)) :
    (∃ bytesAsHex, formatHexWithColorizedByte noColor value i firstDiffIndex
        (intmin (i + 20) value.length) chosenColor = some bytesAsHex) ∧
    (∃ bytesAsAscii, formatAsciiWithColorizedByte noColor value i firstDiffIndex
        (intmin (i + 20) value.length) chosenColor = some bytesAsAscii) := by
  have hend1 : intmin (i + 20) value.length ≤ (value.length : Int) := intmin_le_right _ _
  have hend2 : i < intmin (i + 20) value.length := lt_intmin _ _ _ (by omega) h1
  unfold formatHexWithColorizedByte formatAsciiWithColorizedByte
    formatHexWithColorizedByteHelper formatAsciiWithColorizedByteHelper
  by_cases hin : firstDiffIndex ≥ i ∧ firstDiffIndex < intmin (i + 20) value.length
  · obtain ⟨hin1, hin2⟩ := hin
    rw [if_pos ⟨hin1, hin2⟩, if_pos ⟨hin1, hin2⟩,
      sliceBytes_of_le value i firstDiffIndex h0 hin1 (by omega),
      sliceBytes_of_le value firstDiffIndex (firstDiffIndex + 1) (by omega) (by omega)
        (by omega),
      sliceBytes_of_le value (firstDiffIndex + 1) _ (by omega) (by omega) hend1]
    exact ⟨PadRight_total _ 69 (by omega), _, rfl⟩
  · rw [if_neg hin, if_neg hin, sliceBytes_of_le value i _ h0 (by omega) hend1]
    exact ⟨PadRight_total _ 60 (by omega), _, rfl⟩

theorem rowStarts_mem (fuel : Nat) (i bound x : Int) (h : x ∈ rowStarts fuel i bound) :
    i ≤ x ∧ x < bound := by
  induction fuel generalizing i with
  | zero => simp [rowStarts] at h
  | succ fuel ih =>
    unfold rowStarts at h
    by_cases hlt : i < bound
    · rw [if_pos hlt] at h
      rcases List.mem_cons.mp h with rfl | h
      · exact ⟨le_refl _, hlt⟩
      · have := ih _ h
        omega
    · rw [if_neg hlt] at h
      exact absurd h (List.not_mem_nil _)

theorem writeRows_total (noColor : Bool) (value : Bytes) (firstDiffIndex : Int)
    (chosenColor : Nat)
    (rows : List Int) (h : ∀ i ∈ rows, 0 ≤ i ∧ i < (value.length : Int)) :
    ∃ written, writeRows noColor value firstDiffIndex chosenColor rows = some written := by
  induction rows with
  | nil => exact ⟨_, rfl⟩
  | cons i rest ih =>
    obtain ⟨h0, h1⟩ := h i (List.mem_cons_self _ _)
    obtain ⟨⟨bytesAsHex, hhex⟩, ⟨bytesAsAscii, hascii⟩⟩ :=
      formatRow_total noColor value i firstDiffIndex chosenColor h0 h1
    obtain ⟨written, hrest⟩ := ih (fun x hx => h x (List.mem_cons_of_mem _ hx))
    unfold writeRows
    simp only [hhex, hascii, hrest]
    exact ⟨_, rfl⟩

theorem byteRangeStart_nonneg (firstDiffIndex : Int) : 0 ≤ byteRangeStart firstDiffIndex := by
  unfold byteRangeStart intmax
  dsimp only
  split <;> omega

/-- A block is written whatever the slice: the header is padded and every row formats. -/
theorem writeBlock_total (noColor : Bool) (title : String) (value : Bytes)
    (firstDiffIndex : Int)
    (byteRangeEnd : Int) (chosenColor : Nat) :
    ∃ leftHeader rows, writeBlock noColor title value firstDiffIndex (byteRangeStart firstDiffIndex)
        byteRangeEnd chosenColor = some (leftHeader ++ "| ASCII:\n" ++ rows) := by
  unfold writeBlock
  obtain ⟨leftHeader, hheader⟩ := PadRight_total
    (title ++ " (bytes " ++ toString (byteRangeStart firstDiffIndex) ++ "-" ++
      toString byteRangeEnd ++ "), hexadecimal:") 60 (by omega)
  obtain ⟨rows, hrows⟩ := writeRows_total noColor value firstDiffIndex chosenColor
    (rowStarts (intmin byteRangeEnd value.length - byteRangeStart firstDiffIndex).toNat
      (byteRangeStart firstDiffIndex) (intmin byteRangeEnd value.length))
    (fun i hi => by
      obtain ⟨h1, h2⟩ := rowStarts_mem _ _ _ _ hi
      have h3 := byteRangeStart_nonneg firstDiffIndex
      have h4 := intmin_le_right byteRangeEnd value.length
      omega)
  rw [hheader]
  simp only [hrows]
  exact ⟨_, _, rfl⟩

theorem splitChars_ne_nil (cs : List Char) (sep : Char) : splitChars cs sep ≠ [] := by
  induction cs with
  | nil => simp [splitChars]
  | cons c cs ih =>
    unfold splitChars
    split
    · simp
    · split <;> simp

theorem Split_ne_nil (s : String) (sep : Char) : Split s sep ≠ [] := by
  unfold Split
  intro h
  exact splitChars_ne_nil _ _ (List.map_eq_nil_iff.mp h)

/-- On unequal inputs `VisualizeByteDiff` returns, and what it returns is what
`strings.Split` makes of a string. -/
theorem VisualizeByteDiff_unequal (noColor : Bool) (actual expected : Bytes)
    (hne : actual ≠ expected) :
    ∃ output, VisualizeByteDiff noColor actual expected = some (Split output '\n') := by
  unfold VisualizeByteDiff
  rw [if_neg hne]
  unfold linesBuffer
  obtain ⟨header1, rows1, h1⟩ := writeBlock_total noColor "Expected" expected
    (firstDiffIndex actual expected)
    (byteRangeEnd actual expected (byteRangeStart (firstDiffIndex actual expected))) FgHiGreen
  obtain ⟨header2, rows2, h2⟩ := writeBlock_total noColor "Actual" actual
    (firstDiffIndex actual expected)
    (byteRangeEnd actual expected (byteRangeStart (firstDiffIndex actual expected))) FgHiRed
  simp only [h1, h2]
  generalize hout : header1 ++ "| ASCII:\n" ++ rows1 ++ "\n" ++
    (header2 ++ "| ASCII:\n" ++ rows2) = output
  have hpos : 0 < output.length := by
    rw [← hout]
    simp only [String.length_append]
    have : "\n".length = 1 := rfl
    omega
  have hidx : output.length - 1 < output.data.length := by
    have : output.data.length = output.length := rfl
    omega
  rw [List.getElem?_eq_getElem hidx]
  dsimp only
  split
  · rw [sliceString_zero _ _ (by omega) (by omega)]
    exact ⟨_, rfl⟩
  · exact ⟨_, rfl⟩

/-- C29: `VisualizeByteDiff` is total: for all byte slices, with or without colours, it
returns, so no slice or
index expression in it or in its formatting helpers is out of range and each of its loops
ends; the same holds for the two formatting functions on every row that starts inside the
slice, and for `PadRight` with the pad it is called with. -/
theorem C29_visualize_byte_diff_total :
    (∀ (noColor : Bool) (actual expected : Bytes),
      ∃ lines, VisualizeByteDiff noColor actual expected = some lines) ∧
    (∀ (noColor : Bool) (value : Bytes) (i firstDiffIndex : Int) (chosenColor : Nat),
      0 ≤ i → i < (value.length : Int) →
      (∃ bytesAsHex, formatHexWithColorizedByte noColor value i firstDiffIndex
          (intmin (i + 20) value.length) chosenColor = some bytesAsHex) ∧
      (∃ bytesAsAscii, formatAsciiWithColorizedByte noColor value i firstDiffIndex
          (intmin (i + 20) value.length) chosenColor = some bytesAsAscii)) ∧
    (∀ (str : String) (length : Int), 0 ≤ length →
      ∃ padded, PadRight str " " length = some padded) := by
  refine ⟨?_, formatRow_total, PadRight_total⟩
  intro noColor actual expected
  by_cases h : actual = expected
  · exact ⟨[], by unfold VisualizeByteDiff; rw [if_pos h]⟩
  · obtain ⟨output, hout⟩ := VisualizeByteDiff_unequal noColor actual expected h
    exact ⟨_, hout⟩

/-- C24: `VisualizeByteDiff` returns an empty list of lines if and only if `actual` and
`expected` are equal, and for every pair of unequal inputs it returns a list that is not
empty, with or without colours. -/
theorem C24_empty_iff_equal (noColor : Bool) (actual expected : Bytes) :
    (VisualizeByteDiff noColor actual expected = some [] ↔ actual = expected) ∧
    (actual ≠ expected →
      ∃ lines, VisualizeByteDiff noColor actual expected = some lines ∧ lines ≠ []) := by
  have hunequal : actual ≠ expected →
      ∃ lines, VisualizeByteDiff noColor actual expected = some lines ∧ lines ≠ [] := by
    intro hne
    obtain ⟨output, hout⟩ := VisualizeByteDiff_unequal noColor actual expected hne
    exact ⟨_, hout, Split_ne_nil _ _⟩
  refine ⟨⟨?_, ?_⟩, hunequal⟩
  · intro hempty
    by_contra hne
    obtain ⟨lines, hlines, hnonempty⟩ := hunequal hne
    rw [hempty] at hlines
    simp only [Option.some.injEq] at hlines
    exact hnonempty hlines.symm
  · intro heq
    unfold VisualizeByteDiff
    rw [if_pos heq]

theorem C24_empty_iff_equal_witness :
    ([97] : Bytes) ≠ [98] ∧
    ∃ lines, VisualizeByteDiff false [97] [98] = some lines ∧ lines ≠ [] :=
  ⟨by decide, (C24_empty_iff_equal false [97] [98]).2 (by decide)⟩

theorem C29_visualize_byte_diff_total_witness :
    (0 : Int) ≤ 0 ∧ (0 : Int) < (([97, 98] : Bytes).length : Int) ∧
    (∃ bytesAsHex, formatHexWithColorizedByte false [97, 98] 0 2
        (intmin (0 + 20) ([97, 98] : Bytes).length) FgHiRed = some bytesAsHex) ∧
    (∃ bytesAsAscii, formatAsciiWithColorizedByte false [97, 98] 0 2
        (intmin (0 + 20) ([97, 98] : Bytes).length) FgHiRed = some bytesAsAscii) :=
  ⟨by decide, by decide,
   C29_visualize_byte_diff_total.2.1 false [97, 98] 0 2 FgHiRed (by decide) (by decide)⟩

end bytes_diff_visualizer

namespace bytes_diff_visualizer

set_option maxRecDepth 100000 in
/-- C25, evaluated where the inputs differ at their first byte: `actual` is `"a"` and
`expected` is `"b"`. Each row of the result starts with a space before the coloured hex
value, so that with the colour sequences removed the hex column reads `" 62"` and `" 61"`
followed by 57 spaces, where the rows without a coloured byte start with the hex value.
The space is there without colours as well, and the hex column of the two rows is then 69
characters wide. -/
theorem C25_row_of_first_byte_starts_with_space :
    VisualizeByteDiff false [97] [98] = some
      ["Expected (bytes 0-1), hexadecimal:                          | ASCII:",
       " \x1b[92m62\x1b[0m                                                         | \x1b[92mb\x1b[0m",
       "",
       "Actual (bytes 0-1), hexadecimal:                            | ASCII:",
       " \x1b[91m61\x1b[0m                                                         | \x1b[91ma\x1b[0m"] ∧
    formatHexWithColorizedByte false [98, 99] 0 2 2 FgHiGreen = some
      "62 63                                                       " ∧
    VisualizeByteDiff true [97] [98] = some
      ["Expected (bytes 0-1), hexadecimal:                          | ASCII:",
       " 62                                                                  | b",
       "",
       "Actual (bytes 0-1), hexadecimal:                            | ASCII:",
       " 61                                                                  | a"] := by
  refine ⟨?_, ?_, ?_⟩ <;> rfl

end bytes_diff_visualizer

namespace bytes_diff_visualizer

theorem digitChar_ne_escape (n : Nat) : Nat.digitChar (n % 16) ≠ escape := by
  have h : ∀ m < 16, Nat.digitChar m ≠ escape := by decide
  exact h _ (Nat.mod_lt _ (by omega))

theorem hex02_no_escape (b : Nat) : escape ∉ (hex02 b).data := by
  unfold hex02
  intro h
  simp only [List.mem_cons, List.mem_singleton, List.not_mem_nil, or_false] at h
  rcases h with h | h
  · exact digitChar_ne_escape _ h.symm
  · exact digitChar_ne_escape _ h.symm

theorem hex02_length (b : Nat) : (hex02 b).length = 2 := rfl

theorem hexGo (acc : String) (bytes : Bytes) :
    (String.intercalate.go acc " " (bytes.map hex02)).length = acc.length + 3 * bytes.length ∧
    (escape ∉ acc.data → escape ∉ (String.intercalate.go acc " " (bytes.map hex02)).data) := by
  induction bytes generalizing acc with
  | nil => exact ⟨rfl, fun h => h⟩
  | cons b rest ih =>
    simp only [List.map_cons, String.intercalate.go]
    obtain ⟨hlen, hesc⟩ := ih (acc ++ " " ++ hex02 b)
    constructor
    · rw [hlen]
      simp only [String.length_append, hex02_length, List.length_cons]
      have : " ".length = 1 := rfl
      omega
    · intro hacc
      apply hesc
      simp only [String.data_append, List.mem_append, not_or]
      exact ⟨⟨hacc, by decide⟩, hex02_no_escape b⟩

theorem formatBytesAsHex_length (bytes : Bytes) :
    (formatBytesAsHex bytes).length = 3 * bytes.length - 1 := by
  cases bytes with
  | nil => rfl
  | cons b rest =>
    unfold formatBytesAsHex
    simp only [List.map_cons, String.intercalate]
    rw [(hexGo _ _).1, hex02_length, List.length_cons]
    omega

theorem formatBytesAsHex_no_escape (bytes : Bytes) : escape ∉ (formatBytesAsHex bytes).data := by
  cases bytes with
  | nil => decide
  | cons b rest =>
    unfold formatBytesAsHex
    simp only [List.map_cons, String.intercalate]
    exact (hexGo _ _).2 (hex02_no_escape b)

theorem asciiChar_no_escape (b : Nat) :
    escape ∉ (if b < 32 ∨ b > 126 then "." else String.singleton (Char.ofNat b)).data := by
  by_cases h : b < 32 ∨ b > 126
  · rw [if_pos h]
    decide
  · rw [if_neg h]
    have h1 : 32 ≤ b := by omega
    have h2 : b ≤ 126 := by omega
    interval_cases b <;> decide

theorem join_no_escape (acc : String) (strs : List String) (hacc : escape ∉ acc.data)
    (h : ∀ s ∈ strs, escape ∉ s.data) :
    escape ∉ (strs.foldl (fun r s => r ++ s) acc).data := by
  induction strs generalizing acc with
  | nil => exact hacc
  | cons s rest ih =>
    simp only [List.foldl_cons]
    apply ih
    · simp only [String.data_append, List.mem_append, not_or]
      exact ⟨hacc, h s (List.mem_cons_self _ _)⟩
    · exact fun t ht => h t (List.mem_cons_of_mem _ ht)

theorem formatBytesAsAscii_no_escape (bytes : Bytes) :
    escape ∉ (formatBytesAsAscii bytes).data := by
  unfold formatBytesAsAscii String.join
  apply join_no_escape
  · decide
  · intro s hs
    obtain ⟨b, _, rfl⟩ := List.mem_map.1 hs
    exact asciiChar_no_escape b

theorem colorizeString_length (chosenColor : Nat) (msg : String)
    (h : chosenColor = FgHiGreen ∨ chosenColor = FgHiRed) :
    (colorizeString false chosenColor msg).length = msg.length + 9 := by
  unfold colorizeString
  rw [if_neg Bool.false_ne_true]
  rcases h with rfl | rfl
  · simp only [String.length_append]
    have h1 : (String.singleton escape).length = 1 := rfl
    have h2 : "[".length = 1 := rfl
    have h3 : (toString FgHiGreen).length = 2 := by decide
    have h4 : "m".length = 1 := rfl
    have h5 : "[0m".length = 3 := rfl
    omega
  · simp only [String.length_append]
    have h1 : (String.singleton escape).length = 1 := rfl
    have h2 : "[".length = 1 := rfl
    have h3 : (toString FgHiRed).length = 2 := by decide
    have h4 : "m".length = 1 := rfl
    have h5 : "[0m".length = 3 := rfl
    omega

end bytes_diff_visualizer

namespace bytes_diff_visualizer

theorem firstDiffLoop_spec (actual expected : Bytes) (i : Int) (hi : 0 ≤ i) :
    (firstDiffLoop actual expected i = -1 ∧
      ∀ j : Nat, j < actual.length → j < expected.length → actual[j]? = expected[j]?) ∨
    (∃ k : Nat, firstDiffLoop actual expected i = i + k ∧ k < actual.length ∧
      k < expected.length ∧ actual[k]? ≠ expected[k]? ∧
      ∀ j : Nat, j < k → actual[j]? = expected[j]?) := by
  induction actual generalizing expected i with
  | nil =>
    left
    exact ⟨by unfold firstDiffLoop; rfl, fun j hj => absurd hj (Nat.not_lt_zero _)⟩
  | cons a rest ih =>
    cases expected with
    | nil =>
      left
      exact ⟨by unfold firstDiffLoop; rfl, fun j _ hj => absurd hj (Nat.not_lt_zero _)⟩
    | cons e others =>
      unfold firstDiffLoop
      by_cases hae : a = e
      · subst hae
        simp only [ne_eq, not_true_eq_false, if_false]
        rcases ih others (i + 1) (by omega) with ⟨hloop, hall⟩ | ⟨k, hloop, hk1, hk2, hdiff, hall⟩
        · left
          refine ⟨hloop, ?_⟩
          intro j hj1 hj2
          cases j with
          | zero => simp
          | succ j =>
            simp only [List.getElem?_cons_succ]
            exact hall j (by simpa using hj1) (by simpa using hj2)
        · right
          refine ⟨k + 1, ?_, by simpa using hk1, by simpa using hk2, ?_, ?_⟩
          · rw [hloop]
            push_cast
            ring
          · simpa only [List.getElem?_cons_succ] using hdiff
          · intro j hj
            cases j with
            | zero => simp
            | succ j =>
              simp only [List.getElem?_cons_succ]
              exact hall j (by omega)
      · right
        refine ⟨0, ?_, by simp, by simp, ?_, fun j hj => absurd hj (Nat.not_lt_zero _)⟩
        · simp [hae]
        · simpa using hae

/-- On unequal inputs `firstDiffIndex` is the first index at which the two slices differ,
an index at which one of them has no byte included. -/
theorem firstDiffIndex_spec (actual expected : Bytes) (hne : actual ≠ expected) :
    ∃ fd : Nat, firstDiffIndex actual expected = (fd : Int) ∧
      (∀ j : Nat, j < fd → actual[j]? = expected[j]?) ∧ actual[fd]? ≠ expected[fd]? ∧
      (fd < actual.length ∨ fd < expected.length) := by
  unfold firstDiffIndex
  rcases firstDiffLoop_spec actual expected 0 (le_refl _) with
    ⟨hloop, hall⟩ | ⟨k, hloop, hk1, hk2, hdiff, hall⟩
  · rw [hloop]
    simp only [if_true]
    by_cases hgt : actual.length > expected.length
    · rw [if_pos hgt]
      refine ⟨expected.length, rfl, fun j hj => hall j (by omega) hj, ?_, Or.inl hgt⟩
      rw [List.getElem?_eq_none (le_refl _), List.getElem?_eq_getElem hgt]
      simp
    · rw [if_neg hgt]
      have hlt : actual.length < expected.length := by
        rcases Nat.lt_or_ge actual.length expected.length with h | h
        · exact h
        · exfalso
          have hlen : actual.length = expected.length := by omega
          apply hne
          apply List.ext_getElem?
          intro j
          by_cases hj : j < actual.length
          · exact hall j hj (by omega)
          · rw [List.getElem?_eq_none (by omega), List.getElem?_eq_none (by omega)]
      refine ⟨actual.length, rfl, fun j hj => hall j hj (by omega), ?_, Or.inr hlt⟩
      rw [List.getElem?_eq_none (le_refl _), List.getElem?_eq_getElem hlt]
      simp
  · rw [hloop]
    have hnot : ¬ ((0 : Int) + (k : Int) = -1) := by omega
    simp only [hnot, if_false]
    exact ⟨k, by simp, hall, hdiff, Or.inl hk1⟩

/-- With enough turns, the loop over the rows visits the positions `i`, `i + 20`, ... that
are below the bound. -/
theorem rowStarts_mem_iff (fuel : Nat) (i bound x : Int) (hfuel : (bound - i).toNat ≤ fuel) :
    x ∈ rowStarts fuel i bound ↔ ∃ k : Nat, x = i + 20 * (k : Int) ∧ x < bound := by
  induction fuel generalizing i with
  | zero =>
    unfold rowStarts
    constructor
    · intro h
      exact absurd h (List.not_mem_nil _)
    · rintro ⟨k, hk, hlt⟩
      omega
  | succ fuel ih =>
    unfold rowStarts
    by_cases hlt : i < bound
    · rw [if_pos hlt, List.mem_cons, ih (i + 20) (by omega)]
      constructor
      · rintro (rfl | ⟨k, hk, hx⟩)
        · exact ⟨0, by simp, hlt⟩
        · exact ⟨k + 1, by push_cast; omega, hx⟩
      · rintro ⟨k, hk, hx⟩
        cases k with
        | zero =>
          left
          simpa using hk
        | succ k =>
          right
          exact ⟨k, by push_cast at hk; omega, hx⟩
    · rw [if_neg hlt]
      constructor
      · intro h
        exact absurd h (List.not_mem_nil _)
      · rintro ⟨k, hk, hx⟩
        omega

theorem window_spec (actual expected : Bytes) (fd : Nat)
    (h : fd < actual.length ∨ fd < expected.length) :
    0 ≤ byteRangeStart fd ∧ byteRangeStart fd ≤ fd ∧
      (fd : Int) < byteRangeEnd actual expected (byteRangeStart fd) ∧
      byteRangeEnd actual expected (byteRangeStart fd) ≤ byteRangeStart fd + 100 := by
  unfold byteRangeEnd byteRangeStart intmin intmax
  dsimp only
  split_ifs <;> omega

end bytes_diff_visualizer

namespace bytes_diff_visualizer

/-- A row without the first differing byte: both columns are written and neither holds
an escape character. -/
theorem formatRow_plain (noColor : Bool) (value : Bytes) (i firstDiffIndex : Int)
    (chosenColor : Nat)
    (h0 : 0 ≤ i) (h1 : i < (value.length : Int))
    (hnot : ¬ (firstDiffIndex ≥ i ∧ firstDiffIndex < intmin (i + 20) value.length)) :
    ∃ bytesAsHex bytesAsAscii,
      formatHexWithColorizedByte noColor value i firstDiffIndex (intmin (i + 20) value.length)
        chosenColor = some bytesAsHex ∧ escape ∉ bytesAsHex.data ∧
      formatAsciiWithColorizedByte noColor value i firstDiffIndex (intmin (i + 20) value.length)
        chosenColor = some bytesAsAscii ∧ escape ∉ bytesAsAscii.data := by
  have hend1 : intmin (i + 20) value.length ≤ (value.length : Int) := intmin_le_right _ _
  have hend2 : i < intmin (i + 20) value.length := lt_intmin _ _ _ (by omega) h1
  unfold formatHexWithColorizedByte formatAsciiWithColorizedByte
  rw [if_neg hnot, if_neg hnot, sliceBytes_of_le value i _ h0 (by omega) hend1]
  dsimp only
  obtain ⟨k, hk⟩ := PadRight_space (formatBytesAsHex
    ((value.drop i.toNat).take (intmin (i + 20) value.length - i).toNat)) 60 (by omega)
  refine ⟨_, _, hk, ?_, rfl, formatBytesAsAscii_no_escape _⟩
  intro hmem
  have hmem2 := List.mem_of_mem_take hmem
  rcases List.mem_append.1 hmem2 with h | h
  · exact formatBytesAsHex_no_escape _ h
  · have := List.eq_of_mem_replicate h
    exact absurd this (by decide)

/-- The row with the first differing byte, with colours: the hex column is the hex values before the
byte, the coloured hex value of the byte and the hex values after it, joined by spaces and
followed by spaces only; the ASCII column is the characters before the byte, the coloured
character of the byte and the characters after it. -/
theorem formatRow_coloured (value : Bytes) (i : Int) (fd : Nat) (chosenColor : Nat)
    (hcolor : chosenColor = FgHiGreen ∨ chosenColor = FgHiRed)
    (h0 : 0 ≤ i) (hin1 : i ≤ (fd : Int))
    (hin2 : (fd : Int) < intmin (i + 20) value.length) :
    ∃ (before : Bytes) (b : Nat) (after : Bytes) (k : Nat),
      sliceBytes value i fd = some before ∧ value[fd]? = some b ∧
      sliceBytes value ((fd : Int) + 1) (intmin (i + 20) value.length) = some after ∧
      formatHexWithColorizedByte false value i fd (intmin (i + 20) value.length) chosenColor =
        some (formatBytesAsHex before ++ " " ++ colorizeString false chosenColor (hex02 b) ++ " " ++
          formatBytesAsHex after ++ String.mk (List.replicate k ' ')) ∧
      formatAsciiWithColorizedByte false value i fd (intmin (i + 20) value.length) chosenColor =
        some (formatBytesAsAscii before ++
          colorizeString false chosenColor (formatBytesAsAscii [b]) ++ formatBytesAsAscii after) := by
  have hend1 : intmin (i + 20) value.length ≤ (value.length : Int) := intmin_le_right _ _
  have hend3 : intmin (i + 20) value.length ≤ i + 20 := intmin_le_left _ _
  have hfd : fd < value.length := by omega
  have hdiffering : (value.drop ((fd : Int)).toNat).take ((fd : Int) + 1 - fd).toNat =
      [value[fd]] := by
    have h1 : ((fd : Int)).toNat = fd := Int.toNat_ofNat fd
    have h2 : ((fd : Int) + 1 - fd).toNat = 1 := by
      have : (fd : Int) + 1 - fd = 1 := by ring
      rw [this]
      rfl
    rw [h1, h2, List.drop_eq_getElem_cons hfd]
    rfl
  refine ⟨(value.drop i.toNat).take ((fd : Int) - i).toNat, value[fd],
    (value.drop ((fd : Int) + 1).toNat).take
      (intmin (i + 20) value.length - ((fd : Int) + 1)).toNat, ?_⟩
  have hbefore : ((value.drop i.toNat).take ((fd : Int) - i).toNat).length =
      ((fd : Int) - i).toNat := by
    rw [List.length_take, List.length_drop]
    omega
  have hafter : ((value.drop ((fd : Int) + 1).toNat).take
      (intmin (i + 20) value.length - ((fd : Int) + 1)).toNat).length ≤
      (intmin (i + 20) value.length - ((fd : Int) + 1)).toNat := by
    rw [List.length_take]
    omega
  generalize hb : (value.drop i.toNat).take ((fd : Int) - i).toNat = before at hbefore
  generalize ha : (value.drop ((fd : Int) + 1).toNat).take
      (intmin (i + 20) value.length - ((fd : Int) + 1)).toNat = after at hafter
  have hs1 := sliceBytes_of_le value i fd h0 hin1 (by omega)
  have hs2 := sliceBytes_of_le value fd ((fd : Int) + 1) (by omega) (by omega) (by omega)
  have hs3 := sliceBytes_of_le value ((fd : Int) + 1) (intmin (i + 20) value.length)
    (by omega) (by omega) hend1
  rw [hb] at hs1
  rw [hdiffering] at hs2
  rw [ha] at hs3
  have hhex1 : formatBytesAsHex [value[fd]] = hex02 value[fd] := rfl
  obtain ⟨k0, hk0⟩ := PadRight_space (formatBytesAsHex before ++ " " ++
    colorizeString false chosenColor (hex02 value[fd]) ++ " " ++ formatBytesAsHex after) 69
    (by omega)
  have hlen : (formatBytesAsHex before ++ " " ++
      colorizeString false chosenColor (hex02 value[fd]) ++ " " ++ formatBytesAsHex after).length
      ≤ 69 := by
    simp only [String.length_append, formatBytesAsHex_length,
      colorizeString_length _ _ hcolor, hex02_length]
    have h1 : " ".length = 1 := rfl
    omega
  refine ⟨min (69 - (formatBytesAsHex before ++ " " ++
      colorizeString false chosenColor (hex02 value[fd]) ++ " " ++ formatBytesAsHex after).length) k0,
    hs1, List.getElem?_eq_getElem hfd, hs3, ?_, ?_⟩
  · unfold formatHexWithColorizedByte formatHexWithColorizedByteHelper
    rw [if_pos ⟨hin1, hin2⟩, hs1, hs2, hs3]
    dsimp only
    rw [hhex1, hk0]
    generalize formatBytesAsHex before ++ " " ++
      colorizeString false chosenColor (hex02 value[fd]) ++ " " ++ formatBytesAsHex after = helper
      at hlen ⊢
    have hlen1 : helper.data.length ≤ 69 := hlen
    have h69 : (69 : Int).toNat = 69 := rfl
    congr 1
    apply String.ext
    rw [h69, String.data_append]
    show List.take 69 (helper.data ++ List.replicate k0 ' ') = _
    rw [List.take_append_eq_append_take, List.take_of_length_le hlen1, List.take_replicate]
    rfl
  · unfold formatAsciiWithColorizedByte formatAsciiWithColorizedByteHelper
    rw [if_pos ⟨hin1, hin2⟩, hs1, hs2, hs3]

end bytes_diff_visualizer

namespace bytes_diff_visualizer

/-- With colours, on unequal inputs the byte that the rows of `VisualizeByteDiff` colour is
the one at the first index `fd` where `actual` and `expected` differ (the length of the
shorter one when it is a prefix of the other). That index is inside the displayed window. On each side,
`expected` in green and `actual` in red, every row that the loop writes either holds `fd`,
and then both its columns colour exactly the byte at `fd` (the hex column is not cut inside
the colour sequence), or it holds no escape character at all; a side that has a byte at
`fd` writes exactly one row that holds it, a side that has none writes no such row; and the
hex values and characters around the coloured byte hold no escape character. -/
theorem coloured_rows_of_first_difference (actual expected : Bytes) (hne : actual ≠ expected) :
    ∃ fd : Nat, firstDiffIndex actual expected = (fd : Int) ∧
      (∀ j : Nat, j < fd → actual[j]? = expected[j]?) ∧ actual[fd]? ≠ expected[fd]? ∧
      byteRangeStart fd ≤ (fd : Int) ∧
      (fd : Int) < byteRangeEnd actual expected (byteRangeStart fd) ∧
      (∀ (value : Bytes) (chosenColor : Nat),
        (value = expected ∧ chosenColor = FgHiGreen) ∨
          (value = actual ∧ chosenColor = FgHiRed) →
        (∀ i ∈ rowStarts
            (intmin (byteRangeEnd actual expected (byteRangeStart fd)) value.length -
              byteRangeStart fd).toNat (byteRangeStart fd)
            (intmin (byteRangeEnd actual expected (byteRangeStart fd)) value.length),
          (i ≤ (fd : Int) ∧ (fd : Int) < intmin (i + 20) value.length →
            ∃ (before : Bytes) (b : Nat) (after : Bytes) (k : Nat),
              sliceBytes value i fd = some before ∧ value[fd]? = some b ∧
              sliceBytes value ((fd : Int) + 1) (intmin (i + 20) value.length) = some after ∧
              formatHexWithColorizedByte false value i fd (intmin (i + 20) value.length)
                  chosenColor =
                some (formatBytesAsHex before ++ " " ++
                  colorizeString false chosenColor (hex02 b) ++ " " ++
                  formatBytesAsHex after ++ String.mk (List.replicate k ' ')) ∧
              formatAsciiWithColorizedByte false value i fd (intmin (i + 20) value.length)
                  chosenColor =
                some (formatBytesAsAscii before ++
                  colorizeString false chosenColor (formatBytesAsAscii [b]) ++
                  formatBytesAsAscii after)) ∧
          (¬ (i ≤ (fd : Int) ∧ (fd : Int) < intmin (i + 20) value.length) →
            ∃ bytesAsHex bytesAsAscii,
              formatHexWithColorizedByte false value i fd (intmin (i + 20) value.length)
                chosenColor = some bytesAsHex ∧ escape ∉ bytesAsHex.data ∧
              formatAsciiWithColorizedByte false value i fd (intmin (i + 20) value.length)
                chosenColor = some bytesAsAscii ∧ escape ∉ bytesAsAscii.data)) ∧
        (fd < value.length →
          ∃ i ∈ rowStarts
              (intmin (byteRangeEnd actual expected (byteRangeStart fd)) value.length -
                byteRangeStart fd).toNat (byteRangeStart fd)
              (intmin (byteRangeEnd actual expected (byteRangeStart fd)) value.length),
            (i ≤ (fd : Int) ∧ (fd : Int) < intmin (i + 20) value.length) ∧
            ∀ other ∈ rowStarts
                (intmin (byteRangeEnd actual expected (byteRangeStart fd)) value.length -
                  byteRangeStart fd).toNat (byteRangeStart fd)
                (intmin (byteRangeEnd actual expected (byteRangeStart fd)) value.length),
              other ≤ (fd : Int) ∧ (fd : Int) < intmin (other + 20) value.length →
              other = i) ∧
        (value.length ≤ fd →
          ∀ i ∈ rowStarts
              (intmin (byteRangeEnd actual expected (byteRangeStart fd)) value.length -
                byteRangeStart fd).toNat (byteRangeStart fd)
              (intmin (byteRangeEnd actual expected (byteRangeStart fd)) value.length),
            ¬ (i ≤ (fd : Int) ∧ (fd : Int) < intmin (i + 20) value.length))) ∧
      (∀ bytes : Bytes, escape ∉ (formatBytesAsHex bytes).data ∧
        escape ∉ (formatBytesAsAscii bytes).data) := by
  obtain ⟨fd, hfd, hbefore, hdiff, hhas⟩ := firstDiffIndex_spec actual expected hne
  obtain ⟨hstart0, hstart, hend, hend100⟩ := window_spec actual expected fd hhas
  refine ⟨fd, hfd, hbefore, hdiff, hstart, hend, ?_,
    fun bytes => ⟨formatBytesAsHex_no_escape bytes, formatBytesAsAscii_no_escape bytes⟩⟩
  intro value chosenColor hside
  have hcolor : chosenColor = FgHiGreen ∨ chosenColor = FgHiRed := by
    rcases hside with ⟨_, h⟩ | ⟨_, h⟩
    · exact Or.inl h
    · exact Or.inr h
  generalize byteRangeEnd actual expected (byteRangeStart fd) = rangeEnd at hend hend100 ⊢
  generalize byteRangeStart fd = rangeStart at hstart0 hstart hend100 ⊢
  have hbound1 := intmin_le_left rangeEnd value.length
  have hbound2 := intmin_le_right rangeEnd value.length
  have hmem := fun x => rowStarts_mem_iff (intmin rangeEnd value.length - rangeStart).toNat
    rangeStart (intmin rangeEnd value.length) x (le_refl _)
  refine ⟨?_, ?_, ?_⟩
  · intro i hi
    obtain ⟨k, hk, hlt⟩ := (hmem i).1 hi
    have h0 : 0 ≤ i := by omega
    have h1 : i < (value.length : Int) := by omega
    constructor
    · rintro ⟨hin1, hin2⟩
      exact formatRow_coloured value i fd chosenColor hcolor h0 hin1 hin2
    · intro hnot
      exact formatRow_plain false value i fd chosenColor h0 h1 (fun h => hnot ⟨h.1, h.2⟩)
  · intro hlen
    have hlt : (fd : Int) < intmin rangeEnd value.length :=
      lt_intmin _ _ _ hend (by omega)
    refine ⟨rangeStart + 20 * ((((fd : Int) - rangeStart) / 20).toNat : Int), ?_, ?_, ?_⟩
    · rw [hmem]
      exact ⟨_, rfl, by omega⟩
    · constructor
      · omega
      · apply lt_intmin
        · omega
        · omega
    · intro other hother hin
      obtain ⟨k, hk, _⟩ := (hmem other).1 hother
      have h20 := intmin_le_left (other + 20) value.length
      omega
  · intro hlen i _ hin
    have h20 := intmin_le_right (i + 20) value.length
    omega

theorem coloured_rows_of_first_difference_sample :
    ([72, 105] : Bytes) ≠ [72, 111] ∧
    ∃ fd : Nat, firstDiffIndex [72, 105] [72, 111] = (fd : Int) ∧
      (∀ j : Nat, j < fd → ([72, 105] : Bytes)[j]? = ([72, 111] : Bytes)[j]?) ∧
      ([72, 105] : Bytes)[fd]? ≠ ([72, 111] : Bytes)[fd]? := by
  obtain ⟨fd, h1, h2, h3, _⟩ := coloured_rows_of_first_difference [72, 105] [72, 111] (by decide)
  exact ⟨by decide, fd, h1, h2, h3⟩

set_option maxRecDepth 100000 in
/-- C26, evaluated on `"Hello, World!"` and `"Hello, Go!"`, which first differ at index 7.
While `color.NoColor` is set, as it is for a process whose standard output is not a
terminal and that has created no logger, `VisualizeByteDiff` colours no byte: the five
lines it returns hold no escape sequence. While it is cleared, the byte at index 7 is
green in both columns of the Expected row and red in both columns of the Actual row, and
no other byte is coloured. -/
theorem C26_no_byte_coloured_without_colours :
    VisualizeByteDiff true helloWorld helloGo = some
      ["Expected (bytes 0-13), hexadecimal:                         | ASCII:",
       "48 65 6c 6c 6f 2c 20 47 6f 21                                        | Hello, Go!",
       "",
       "Actual (bytes 0-13), hexadecimal:                           | ASCII:",
       "48 65 6c 6c 6f 2c 20 57 6f 72 6c 64 21                               | Hello, World!"] ∧
    VisualizeByteDiff false helloWorld helloGo = some
      ["Expected (bytes 0-13), hexadecimal:                         | ASCII:",
       "48 65 6c 6c 6f 2c 20 \x1b[92m47\x1b[0m 6f 21                               | Hello, \x1b[92mG\x1b[0mo!",
       "",
       "Actual (bytes 0-13), hexadecimal:                           | ASCII:",
       "48 65 6c 6c 6f 2c 20 \x1b[91m57\x1b[0m 6f 72 6c 64 21                      | Hello, \x1b[91mW\x1b[0morld!"] ∧
    firstDiffIndex helloWorld helloGo = 7 := by
  refine ⟨?_, ?_, ?_⟩ <;> rfl

end bytes_diff_visualizer

namespace logger

/-- C28, evaluated on the logger that `GetQuietLogger` returns: `Successf`, `Successln`,
`Infof`, `Infoln`, `Errorf`, `Errorln`, `Debugf` and `Debugln` write nothing and
`Criticalf` and `Criticalln` write their lines, for every message; but `Plainln` and
`Plainf`, which do not test `IsQuiet`, write the line `hello` of the message `"hello"`. -/
theorem C28_quiet_logger_writes_plain_lines :
    (∀ p msg : String,
      (GetQuietLogger p).Successf msg = [] ∧ (GetQuietLogger p).Successln msg = [] ∧
      (GetQuietLogger p).Infof msg = [] ∧ (GetQuietLogger p).Infoln msg = [] ∧
      (GetQuietLogger p).Errorf msg = [] ∧ (GetQuietLogger p).Errorln msg = [] ∧
      (GetQuietLogger p).Debugf msg = [] ∧ (GetQuietLogger p).Debugln msg = []) ∧
    (∀ p msg : String, ∃ lines,
      (GetQuietLogger p).Criticalf msg = some lines ∧
      (GetQuietLogger p).Criticalln msg = some lines ∧ lines ≠ []) ∧
    (GetQuietLogger "").Plainln "hello" = ["\x1b[33m\x1b[0mhello\n"] ∧
    (GetQuietLogger "").Plainf "hello" = ["\x1b[33m\x1b[0mhello\n"] ∧
    (∀ (l : Logger) (msg : String), l.Plainln msg ≠ [] ∧ l.Plainf msg ≠ []) := by
  refine ⟨fun p msg => ⟨rfl, rfl, rfl, rfl, rfl, rfl, rfl, rfl⟩, ?_, by rfl, by rfl, ?_⟩
  · intro p msg
    refine ⟨_, rfl, rfl, ?_⟩
    intro h
    exact bytes_diff_visualizer.Split_ne_nil msg '\n'
      (List.map_eq_nil_iff.mp (List.map_eq_nil_iff.mp h))
  · intro l msg
    constructor
    · intro h
      exact bytes_diff_visualizer.Split_ne_nil msg '\n' (List.map_eq_nil_iff.mp h)
    · intro h
      exact bytes_diff_visualizer.Split_ne_nil msg '\n' (List.map_eq_nil_iff.mp h)

end logger

end TesterUtils
